import Mathlib

/-!
# Verification of the ShadowsocksConfig library (src/ShadowsocksConfig.ts)

A shallow embedding of the configuration-field validators, the `Config`
aggregate, the two URI codecs (`LegacyBase64URI`, `Sip002URI`) and the
multi-format dispatcher `ShadowsocksURI.parse`, together with models of the
external collaborators the library relies on:

* the `base-64` npm package (`b64Encode`/`b64Decode`),
* JavaScript's `encodeURIComponent`/`decodeURIComponent`,
* the WHATWG `URL` class (as provided by Node's `require('url').URL` of the
  library's era), restricted to the `http:` scheme, which is the only scheme
  the library ever feeds to it.

JavaScript strings are modelled as `List Char`.  All definitions are
executable so that concrete scenarios evaluate by `decide`.
-/

set_option maxRecDepth 20000

/-- JavaScript strings are modelled as lists of characters. -/
abbrev Str := List Char

/-- Shorthand to turn a Lean string literal into the `Str` model. -/
def js (s : String) : Str := s.toList

namespace JsStr

/-- Split a string at the first occurrence of the character `c`
(the JS `indexOf` + two `substring` calls pattern).  Returns `none` when
`c` does not occur (JS `indexOf` returning `-1`). -/
def splitFirst (c : Char) : Str → Option (Str × Str)
  | [] => none
  | x :: xs =>
    if x = c then some ([], xs)
    else match splitFirst c xs with
      | none => none
      | some (a, b) => some (x :: a, b)

/-- Split a string at the first character satisfying `p`; the matching
character is returned in the middle. -/
def splitFirstP (p : Char → Bool) : Str → Option (Str × Char × Str)
  | [] => none
  | x :: xs =>
    if p x then some ([], x, xs)
    else match splitFirstP p xs with
      | none => none
      | some (a, m, b) => some (x :: a, m, b)

/-- Split a string at the last occurrence of the character `c`. -/
def splitLast (c : Char) (s : Str) : Option (Str × Str) :=
  match splitFirst c s.reverse with
  | none => none
  | some (a, b) => some (b.reverse, a.reverse)

/-- Split on every occurrence of `c` (JS `String.prototype.split`,
empty pieces kept). -/
def splitAll (c : Char) : Str → List Str
  | [] => [[]]
  | x :: xs =>
    let r := splitAll c xs
    if x = c then [] :: r
    else match r with
      | [] => [[x]]
      | h :: t => (x :: h) :: t

/-- Number of trailing occurrences of `c`. -/
def countTrailing (c : Char) (s : Str) : Nat :=
  (s.reverse.takeWhile (fun x => x = c)).length

/-- Drop all trailing occurrences of `c`. -/
def dropTrailing (c : Char) (s : Str) : Str :=
  (s.reverse.dropWhile (fun x => x = c)).reverse

/-- Global, left-to-right, non-overlapping replacement of the three-character
pattern `%3D` by `=` (the `username.replace(/%3D/g, '=')` call at
src/ShadowsocksConfig.ts:337). -/
def replacePct3D : Str → Str
  | '%' :: '3' :: 'D' :: rest => '=' :: replacePct3D rest
  | c :: rest => c :: replacePct3D rest
  | [] => []

end JsStr

/-! ## Character classes -/

/-- ASCII decimal digit. -/
def isDigitC (c : Char) : Bool := '0' ≤ c ∧ c ≤ '9'

/-- ASCII lowercase mapping (only ASCII letters are case-mapped here). -/
def toLowerAscii (c : Char) : Char :=
  if 'A' ≤ c ∧ c ≤ 'Z' then Char.ofNat (c.toNat + 32) else c

/-- Numeric value of an ASCII hex digit, if any (both cases accepted). -/
def hexVal (c : Char) : Option Nat :=
  let v := c.toNat
  if 48 ≤ v ∧ v ≤ 57 then some (v - 48)
  else if 65 ≤ v ∧ v ≤ 70 then some (v - 55)
  else if 97 ≤ v ∧ v ≤ 102 then some (v - 87)
  else none

/-- Uppercase hex digit for a value `< 16` (percent-encoding uses uppercase). -/
def hexDigitUpper (n : Nat) : Char :=
  Char.ofNat (if n < 10 then 48 + n else 55 + n)

/-- Lowercase hex digit for a value `< 16` (IPv6 serialization uses lowercase). -/
def hexDigitLower (n : Nat) : Char :=
  Char.ofNat (if n < 10 then 48 + n else 87 + n)

/-- Fuel-driven digit expansion in base `b` (structural recursion so that
concrete values evaluate by `decide`). -/
def digitsAux (b : Nat) (digit : Nat → Char) : Nat → Nat → Str
  | 0, _ => []
  | fuel + 1, n =>
    if n < b then [digit n]
    else digitsAux b digit fuel (n / b) ++ [digit (n % b)]

/-- Decimal representation of a natural number, most significant digit first
(JS number-to-string for the values arising here). -/
def decStr (n : Nat) : Str := digitsAux 10 (fun d => Char.ofNat ('0'.toNat + d)) (n + 1) n

/-- Hexadecimal (lowercase) representation of a natural number. -/
def hexStr (n : Nat) : Str := digitsAux 16 hexDigitLower (n + 1) n

/-- Value of a string of decimal digits (the caller checks digit-ness). -/
def decVal (s : Str) : Nat := s.foldl (fun a c => a * 10 + (c.toNat - '0'.toNat)) 0

/-! ## The `base-64` npm package

The library loads `require('base-64')` (src/ShadowsocksConfig.ts:4-5).
`b64Encode` is standard RFC 4648 base64 over the Latin-1 code units of the
input and throws when a code unit exceeds `0xFF`; `b64Decode` is the
package's decoder: it removes HTML space characters, strips at most two
trailing `=` when the length is a multiple of four, rejects strings whose
remaining length is `1 mod 4` or that contain a character outside
`[+a-zA-Z0-9/]`, and otherwise decodes 6-bit groups. -/

def b64Table : Str := js "ABCDEFGHIJKLMNOPQRSTUVWXYZabcdefghijklmnopqrstuvwxyz0123456789+/"

/-- Character for a 6-bit value. -/
def b64Chr (n : Nat) : Char := b64Table.getD n 'A'

/-- Index of a character in the base64 table. -/
def b64Val (c : Char) : Nat :=
  if 'A' ≤ c ∧ c ≤ 'Z' then c.toNat - 'A'.toNat
  else if 'a' ≤ c ∧ c ≤ 'z' then c.toNat - 'a'.toNat + 26
  else if '0' ≤ c ∧ c ≤ '9' then c.toNat - '0'.toNat + 52
  else if c = '+' then 62
  else 63

/-- Is the character in the decoder's accepted alphabet `[+a-zA-Z0-9/]`? -/
def isB64Char (c : Char) : Bool :=
  ('A' ≤ c ∧ c ≤ 'Z') ∨ ('a' ≤ c ∧ c ≤ 'z') ∨ ('0' ≤ c ∧ c ≤ '9') ∨ c = '+' ∨ c = '/'

/-- HTML space characters removed by the decoder: tab, LF, FF, CR, space. -/
def isB64Space (c : Char) : Bool :=
  c = '\t' ∨ c = '\n' ∨ c = Char.ofNat 12 ∨ c = '\r' ∨ c = ' '

/-- Encode a list of bytes in base64, with `=` padding. -/
def b64EncodeBytes : List Nat → Str
  | [] => []
  | [a] => [b64Chr (a / 4), b64Chr (a % 4 * 16), '=', '=']
  | [a, b] => [b64Chr (a / 4), b64Chr (a % 4 * 16 + b / 16), b64Chr (b % 16 * 4), '=']
  | a :: b :: c :: rest =>
    b64Chr (a / 4) :: b64Chr (a % 4 * 16 + b / 16) :: b64Chr (b % 16 * 4 + c / 64) ::
      b64Chr (c % 64) :: b64EncodeBytes rest

/-- `base64.encode`: fails (throws) when a character is outside Latin-1. -/
def b64Encode (s : Str) : Option Str :=
  if s.all (fun c => c.toNat ≤ 255) then some (b64EncodeBytes (s.map Char.toNat)) else none

/-- The decoder's 6-bit-group loop (chunks of four characters produce three
bytes; a trailing chunk of two or three characters produces one or two). -/
def b64DecodeChunks : Str → List Nat
  | c0 :: c1 :: c2 :: c3 :: rest =>
    let n := ((b64Val c0 * 64 + b64Val c1) * 64 + b64Val c2) * 64 + b64Val c3
    n / 65536 % 256 :: n / 256 % 256 :: n % 256 :: b64DecodeChunks rest
  | [c0, c1] => [(b64Val c0 * 64 + b64Val c1) / 16 % 256]
  | [c0, c1, c2] =>
    [(b64Val c0 * 64 + b64Val c1) / 16 % 256,
     ((b64Val c0 * 64 + b64Val c1) * 64 + b64Val c2) / 4 % 256]
  | [_] => []
  | [] => []

/-- Strip at most two trailing `=` (the decoder's `replace(/==?$/, '')`). -/
def b64StripPad (s : Str) : Str :=
  match s.reverse with
  | '=' :: '=' :: r => r.reverse
  | '=' :: r => r.reverse
  | _ => s

/-- `base64.decode` of the `base-64` npm package.  `none` models the thrown
`Error('Invalid character: …')`. -/
def b64Decode (input : Str) : Option Str :=
  let s := input.filter (fun c => ¬ isB64Space c)
  let s := if s.length % 4 = 0 then b64StripPad s else s
  if s.length % 4 = 1 then none
  else if s.all isB64Char then some ((b64DecodeChunks s).map Char.ofNat)
  else none

/-! ## UTF-8 and percent-encoding

`encodeURIComponent`/`decodeURIComponent` (ECMA-262 `Encode`/`Decode`) and
the WHATWG URL percent-decode.  Lean's `Char` is a Unicode scalar value,
which matches well-formed JavaScript strings (lone surrogates, on which
`encodeURIComponent` throws, are not representable). -/

/-- UTF-8 bytes of a Unicode scalar value. -/
def utf8Bytes (c : Char) : List Nat :=
  let n := c.toNat
  if n < 0x80 then [n]
  else if n < 0x800 then [0xC0 + n / 64, 0x80 + n % 64]
  else if n < 0x10000 then [0xE0 + n / 4096, 0x80 + n / 64 % 64, 0x80 + n % 64]
  else [0xF0 + n / 262144, 0x80 + n / 4096 % 64, 0x80 + n / 64 % 64, 0x80 + n % 64]

/-- `%XX` escape (uppercase hex) of a byte. -/
def pctByte (b : Nat) : Str := ['%', hexDigitUpper (b / 16), hexDigitUpper (b % 16)]

/-- The characters `encodeURIComponent` leaves unescaped:
`A–Z a–z 0–9 - _ . ! ~ * ' ( )`. -/
def uriUnreserved (c : Char) : Bool :=
  ('A' ≤ c ∧ c ≤ 'Z') ∨ ('a' ≤ c ∧ c ≤ 'z') ∨ ('0' ≤ c ∧ c ≤ '9') ∨
  c = '-' ∨ c = '_' ∨ c = '.' ∨ c = '!' ∨ c = '~' ∨ c = '*' ∨ c = '\'' ∨ c = '(' ∨ c = ')'

/-- `encodeURIComponent`. -/
def encodeURIComponent (s : Str) : Str :=
  s.flatMap (fun c => if uriUnreserved c then [c] else (utf8Bytes c).flatMap pctByte)

/-- First phase of `decodeURIComponent`: each `%XX` becomes a byte
(`Sum.inr`), other characters stay literal (`Sum.inl`); a `%` not followed
by two hex digits is a `URIError`. -/
def pctTokens : Str → Option (List (Sum Char Nat))
  | [] => some []
  | '%' :: h1 :: h2 :: rest => do
    let v1 ← hexVal h1
    let v2 ← hexVal h2
    let t ← pctTokens rest
    pure (Sum.inr (v1 * 16 + v2) :: t)
  | '%' :: _ :: [] => none
  | ['%'] => none
  | c :: rest => do
    let t ← pctTokens rest
    pure (Sum.inl c :: t)

/-- Is the byte a UTF-8 continuation byte (`10xxxxxx`)? -/
def isCont (b : Nat) : Bool := 0x80 ≤ b ∧ b < 0xC0

/-- Second phase of `decodeURIComponent`: reassemble UTF-8 sequences from
escaped bytes; literal characters pass through.  Continuation bytes must
come from escapes; overlong encodings, surrogates, values above `0x10FFFF`
and incomplete sequences are a `URIError` (`none`).  The patterns are
flattened (a lead byte looks ahead at up to three following escaped bytes);
arms listed later apply only when no earlier pattern matches, so they see
fewer escaped bytes than their lead byte needs and fail unless the lead is
ASCII. -/
def utf8Reassemble : List (Sum Char Nat) → Option Str
  | [] => some []
  | Sum.inl c :: rest => (utf8Reassemble rest).map (fun r => c :: r)
  | Sum.inr b0 :: Sum.inr b1 :: Sum.inr b2 :: Sum.inr b3 :: rest =>
    if b0 < 0x80 then
      (utf8Reassemble (Sum.inr b1 :: Sum.inr b2 :: Sum.inr b3 :: rest)).map
        (fun r => Char.ofNat b0 :: r)
    else if b0 < 0xC0 then none
    else if b0 < 0xE0 then
      if isCont b1 ∧ 0x80 ≤ (b0 - 0xC0) * 64 + (b1 - 0x80) then
        (utf8Reassemble (Sum.inr b2 :: Sum.inr b3 :: rest)).map
          (fun r => Char.ofNat ((b0 - 0xC0) * 64 + (b1 - 0x80)) :: r)
      else none
    else if b0 < 0xF0 then
      let v := ((b0 - 0xE0) * 64 + (b1 - 0x80)) * 64 + (b2 - 0x80)
      if isCont b1 ∧ isCont b2 ∧ 0x800 ≤ v ∧ ¬ (0xD800 ≤ v ∧ v ≤ 0xDFFF) then
        (utf8Reassemble (Sum.inr b3 :: rest)).map (fun r => Char.ofNat v :: r)
      else none
    else if b0 < 0xF5 then
      let v := (((b0 - 0xF0) * 64 + (b1 - 0x80)) * 64 + (b2 - 0x80)) * 64 + (b3 - 0x80)
      if isCont b1 ∧ isCont b2 ∧ isCont b3 ∧ 0x10000 ≤ v ∧ v ≤ 0x10FFFF then
        (utf8Reassemble rest).map (fun r => Char.ofNat v :: r)
      else none
    else none
  | Sum.inr b0 :: Sum.inr b1 :: Sum.inr b2 :: rest =>
    if b0 < 0x80 then
      (utf8Reassemble (Sum.inr b1 :: Sum.inr b2 :: rest)).map (fun r => Char.ofNat b0 :: r)
    else if b0 < 0xC0 then none
    else if b0 < 0xE0 then
      if isCont b1 ∧ 0x80 ≤ (b0 - 0xC0) * 64 + (b1 - 0x80) then
        (utf8Reassemble (Sum.inr b2 :: rest)).map
          (fun r => Char.ofNat ((b0 - 0xC0) * 64 + (b1 - 0x80)) :: r)
      else none
    else if b0 < 0xF0 then
      let v := ((b0 - 0xE0) * 64 + (b1 - 0x80)) * 64 + (b2 - 0x80)
      if isCont b1 ∧ isCont b2 ∧ 0x800 ≤ v ∧ ¬ (0xD800 ≤ v ∧ v ≤ 0xDFFF) then
        (utf8Reassemble rest).map (fun r => Char.ofNat v :: r)
      else none
    else none
  | Sum.inr b0 :: Sum.inr b1 :: rest =>
    if b0 < 0x80 then
      (utf8Reassemble (Sum.inr b1 :: rest)).map (fun r => Char.ofNat b0 :: r)
    else if b0 < 0xC0 then none
    else if b0 < 0xE0 then
      if isCont b1 ∧ 0x80 ≤ (b0 - 0xC0) * 64 + (b1 - 0x80) then
        (utf8Reassemble rest).map (fun r => Char.ofNat ((b0 - 0xC0) * 64 + (b1 - 0x80)) :: r)
      else none
    else none
  | Sum.inr b0 :: rest =>
    if b0 < 0x80 then (utf8Reassemble rest).map (fun r => Char.ofNat b0 :: r)
    else none

/-- `decodeURIComponent`; `none` models the thrown `URIError`. -/
def decodeURIComponent (s : Str) : Option Str := do utf8Reassemble (← pctTokens s)

/-- WHATWG percent-decode, which operates on the UTF-8 bytes of the input
and leaves malformed escapes alone: `%XX` with two hex digits becomes the
byte, anything else passes through. -/
def pctDecodeBytes : List Nat → List Nat
  | [] => []
  | 0x25 :: h1 :: h2 :: rest =>
    match hexVal (Char.ofNat h1), hexVal (Char.ofNat h2) with
    | some v1, some v2 =>
      if h1 < 0x80 ∧ h2 < 0x80 then (v1 * 16 + v2) :: pctDecodeBytes rest
      else 0x25 :: pctDecodeBytes (h1 :: h2 :: rest)
    | _, _ => 0x25 :: pctDecodeBytes (h1 :: h2 :: rest)
  | b :: rest => b :: pctDecodeBytes rest

/-- One step of the WHATWG UTF-8 decoder in its initial state. -/
def utf8Step0 (byte : Nat) : Str × Option (Nat × Nat × Nat × Nat) :=
  if byte ≤ 0x7F then ([Char.ofNat byte], none)
  else if 0xC2 ≤ byte ∧ byte ≤ 0xDF then ([], some (1, byte % 32, 0x80, 0xBF))
  else if 0xE0 ≤ byte ∧ byte ≤ 0xEF then
    ([], some (2, byte % 16, if byte = 0xE0 then 0xA0 else 0x80,
               if byte = 0xED then 0x9F else 0xBF))
  else if 0xF0 ≤ byte ∧ byte ≤ 0xF4 then
    ([], some (3, byte % 8, if byte = 0xF0 then 0x90 else 0x80,
               if byte = 0xF4 then 0x8F else 0xBF))
  else ([Char.ofNat 0xFFFD], none)

/-- Lenient UTF-8 decoding (the WHATWG UTF-8 decoder: invalid sequences
produce U+FFFD), used by the URL parser when turning percent-decoded host
bytes back into a string.  The state carries (bytes still needed,
code point so far, lower boundary, upper boundary). -/
def utf8DecodeLenientAux : Option (Nat × Nat × Nat × Nat) → List Nat → Str
  | none, [] => []
  | some _, [] => [Char.ofNat 0xFFFD]
  | none, byte :: rest =>
    let (out, st) := utf8Step0 byte
    out ++ utf8DecodeLenientAux st rest
  | some (need, cp, lo, hi), byte :: rest =>
    if lo ≤ byte ∧ byte ≤ hi then
      let cp := cp * 64 + byte % 64
      if need = 1 then Char.ofNat cp :: utf8DecodeLenientAux none rest
      else utf8DecodeLenientAux (some (need - 1, cp, 0x80, 0xBF)) rest
    else
      let (out, st) := utf8Step0 byte
      Char.ofNat 0xFFFD :: (out ++ utf8DecodeLenientAux st rest)

/-- Lenient UTF-8 decode of a byte list. -/
def utf8DecodeLenient (bytes : List Nat) : Str := utf8DecodeLenientAux none bytes

/-- UTF-8 bytes of a whole string. -/
def utf8OfStr (s : Str) : List Nat := s.flatMap utf8Bytes

/-- WHATWG percent-decode of a string, producing the decoded string
(lenient at every stage, never throws). -/
def pctDecodeStr (s : Str) : Str := utf8DecodeLenient (pctDecodeBytes (utf8OfStr s))

/-! ## The WHATWG URL parser (external collaborator)

The library relies on `new URL(...)` (browser `window.URL` or Node's
`require('url').URL`, src/ShadowsocksConfig.ts:6) and only ever feeds it
`http:` URLs.  The model below follows the URL Standard of the library's
era (2017): hosts of special-scheme URLs are percent-decoded, run through
domain-to-ASCII, checked against the forbidden host code points
(which then included `%`), and handed to the IPv4 parser, which returns a
domain unchanged when the input is not number-shaped.  Node of that era
implemented domain-to-ASCII with the `punycode` package: ASCII labels are
lowercased and kept, non-ASCII labels are puny-encoded with an `xn--`
prefix (the full UTS 46 mapping of non-ASCII characters beyond ASCII
lowercasing is outside this model). -/

/-- RFC 3492 bias adaptation. -/
def punyAdapt (delta numPoints : Nat) (firstTime : Bool) : Nat :=
  let d := if firstTime then delta / 700 else delta / 2
  let d := d + d / numPoints
  let rec go : Nat → Nat → Nat → Nat
    | 0, k, _ => k
    | fuel + 1, k, d => if d > 455 then go fuel (k + 36) (d / 35) else k + 36 * d / (d + 38)
  go 64 0 d

/-- RFC 3492 digit character (`a–z`, `0–9`). -/
def punyDigitChr (d : Nat) : Char :=
  if d < 26 then Char.ofNat ('a'.toNat + d) else Char.ofNat ('0'.toNat + d - 26)

/-- Variable-length integer encoding of `q` with the given bias. -/
def punyVarInt (bias : Nat) : Nat → Nat → Nat → Str
  | 0, _, _ => []
  | fuel + 1, k, q =>
    let t := if k ≤ bias then 1 else if bias + 26 ≤ k then 26 else k - bias
    if q < t then [punyDigitChr q]
    else punyDigitChr (t + (q - t) % (36 - t)) :: punyVarInt bias fuel (k + 36) ((q - t) / (36 - t))

/-- Inner loop of the punycode encoder: scan all code points, emitting a
variable-length integer for each occurrence of the current code point `n`.
Returns the produced text and the updated `(delta, bias, h)`. -/
def punyInner (n b : Nat) : List Nat → Nat → Nat → Nat → Str × Nat × Nat × Nat
  | [], delta, bias, h => ([], delta, bias, h)
  | c :: rest, delta, bias, h =>
    if c < n then punyInner n b rest (delta + 1) bias h
    else if c = n then
      let digs := punyVarInt bias 64 36 delta
      let bias' := punyAdapt delta (h + 1) (h = b)
      let (out, d', b', h') := punyInner n b rest 0 bias' (h + 1)
      (digs ++ out, d', b', h')
    else punyInner n b rest delta bias h

/-- Outer loop of the punycode encoder. -/
def punyOuter (cps : List Nat) (len b : Nat) : Nat → Nat → Nat → Nat → Nat → Str
  | 0, _, _, _, _ => []
  | fuel + 1, n, delta, bias, h =>
    if len ≤ h then []
    else
      let m := ((cps.filter (fun c => n ≤ c)).min?).getD n
      let delta := delta + (m - n) * (h + 1)
      let (out, d', bias', h') := punyInner m b cps delta bias h
      out ++ punyOuter cps len b fuel (m + 1) (d' + 1) bias' h'

/-- RFC 3492 punycode encoding of a list of code points. -/
def punyEncode (cps : List Nat) : Str :=
  let basic := (cps.filter (fun c => c < 128)).map Char.ofNat
  let b := basic.length
  basic ++ (if 0 < b then ['-'] else []) ++
    punyOuter cps cps.length b (cps.length + 1) 128 0 72 b

/-- Domain-to-ASCII as implemented by the `punycode`-based Node of the
library's era: per label, ASCII labels are lowercased, non-ASCII labels are
ASCII-lowercased and puny-encoded with the `xn--` prefix.  Total. -/
def domainToAscii (d : Str) : Str :=
  List.intercalate ['.'] ((JsStr.splitAll '.' d).map fun l =>
    if l.all (fun c => c.toNat < 128) then l.map toLowerAscii
    else js "xn--" ++ punyEncode ((l.map toLowerAscii).map Char.toNat))

/-- Forbidden host code points of the era's URL Standard:
NUL, tab, LF, CR, space, `#`, `%`, `/`, `:`, `?`, `@`, `[`, `\`, `]`. -/
def forbiddenHostCp (c : Char) : Bool :=
  c = Char.ofNat 0 ∨ c = '\t' ∨ c = '\n' ∨ c = '\r' ∨ c = ' ' ∨
  c = '#' ∨ c = '%' ∨ c = '/' ∨ c = ':' ∨ c = '?' ∨ c = '@' ∨ c = '[' ∨ c = '\\' ∨ c = ']'

/-- WHATWG IPv4 number parser: `0x`/`0X` prefix selects hex, a leading `0`
selects octal, otherwise decimal; an empty string after the radix prefix is
zero; a non-radix digit is a failure. -/
def parseIPv4Number (s : Str) : Option Nat :=
  if s = [] then none
  else
    let (radix, t) :=
      if s.take 2 = js "0x" ∨ s.take 2 = js "0X" then (16, s.drop 2)
      else if 2 ≤ s.length ∧ s.head? = some '0' then (8, s.drop 1)
      else (10, s)
    if t = [] then some 0
    else if radix = 16 then
      if t.all (fun c => (hexVal c).isSome) then
        some (t.foldl (fun a c => a * 16 + (hexVal c).getD 0) 0)
      else none
    else if radix = 8 then
      if t.all (fun c => '0' ≤ c ∧ c ≤ '7') then
        some (t.foldl (fun a c => a * 8 + (c.toNat - '0'.toNat)) 0)
      else none
    else if t.all isDigitC then some (decVal t) else none

/-- Result of the era's IPv4 parser: not number-shaped input is returned
unchanged as a domain; number-shaped but out-of-range input is a failure. -/
inductive IPv4Result where
  | domain : IPv4Result
  | addr : Nat → IPv4Result
  | fail : IPv4Result
deriving DecidableEq

/-- The era's WHATWG IPv4 parser. -/
def ipv4Parser (input : Str) : IPv4Result :=
  let parts := JsStr.splitAll '.' input
  let parts := if parts.getLast? = some [] then parts.dropLast else parts
  if 4 < parts.length then .domain
  else if parts.any (fun p => p = []) then .domain
  else
    match parts.mapM parseIPv4Number with
    | none => .domain
    | some numbers =>
      match numbers.getLast? with
      | none => .domain
      | some last =>
        if (numbers.dropLast).any (fun n => 255 < n) then .fail
        else if 256 ^ (5 - numbers.length) ≤ last then .fail
        else .addr ((numbers.dropLast.foldl (fun a n => a * 256 + n) 0) *
                      256 ^ (5 - numbers.length) + last)

/-- Dotted-quad serialization of a 32-bit IPv4 address. -/
def ipv4Serialize (n : Nat) : Str :=
  decStr (n / 16777216 % 256) ++ '.' :: decStr (n / 65536 % 256) ++
    '.' :: decStr (n / 256 % 256) ++ '.' :: decStr (n % 256)

/-! ### IPv6 (WHATWG IPv6 parser and serializer) -/

/-- Read up to four hex digits: value, count read, remaining input. -/
def readHexPiece : Str → Nat → Nat → Nat × Nat × Str
  | [], value, len => (value, len, [])
  | c :: rest, value, len =>
    if len < 4 then
      match hexVal c with
      | some v => readHexPiece rest (value * 16 + v) (len + 1)
      | none => (value, len, c :: rest)
    else (value, len, c :: rest)

/-- Read one decimal number of an IPv4-in-IPv6 tail: at most three digits,
`≤ 255`, no leading zero. -/
def readV4Number : Str → Option (Nat × Str)
  | [] => none
  | c :: rest =>
    if isDigitC c then
      let d := c.toNat - '0'.toNat
      match rest with
      | c2 :: rest2 =>
        if isDigitC c2 then
          if d = 0 then none
          else
            let d2 := d * 10 + (c2.toNat - '0'.toNat)
            match rest2 with
            | c3 :: rest3 =>
              if isDigitC c3 then
                let d3 := d2 * 10 + (c3.toNat - '0'.toNat)
                if 255 < d3 then none
                else match rest3 with
                  | c4 :: _ => if isDigitC c4 then none else some (d3, rest3)
                  | [] => some (d3, rest3)
              else some (d2, c3 :: rest3)
            | [] => some (d2, [])
        else some (d, c2 :: rest2)
      | [] => some (d, [])
    else none

/-- IPv4-in-IPv6 tail: exactly four dot-separated decimal numbers and then
end of input; yields the two final 16-bit pieces. -/
def ipv6V4Tail (s : Str) : Option (Nat × Nat) := do
  let (n0, s) ← readV4Number s
  match s with
  | '.' :: s => do
    let (n1, s) ← readV4Number s
    match s with
    | '.' :: s => do
      let (n2, s) ← readV4Number s
      match s with
      | '.' :: s => do
        let (n3, s) ← readV4Number s
        if s = [] then some (n0 * 256 + n1, n2 * 256 + n3) else none
      | _ => none
    | _ => none
  | _ => none

/-- Write `value` at position `idx` of a piece list. -/
def setPiece (l : List Nat) (idx value : Nat) : List Nat :=
  l.set idx value

/-- Main loop of the WHATWG IPv6 parser.  The state is the remaining input,
the current piece index, the position of `::` if seen, and the eight pieces
written so far. -/
def ipv6Loop : Nat → Str → Nat → Option Nat → List Nat → Option (Nat × Option Nat × List Nat)
  | 0, _, _, _, _ => none
  | _ + 1, [], pieceIdx, compress, addr => some (pieceIdx, compress, addr)
  | fuel + 1, c :: rest, pieceIdx, compress, addr =>
    if pieceIdx = 8 then none
    else if c = ':' then
      if compress.isSome then none
      else ipv6Loop fuel rest (pieceIdx + 1) (some (pieceIdx + 1)) addr
    else
      let (value, len, rest') := readHexPiece (c :: rest) 0 0
      if len = 0 then none
      else
        match rest' with
        | '.' :: _ =>
          if 6 < pieceIdx then none
          else do
            let (p1, p2) ← ipv6V4Tail (c :: rest)
            some (pieceIdx + 2, compress, setPiece (setPiece addr pieceIdx p1) (pieceIdx + 1) p2)
        | ':' :: rest'' =>
          if rest'' = [] then none
          else ipv6Loop fuel rest'' (pieceIdx + 1) compress (setPiece addr pieceIdx value)
        | [] => some (pieceIdx + 1, compress, setPiece addr pieceIdx value)
        | _ => none

/-- The WHATWG IPv6 parser: eight 16-bit pieces. -/
def ipv6Parse (input : Str) : Option (List Nat) := do
  let start ←
    match input with
    | ':' :: rest => match rest with
      | ':' :: rest' => some (rest', 1, some 1)
      | _ => none
    | _ => some (input, 0, none)
  let (s, pieceIdx, compress) := start
  let (pieceIdx, compress, addr) ← ipv6Loop (s.length + 2) s pieceIdx compress
    [0, 0, 0, 0, 0, 0, 0, 0]
  match compress with
  | some ci =>
    some (addr.take ci ++ List.replicate (8 - pieceIdx) 0 ++
      ((addr.take pieceIdx).drop ci))
  | none => if pieceIdx = 8 then some addr else none

/-- Zero runs of a piece list: `(start, length)` for each maximal run. -/
def zeroRuns (l : List Nat) : List (Nat × Nat) :=
  let rec go : List Nat → Nat → Option (Nat × Nat) → List (Nat × Nat)
    | [], _, cur => match cur with | some r => [r] | none => []
    | x :: xs, i, cur =>
      if x = 0 then
        match cur with
        | some (s, n) => go xs (i + 1) (some (s, n + 1))
        | none => go xs (i + 1) (some (i, 1))
      else match cur with
        | some r => r :: go xs (i + 1) none
        | none => go xs (i + 1) none
  go l 0 none

/-- First longest zero run of length at least two, if any. -/
def ipv6Compress (l : List Nat) : Option Nat :=
  let runs := (zeroRuns l).filter (fun r => 2 ≤ r.2)
  match runs.foldl (fun best r =>
      match best with
      | none => some r
      | some b => if b.2 < r.2 then some r else some b) none with
  | some (s, _) => some s
  | none => none

/-- WHATWG IPv6 serializer: lowercase hex pieces joined by `:`, with the
first longest zero run of length at least two compressed to `::`. -/
def ipv6Serialize (addr : List Nat) : Str :=
  match ipv6Compress addr with
  | none => List.intercalate [':'] (addr.map hexStr)
  | some s =>
    let runLen := ((addr.drop s).takeWhile (fun x => x = 0)).length
    List.intercalate [':'] ((addr.take s).map hexStr) ++ js "::" ++
      List.intercalate [':'] ((addr.drop (s + runLen)).map hexStr)

/-! ### Host parser, URL parser, getters -/

/-- WHATWG host parsing for a special-scheme URL: bracketed input is IPv6,
otherwise percent-decode, domain-to-ASCII, forbidden-code-point check, and
the IPv4 parser decides between address and domain.  The empty host is a
failure for special schemes. -/
def parseHost (input : Str) : Option Str :=
  match input with
  | '[' :: rest =>
    if rest.getLast? = some ']' then do
      let a ← ipv6Parse rest.dropLast
      some ('[' :: ipv6Serialize a ++ [']'])
    else none
  | [] => none
  | _ =>
    let ascii := domainToAscii (utf8DecodeLenient (pctDecodeBytes (utf8OfStr input)))
    if ascii.any forbiddenHostCp then none
    else match ipv4Parser ascii with
      | .fail => none
      | .addr n => some (ipv4Serialize n)
      | .domain => some ascii

/-- C0-control percent-encode set: C0 controls and code points above `~`. -/
def c0Set (c : Char) : Bool := c.toNat ≤ 0x1F ∨ 0x7E < c.toNat

/-- Fragment percent-encode set of the era (the C0-control set). -/
def fragmentSet (c : Char) : Bool := c0Set c

/-- Query percent-encode set of the era: below `!`, above `~`, and
`"`, `#`, `<`, `>`. -/
def querySet (c : Char) : Bool :=
  c.toNat < 0x21 ∨ 0x7E < c.toNat ∨ c = '"' ∨ c = '#' ∨ c = '<' ∨ c = '>'

/-- Userinfo percent-encode set: the path set plus
`/ : ; = @ [ \ ] ^ |`. -/
def userinfoSet (c : Char) : Bool :=
  c0Set c ∨ c = ' ' ∨ c = '"' ∨ c = '#' ∨ c = '<' ∨ c = '>' ∨ c = '?' ∨ c = '`' ∨
  c = '{' ∨ c = '}' ∨ c = '/' ∨ c = ':' ∨ c = ';' ∨ c = '=' ∨ c = '@' ∨ c = '[' ∨
  c = '\\' ∨ c = ']' ∨ c = '^' ∨ c = '|'

/-- Percent-encode every character of `s` in the given set (as UTF-8). -/
def pctEncodeWith (set : Char → Bool) (s : Str) : Str :=
  s.flatMap fun c => if set c then (utf8Bytes c).flatMap pctByte else [c]

/-- The parsed-URL record, restricted to the components the library reads:
`username`, `hostname`, `port`, `search`/`searchParams` and `hash`. -/
structure UrlRec where
  username : Str
  hostname : Str
  port : Option Nat
  query : Option Str
  fragment : Option Str
deriving DecidableEq, Repr

/-- Authority terminators for a special scheme: `/`, `\`, `?`, `#`. -/
def isAuthorityEnd (c : Char) : Bool := c = '/' ∨ c = '\\' ∨ c = '?' ∨ c = '#'

/-- Split `host:port`, honouring `[...]` brackets around an IPv6 host. -/
def splitHostPort : Str → Bool → Str × Option Str
  | [], _ => ([], none)
  | c :: rest, inBrackets =>
    if c = ':' ∧ ¬ inBrackets then ([], some rest)
    else
      let (h, p) := splitHostPort rest (if c = '[' then true else if c = ']' then false else inBrackets)
      (c :: h, p)

/-- Leading C0-control-or-space trim plus the symmetric trailing trim, and
removal of all tabs and newlines (the URL parser's input preprocessing). -/
def urlPreprocess (s : Str) : Str :=
  let s := s.dropWhile (fun c => c.toNat ≤ 0x20)
  let s := (s.reverse.dropWhile (fun c => c.toNat ≤ 0x20)).reverse
  s.filter (fun c => ¬ (c = '\t' ∨ c = '\n' ∨ c = '\r'))

/-- Port-component parsing (the port state): an absent or empty port piece
is a null port; otherwise every character must be an ASCII digit, the value
must not exceed 65535, and the scheme's default port 80 is normalized to
null.  `none` is parse failure. -/
def urlPortParse (portStr : Option Str) : Option (Option Nat) :=
  match portStr with
  | none => some none
  | some [] => some none
  | some p =>
    if p.all isDigitC then
      let n := decVal p
      if 65535 < n then none
      else if n = 80 then some none
      else some (some n)
    else none

/-- Query and fragment of the part following the authority: the fragment
starts at the first `#`, the query at the first `?` before it; both are
percent-encoded with their sets. -/
def urlQueryFrag (after : Str) : Option Str × Option Str :=
  let (beforeFrag, frag) :=
    match JsStr.splitFirst '#' after with
    | none => (after, none)
    | some (b, f) => (b, some (pctEncodeWith fragmentSet f))
  let query :=
    match JsStr.splitFirst '?' beforeFrag with
    | none => none
    | some (_, q) => some (pctEncodeWith querySet q)
  (query, frag)

/-- The username component of the userinfo: inner `@` become `%40`, the
part before the first `:` is percent-encoded with the userinfo set. -/
def urlUsername (userinfo : Option Str) : Str :=
  match userinfo with
  | none => []
  | some u =>
    let w := u.flatMap fun c => if c = '@' then js "%40" else [c]
    pctEncodeWith userinfoSet ((JsStr.splitFirst ':' w).elim w Prod.fst)

/-- Authority (and the rest) of a special-scheme URL: userinfo up to the
last `@`, an empty host is failure, `host[:port]` split honouring
brackets. -/
def urlParseAuthority (auth after : Str) : Option UrlRec := do
  let (userinfo, hostport) :=
    match JsStr.splitLast '@' auth with
    | none => (none, auth)
    | some (u, h) => (some u, h)
  if hostport = [] then none
  else
    let (hostStr, portStr) := splitHostPort hostport false
    let host ← parseHost hostStr
    let port ← urlPortParse portStr
    let (query, frag) := urlQueryFrag after
    some ⟨urlUsername userinfo, host, port, query, frag⟩

/-- The WHATWG URL parser, restricted to the `http://…` inputs the library
constructs (every call site first guarantees the `ss://`-derived prefix):
preprocess, skip the special-authority slashes, split the authority at the
first `/`, `\`, `?` or `#`, and parse it.  `none` models the thrown
`TypeError`. -/
def urlParse (input : Str) : Option UrlRec :=
  let s := urlPreprocess input
  if (js "http://").isPrefixOf s then
    let rest := (s.drop 7).dropWhile (fun c => c = '/' ∨ c = '\\')
    let (auth, after) :=
      match JsStr.splitFirstP isAuthorityEnd rest with
      | none => (rest, [])
      | some (a, m, b) => (a, m :: b)
    urlParseAuthority auth after
  else none

/-- `url.port` getter: empty for a null port, else its decimal string. -/
def urlPort (u : UrlRec) : Str := (u.port).elim [] decStr

/-- `url.hash` getter: empty when the fragment is null or empty, else
`#` followed by the fragment. -/
def urlHash (u : UrlRec) : Str :=
  match u.fragment with
  | none => []
  | some [] => []
  | some f => '#' :: f

/-- `application/x-www-form-urlencoded` decode of one token: `+` means
space, percent-escapes are decoded leniently. -/
def formDecode (s : Str) : Str :=
  utf8DecodeLenient (pctDecodeBytes (utf8OfStr (s.map fun c => if c = '+' then ' ' else c)))

/-- The `URLSearchParams` pair list of a query string. -/
def formPairs (q : Str) : List (Str × Str) :=
  (JsStr.splitAll '&' q).filterMap fun piece =>
    if piece = [] then none
    else
      match JsStr.splitFirst '=' piece with
      | none => some (formDecode piece, [])
      | some (n, v) => some (formDecode n, formDecode v)

/-- `url.searchParams.get(name)`. -/
def searchParamsGet (u : UrlRec) (name : Str) : Option Str :=
  ((formPairs ((u.query).getD [])).find? (fun p => p.1 = name)).map Prod.snd

/-! ## The library: errors, field validators, Config (src/ShadowsocksConfig.ts) -/

/-- The error kinds observable in the library: its two custom classes
(src/ShadowsocksConfig.ts:17-27), plus the errors its collaborators throw
(`TypeError` from `new URL`, `URIError` from `decodeURIComponent`, plain
`Error` from the `base-64` package). -/
inductive ErrKind where
  | invalidURI | invalidConfigField | typeError | uriError | plainError
deriving DecidableEq, Repr

/-- `error.name` for each kind (`new.target.name` for the custom classes). -/
def errName : ErrKind → Str
  | .invalidURI => js "InvalidURI"
  | .invalidConfigField => js "InvalidConfigField"
  | .typeError => js "TypeError"
  | .uriError => js "URIError"
  | .plainError => js "Error"

/-- A thrown JavaScript error: its kind (for `instanceof` checks) and its
message. -/
structure JsError where
  kind : ErrKind
  message : Str
deriving DecidableEq, Repr

instance {ε α : Type} [DecidableEq ε] [DecidableEq α] : DecidableEq (Except ε α) := fun a b =>
  match a, b with
  | .ok x, .ok y =>
    if h : x = y then .isTrue (h ▸ rfl) else .isFalse (fun he => h (by cases he; rfl))
  | .error x, .error y =>
    if h : x = y then .isTrue (h ▸ rfl) else .isFalse (fun he => h (by cases he; rfl))
  | .ok _, .error _ => .isFalse (fun he => Except.noConfusion he)
  | .error _, .ok _ => .isFalse (fun he => Except.noConfusion he)

/-- `throwErrorForInvalidField` (src/ShadowsocksConfig.ts:46-48). -/
def invalidFieldErr (name value : Str) : JsError :=
  ⟨.invalidConfigField, js "Invalid " ++ name ++ ':' :: ' ' :: value⟩

/-- The `base-64` decoder's invalid-character error. -/
def b64DecodeErr : JsError :=
  ⟨.plainError, js "Invalid character: the string to be decoded is not correctly encoded."⟩

/-- The `base-64` encoder's Latin-1 range error. -/
def b64EncodeErr : JsError :=
  ⟨.plainError, js "The string to be encoded contains characters outside of the Latin1 range."⟩

/-- `decodeURIComponent`'s `URIError`. -/
def uriMalformedErr : JsError := ⟨.uriError, js "URI malformed"⟩

/-- `new URL`'s `TypeError` (Node of the library's era included the input). -/
def invalidUrlErr (input : Str) : JsError := ⟨.typeError, js "Invalid URL: " ++ input⟩

/-- `new Host(host)` for a string argument (src/ShadowsocksConfig.ts:50-63):
parse `http://${host}/` with the URL parser and keep its `hostname`; any
parser failure becomes `InvalidConfigField`. -/
def hostValidate (host : Str) : Except JsError Str :=
  match urlParse (js "http://" ++ host ++ js "/") with
  | some u => .ok u.hostname
  | none => .error (invalidFieldErr (js "host") host)

/-- `new Port(port)` for a string argument (src/ShadowsocksConfig.ts:67-81):
the empty string is rejected up front, otherwise parse
`http://0.0.0.0:${port}/` and keep the URL's `port` string. -/
def portValidate (port : Str) : Except JsError Str :=
  if port = [] then .error (invalidFieldErr (js "port") port)
  else
    match urlParse (js "http://0.0.0.0:" ++ port ++ js "/") with
    | some u => .ok (urlPort u)
    | none => .error (invalidFieldErr (js "port") port)

/-- Decimal string of a JavaScript number that is a non-negative integer
(how a numeric `port` argument reaches the template literal). -/
def numStr (n : Nat) : Str := decStr n

/-- `new Port(n)` for an integer argument: the number is stringified by the
template literal; `n === ''` is always false for a number. -/
def portValidateNum (n : Nat) : Except JsError Str :=
  match urlParse (js "http://0.0.0.0:" ++ numStr n ++ js "/") with
  | some u => .ok (urlPort u)
  | none => .error (invalidFieldErr (js "port") (numStr n))

/-- The cipher whitelist `Method.METHODS` (src/ShadowsocksConfig.ts:86-105). -/
def METHODS : List Str :=
  [js "rc4-md5", js "aes-128-gcm", js "aes-192-gcm", js "aes-256-gcm",
   js "aes-128-cfb", js "aes-192-cfb", js "aes-256-cfb",
   js "aes-128-ctr", js "aes-192-ctr", js "aes-256-ctr",
   js "camellia-128-cfb", js "camellia-192-cfb", js "camellia-256-cfb",
   js "bf-cfb", js "chacha20-ietf-poly1305", js "salsa20", js "chacha20",
   js "chacha20-ietf"]

/-- `new Method(method)` for a string argument
(src/ShadowsocksConfig.ts:107-115): exact membership in the whitelist. -/
def methodValidate (method : Str) : Except JsError Str :=
  if method ∈ METHODS then .ok method
  else .error (invalidFieldErr (js "method") method)

/-- `new Password(x)` / `new Tag(x)` / `new Plugin(x)` for an optional
string (src/ShadowsocksConfig.ts:121-137): `x || ''` (both `undefined` and
`''` yield `''`); never fails. -/
def optionalField (x : Option Str) : Str := x.getD []

/-- The validated aggregate `Config` (src/ShadowsocksConfig.ts:149-203):
each field holds the corresponding `ConfigField` payload. -/
structure Config where
  host : Str
  port : Str
  method : Str
  password : Str
  tag : Str
deriving DecidableEq, Repr

/-- A plain `UnsafeConfig` record of raw string field values, where `none`
is a missing (`undefined`) property (src/ShadowsocksConfig.ts:140-147). -/
structure RawConfig where
  host : Option Str := none
  port : Option Str := none
  method : Option Str := none
  password : Option Str := none
  tag : Option Str := none
deriving DecidableEq, Repr

/-- The `Config` constructor on a plain record
(src/ShadowsocksConfig.ts:156-162): the setters run in source order host,
port, method, password, tag, each validating; a missing host or method
reaches the validators as the string `"undefined"` via the template
literal, a missing port likewise (`undefined === ''` is false), and a
missing password or tag becomes `''` via `|| ''`. -/
def makeConfig (r : RawConfig) : Except JsError Config := do
  let host ← hostValidate (r.host.getD (js "undefined"))
  let port ←
    match r.port with
    | some p => portValidate p
    | none =>
      match urlParse (js "http://0.0.0.0:undefined/") with
      | some u => .ok (urlPort u)
      | none => .error (invalidFieldErr (js "port") (js "undefined"))
  let method ← methodValidate (r.method.getD (js "undefined"))
  .ok ⟨host, port, method, r.password.getD [], r.tag.getD []⟩

/-- One revalidation pass of the `Config` constructor over an existing
`Config`'s payloads (each setter receives the field's string payload via
the `instanceof` branch or the getter). -/
def reConfig (c : Config) : Except JsError Config := do
  let host ← hostValidate c.host
  let port ← portValidate c.port
  let method ← methodValidate c.method
  .ok ⟨host, port, method, c.password, c.tag⟩

/-- Constructing a `LegacyBase64URI`/`Sip002URI` from validated fields runs
the `Config` constructor three times: once on the argument
(`new Config(config)` in the subclass constructor), once in
`ShadowsocksURI`'s constructor, and once in `Config`'s own constructor
(src/ShadowsocksConfig.ts:205-208, 247-248, 313-314). -/
def construct3 (c : Config) : Except JsError Config := do
  reConfig (← reConfig (← reConfig c))

/-! ## The URI codecs and the dispatcher -/

/-- A constructed `ShadowsocksURI` object: the validated payloads, plus
`plugin` for a `Sip002URI` (`none` marks a `LegacyBase64URI`, which has no
plugin property).  The derived `b64EncodedData`/`b64EncodedUserInfo`
members are recomputed below where needed. -/
structure SSURI where
  host : Str
  port : Str
  method : Str
  password : Str
  tag : Str
  plugin : Option Str
deriving DecidableEq, Repr

/-- `ShadowsocksURI.validateProtocol` (src/ShadowsocksConfig.ts:212-216). -/
def validateProtocol (uri : Str) : Except JsError Unit :=
  if (js "ss://").isPrefixOf uri then .ok ()
  else .error ⟨.invalidURI, js "URI must start with \"ss://\": " ++ uri⟩

/-- `ShadowsocksURI.getHash` (src/ShadowsocksConfig.ts:218-221) applied to
a tag payload: `#` plus the percent-encoded tag when non-empty. -/
def getHash (tag : Str) : Str :=
  if tag = [] then [] else '#' :: encodeURIComponent tag

/-- The padding-stripping loop of the `LegacyBase64URI` constructor
(src/ShadowsocksConfig.ts:251-255): count trailing `=` and cut them off. -/
def stripB64Padding (s : Str) : Str :=
  let paddingLength := JsStr.countTrailing '=' s
  if paddingLength = 0 then s else s.take (s.length - paddingLength)

/-- `new LegacyBase64URI(config)` (src/ShadowsocksConfig.ts:247-256): three
`Config` passes, then base64-encode `method:password@host:port` and strip
the padding.  Returns the final payloads and the `b64EncodedData` member. -/
def legacyFromConfig (c : Config) : Except JsError (Config × Str) := do
  let c' ← construct3 c
  match b64Encode (c'.method ++ ':' :: c'.password ++ '@' :: c'.host ++ ':' :: c'.port) with
  | none => .error b64EncodeErr
  | some e => .ok (c', stripB64Padding e)

/-- `LegacyBase64URI` object for a `Config`, as an `SSURI`. -/
def legacyURIOf (cd : Config × Str) : SSURI :=
  ⟨cd.1.host, cd.1.port, cd.1.method, cd.1.password, cd.1.tag, none⟩

/-- `new LegacyBase64URI(config).toString()`
(src/ShadowsocksConfig.ts:296-300): `ss://` + `b64EncodedData` + hash. -/
def legacyStringify (c : Config) : Except JsError Str := do
  let (c', data) ← legacyFromConfig c
  .ok (js "ss://" ++ data ++ getHash c'.tag)

/-- `LegacyBase64URI.parse` (src/ShadowsocksConfig.ts:258-294). -/
def legacyParse (uri : Str) : Except JsError SSURI := do
  validateProtocol uri
  let (b64Seg, tagSeg) :=
    match JsStr.splitFirst '#' uri with
    | none => (uri.drop 5, [])
    | some (before, after) => (before.drop 5, after)
  let tag ←
    match decodeURIComponent tagSeg with
    | none => .error uriMalformedErr
    | some t => .ok t
  let data ←
    match b64Decode b64Seg with
    | none => .error b64DecodeErr
    | some d => .ok d
  let (mp, hp) ←
    match JsStr.splitFirst '@' data with
    | none => .error ⟨.invalidURI, js "Missing \"@\": " ++ data⟩
    | some x => .ok x
  let (mStr, pStr) ←
    match JsStr.splitFirst ':' mp with
    | none => .error ⟨.invalidURI, js "Missing password part: " ++ mp⟩
    | some x => .ok x
  let method ← methodValidate mStr
  let password := pStr
  let (hStr, ptStr) ←
    match JsStr.splitFirst ':' hp with
    | none => .error ⟨.invalidURI, js "Missing port part: " ++ hp⟩
    | some x => .ok x
  let host ← hostValidate hStr
  let port ← portValidate ptStr
  let cd ← legacyFromConfig ⟨host, port, method, password, tag⟩
  .ok (legacyURIOf cd)

/-- `new Sip002URI(config)` (src/ShadowsocksConfig.ts:313-318): three
`Config` passes, base64-encode `method:password`, then the plugin setter
(`new Plugin(x)`, `undefined` becoming `''`).  Returns the payloads, the
`b64EncodedUserInfo` member and the plugin payload. -/
def sip002FromConfig (c : Config) (plugin : Option Str) :
    Except JsError (Config × Str × Str) := do
  let c' ← construct3 c
  match b64Encode (c'.method ++ ':' :: c'.password) with
  | none => .error b64EncodeErr
  | some e => .ok (c', e, optionalField plugin)

/-- `new Sip002URI(config).toString()` (src/ShadowsocksConfig.ts:356-361):
`ss://` + userinfo + `@` + host + `:` + port + `/` + optional
`?plugin=` query + hash.  The host payload is emitted verbatim and the
plugin is not percent-encoded. -/
def sip002Stringify (c : Config) (plugin : Option Str) : Except JsError Str := do
  let (c', userinfo, pl) ← sip002FromConfig c plugin
  let queryString := if pl = [] then [] else js "?plugin=" ++ pl
  .ok (js "ss://" ++ userinfo ++ '@' :: c'.host ++ ':' :: c'.port ++ '/' :: queryString ++
    getHash c'.tag)

/-- `Sip002URI.parse` (src/ShadowsocksConfig.ts:328-354). -/
def sip002Parse (uri : Str) : Except JsError SSURI := do
  validateProtocol uri
  let input := js "http" ++ uri.drop 2
  let u ←
    match urlParse input with
    | none => .error (invalidUrlErr input)
    | some u => .ok u
  let host ← hostValidate u.hostname
  let port ← portValidate (urlPort u)
  let tag ←
    match decodeURIComponent ((urlHash u).drop 1) with
    | none => .error uriMalformedErr
    | some t => .ok t
  let b64u := JsStr.replacePct3D u.username
  let data ←
    match b64Decode b64u with
    | none => .error b64DecodeErr
    | some d => .ok d
  let (mStr, pStr) ←
    match JsStr.splitFirst ':' data with
    | none => .error ⟨.invalidURI, js "Missing password part: " ++ data⟩
    | some x => .ok x
  let method ← methodValidate mStr
  let password := pStr
  let plugin : Option Str :=
    match searchParamsGet u (js "plugin") with
    | some s => if s = [] then none else some s
    | none => none
  let (c', _, pl) ← sip002FromConfig ⟨host, port, method, password, tag⟩ plugin
  .ok ⟨c'.host, c'.port, c'.method, c'.password, c'.tag, some pl⟩

/-- Wrapping of a non-`InvalidURI` first failure by the dispatcher
(src/ShadowsocksConfig.ts:232-238). -/
def wrapDispatchError (uri : Str) (e : JsError) : JsError :=
  let originalErrorName := if errName e.kind = [] then js "(Unnamed Error)" else errName e.kind
  let originalErrorMessage :=
    if e.message = [] then js "(no error message provided)" else e.message
  ⟨.invalidURI,
    js "Invalid input: " ++ uri ++ js " - Original error: " ++
      originalErrorName ++ ':' :: ' ' :: originalErrorMessage⟩

/-- `ShadowsocksURI.parse` (src/ShadowsocksConfig.ts:223-240): try
`LegacyBase64URI.parse`, then `Sip002URI.parse`; keep the first error
(`error = error || e`); if every codec fails, re-throw the first error if
it is an `InvalidURI`, else wrap it. -/
def ssParse (uri : Str) : Except JsError SSURI :=
  match legacyParse uri with
  | .ok r => .ok r
  | .error e1 =>
    match sip002Parse uri with
    | .ok r => .ok r
    | .error _ => .error (if e1.kind = .invalidURI then e1 else wrapDispatchError uri e1)

/-- Modelled from the spec: the dispatcher as claim C2 and §4.3 of the spec
describe it, attempting the SIP002 codec first and the legacy codec second
(the source dispatcher at src/ShadowsocksConfig.ts:225 attempts
`LegacyBase64URI` first).  Used only to compare the two orders. -/
def specOrderParse (uri : Str) : Except JsError SSURI :=
  match sip002Parse uri with
  | .ok r => .ok r
  | .error e1 =>
    match legacyParse uri with
    | .ok r => .ok r
    | .error _ => .error (if e1.kind = .invalidURI then e1 else wrapDispatchError uri e1)

/-! ## Copy construction

Each `ConfigField` constructor accepts an existing instance and first
extracts its payload (`if (x instanceof T) { x = x.data; }`), then proceeds
exactly as for a string argument: `Host` and `Port` re-run the URL parser
on the payload (src/ShadowsocksConfig.ts:51-57, 69-75), `Method` re-checks
whitelist membership (107-112), and `Password`/`Tag`/`Plugin` apply
`x || ''` (121-137). -/

/-- `new Host(h)` for an existing `Host` instance with payload `p`. -/
def hostCopy (p : Str) : Except JsError Str := hostValidate p

/-- `new Port(p)` for an existing `Port` instance with payload `p`. -/
def portCopy (p : Str) : Except JsError Str := portValidate p

/-- `new Method(m)` for an existing `Method` instance with payload `m`. -/
def methodCopy (m : Str) : Except JsError Str := methodValidate m

/-- `new Password(x)` for an existing `Password` instance with payload `p`. -/
def passwordCopy (p : Str) : Str := optionalField (some p)

/-- `new Tag(x)` for an existing `Tag` instance with payload `p`. -/
def tagCopy (p : Str) : Str := optionalField (some p)

/-- `new Plugin(x)` for an existing `Plugin` instance with payload `p`. -/
def pluginCopy (p : Str) : Str := optionalField (some p)

/-- Printable ASCII excluding space: the character class used in the
hypotheses of the round-trip theorems. -/
def plainChar (c : Char) : Bool := 0x21 ≤ c.toNat ∧ c.toNat ≤ 0x7E

/-! # Concrete evaluations of the model (repository test vectors and key cases) -/

example : b64Encode (js "bf-cfb:test@192.168.100.1:8888")
    = some (js "YmYtY2ZiOnRlc3RAMTkyLjE2OC4xMDAuMTo4ODg4") := by decide
example : b64Encode (js "aes-128-gcm:test") = some (js "YWVzLTEyOC1nY206dGVzdA==") := by decide
example : b64Decode (js "YWVzLTEyOC1nY206dGVzdA==") = some (js "aes-128-gcm:test") := by decide
example : b64Decode (js "YmYtY2ZiOnRlc3RAMTkyLjE2OC4xMDAuMTo4ODg4")
    = some (js "bf-cfb:test@192.168.100.1:8888") := by decide
example : b64Decode (js "A") = none := by decide
example : b64Decode (js "not-base64") = none := by decide
example : encodeURIComponent (js "Foo Bar") = js "Foo%20Bar" := by decide
example : decodeURIComponent (js "Foo%20Bar") = some (js "Foo Bar") := by decide
example : decodeURIComponent (js "obfs-local%3Bobfs%3Dhttp") = some (js "obfs-local;obfs=http") := by decide
example : decodeURIComponent (js "%zz") = none := by decide
example : encodeURIComponent (js "mañana") = js "ma%C3%B1ana" := by decide
example : decodeURIComponent (js "ma%C3%B1ana") = some (js "mañana") := by decide
example : pctDecodeStr (js "ma%C3%B1ana.com") = js "mañana.com" := by decide
example : pctDecodeStr (js "a%2541") = js "a%41" := by decide
example : pctDecodeStr (js "a%zz") = js "a%zz" := by decide
example : domainToAscii (js "mañana.com") = js "xn--maana-pta.com" := by decide
example : domainToAscii (js "☃-⌘.com") = js "xn----dqo34k.com" := by decide
example : domainToAscii (js "ExAmPlE.CoM") = js "example.com" := by decide
example : ipv4Parser (js "192.168.100.1") = .addr 3232261121 := by decide
example : ipv4Serialize 3232261121 = js "192.168.100.1" := by decide
example : ipv4Parser (js "2001") = .addr 2001 := by decide
example : ipv4Serialize 2001 = js "0.0.7.209" := by decide
example : ipv4Parser (js "example.com") = .domain := by decide
example : ipv4Parser (js "1.2.3.256") = .fail := by decide
example : ipv4Parser (js "192.168.100.1.5") = .domain := by decide
example : ipv6Parse (js "2001:0:ce49:7601:e866:efff:62c3:fffe")
    = some [0x2001, 0, 0xce49, 0x7601, 0xe866, 0xefff, 0x62c3, 0xfffe] := by decide
example : ipv6Serialize [0x2001, 0, 0xce49, 0x7601, 0xe866, 0xefff, 0x62c3, 0xfffe]
    = js "2001:0:ce49:7601:e866:efff:62c3:fffe" := by decide
example : ipv6Parse (js "::1") = some [0, 0, 0, 0, 0, 0, 0, 1] := by decide
example : ipv6Serialize [0, 0, 0, 0, 0, 0, 0, 1] = js "::1" := by decide
example : ipv6Parse (js "::ffff:192.168.0.1") = some [0, 0, 0, 0, 0, 0xffff, 0xc0a8, 1] := by decide
example : ipv6Parse (js "2001") = none := by decide
example : ipv6Parse (js "1:2:3:4:5:6:7:8:9") = none := by decide
example : ipv6Serialize [1, 0, 0, 2, 0, 0, 0, 3] = js "1:0:0:2::3" := by decide
example : parseHost (js "ExAmPle.com") = some (js "example.com") := by decide
example : parseHost (js "192.168.100.1") = some (js "192.168.100.1") := by decide
example : parseHost (js "[2001:0:ce49:7601:e866:efff:62c3:fffe]")
    = some (js "[2001:0:ce49:7601:e866:efff:62c3:fffe]") := by decide
example : parseHost (js "-") = some (js "-") := by decide
example : parseHost (js "a b") = none := by decide
example : parseHost (js "") = none := by decide
example : parseHost (js "mañana.com") = some (js "xn--maana-pta.com") := by decide
example : urlParse (js "http://YWVzLTEyOC1nY206dGVzdA==@192.168.100.1:8888#Foo%20Bar")
    = some ⟨js "YWVzLTEyOC1nY206dGVzdA%3D%3D", js "192.168.100.1", some 8888, none,
        some (js "Foo%20Bar")⟩ := by decide
example : urlParse (js "http://cmM0LW1kNTpwYXNzd2Q=@192.168.100.1:8888/?plugin=obfs-local%3Bobfs%3Dhttp")
    = some ⟨js "cmM0LW1kNTpwYXNzd2Q%3D", js "192.168.100.1", some 8888,
        some (js "plugin=obfs-local%3Bobfs%3Dhttp"), none⟩ := by decide
example : (urlParse (js "http://cmM0LW1kNTpwYXNzd2Q=@192.168.100.1:8888/?plugin=obfs-local%3Bobfs%3Dhttp")).map
      (fun u => searchParamsGet u (js "plugin"))
    = some (some (js "obfs-local;obfs=http")) := by decide
example : urlParse (js "http://A") = some ⟨[], js "a", none, none, none⟩ := by decide
example : urlParse (js "http://0.0.0.0:80/") = some ⟨[], js "0.0.0.0", none, none, none⟩ := by decide
example : urlParse (js "http://0.0.0.0:01234/") = some ⟨[], js "0.0.0.0", some 1234, none, none⟩ := by decide
example : urlParse (js "http://0.0.0.0:foo/") = none := by decide
example : urlParse (js "http://[2001:0:ce49:7601:e866:efff:62c3:fffe]:8888/")
    = some ⟨[], js "[2001:0:ce49:7601:e866:efff:62c3:fffe]", some 8888, none, none⟩ := by decide
example : urlParse (js "http://undefined/") = some ⟨[], js "undefined", none, none, none⟩ := by decide
example : urlParse (js "http://2001:0:ce49:7601:e866:efff:62c3:fffe/") = none := by decide
example : hostValidate (js "192.168.100.1") = .ok (js "192.168.100.1") := by decide
example : hostValidate (js "") = .error (invalidFieldErr (js "host") []) := by decide
example : hostValidate (js "-") = .ok (js "-") := by decide
example : hostValidate (js "2001:0:ce49:7601:e866:efff:62c3:fffe")
    = .error (invalidFieldErr (js "host") (js "2001:0:ce49:7601:e866:efff:62c3:fffe")) := by decide
example : hostValidate (js "[2001:0:ce49:7601:e866:efff:62c3:fffe]")
    = .ok (js "[2001:0:ce49:7601:e866:efff:62c3:fffe]") := by decide
example : hostValidate (js "mañana.com") = .ok (js "xn--maana-pta.com") := by decide
example : portValidate (js "01234") = .ok (js "1234") := by decide
example : portValidate (js "80") = .ok [] := by decide
example : portValidate (js "8888") = .ok (js "8888") := by decide
example : portValidate [] = .error (invalidFieldErr (js "port") []) := by decide
example : portValidate (js "foo") = .error (invalidFieldErr (js "port") (js "foo")) := by decide
example : portValidate (js "-123") = .error (invalidFieldErr (js "port") (js "-123")) := by decide
example : portValidate (js "123.4") = .error (invalidFieldErr (js "port") (js "123.4")) := by decide
example : portValidate (js "65536") = .error (invalidFieldErr (js "port") (js "65536")) := by decide
example : portValidateNum 8388 = .ok (js "8388") := by decide
example : legacyStringify ⟨js "192.168.100.1", js "8888", js "bf-cfb", js "test", js "Foo Bar"⟩
    = .ok (js "ss://YmYtY2ZiOnRlc3RAMTkyLjE2OC4xMDAuMTo4ODg4#Foo%20Bar") := by decide
example : sip002Stringify ⟨js "192.168.100.1", js "8888", js "aes-128-gcm", js "test", js "Foo Bar"⟩ none
    = .ok (js "ss://YWVzLTEyOC1nY206dGVzdA==@192.168.100.1:8888/#Foo%20Bar") := by decide
example : ssParse (js "ss://YWVzLTEyOC1nY206dGVzdA==@192.168.100.1:8888#Foo%20Bar")
    = .ok ⟨js "192.168.100.1", js "8888", js "aes-128-gcm", js "test", js "Foo Bar", some []⟩ := by
  decide
example : ssParse (js "ss://YmYtY2ZiOnRlc3RAMTkyLjE2OC4xMDAuMTo4ODg4#Foo%20Bar")
    = .ok ⟨js "192.168.100.1", js "8888", js "bf-cfb", js "test", js "Foo Bar", none⟩ := by decide
example : ssParse (js "ss://cmM0LW1kNTpwYXNzd2Q=@192.168.100.1:8888/?plugin=obfs-local%3Bobfs%3Dhttp")
    = .ok ⟨js "192.168.100.1", js "8888", js "rc4-md5", js "passwd", [],
        some (js "obfs-local;obfs=http")⟩ := by decide
example : ssParse [] = .error ⟨.invalidURI, js "URI must start with \"ss://\": "⟩ := by decide
example : (ssParse (js "not a URI")).isOk = false := by decide
example : (ssParse (js "ss://not-base64")).isOk = false := by decide

/-! # Lemmas and claim theorems -/

/-! ## Character and list basics -/

theorem charLe_iff (a b : Char) : a ≤ b ↔ a.toNat ≤ b.toNat := Iff.rfl

theorem charEq_iff (a b : Char) : a = b ↔ a.toNat = b.toNat := by
  constructor
  · rintro rfl; rfl
  · intro h; exact Char.eq_of_val_eq (UInt32.toNat.inj h)

theorem char_toNat_lt (c : Char) : c.toNat < 1114112 := by
  rcases c.valid with h | ⟨_, h2⟩ <;> simp only [Char.toNat] <;> omega

namespace JsStr

theorem splitFirst_append {c : Char} {a b : Str} (ha : c ∉ a) :
    splitFirst c (a ++ c :: b) = some (a, b) := by
  induction a with
  | nil => simp [splitFirst]
  | cons x xs ih =>
    simp only [List.mem_cons, not_or] at ha
    have h1 : ¬ x = c := fun h => ha.1 h.symm
    simp only [List.cons_append, splitFirst, List.append_eq, if_neg h1, ih ha.2]

theorem splitFirst_none {c : Char} {s : Str} (h : c ∉ s) : splitFirst c s = none := by
  induction s with
  | nil => rfl
  | cons x xs ih =>
    simp only [List.mem_cons, not_or] at h
    have h1 : ¬ x = c := fun he => h.1 he.symm
    simp only [splitFirst, if_neg h1, ih h.2]

theorem splitLast_append {c : Char} {a b : Str} (hb : c ∉ b) :
    splitLast c (a ++ c :: b) = some (a, b) := by
  unfold splitLast
  have : (a ++ c :: b).reverse = b.reverse ++ c :: a.reverse := by
    simp [List.reverse_append]
  rw [this, splitFirst_append (by simpa using hb)]
  simp

theorem splitLast_none {c : Char} {s : Str} (h : c ∉ s) : splitLast c s = none := by
  unfold splitLast
  rw [splitFirst_none (by simpa using h)]

theorem splitFirstP_append {p : Char → Bool} {a b : Str} {m : Char}
    (ha : ∀ x ∈ a, ¬ p x) (hm : p m) :
    splitFirstP p (a ++ m :: b) = some (a, m, b) := by
  induction a with
  | nil => simp [splitFirstP, hm]
  | cons x xs ih =>
    have hx := ha x (by simp)
    simp only [List.cons_append, splitFirstP, List.append_eq, if_neg hx,
      ih (fun y hy => ha y (by simp [hy]))]

theorem splitFirstP_none {p : Char → Bool} {s : Str} (h : ∀ x ∈ s, ¬ p x) :
    splitFirstP p s = none := by
  induction s with
  | nil => rfl
  | cons x xs ih =>
    simp only [splitFirstP, if_neg (h x (by simp)), ih (fun y hy => h y (by simp [hy]))]

end JsStr

theorem splitHostPort_append {a b : Str}
    (ha : ∀ x ∈ a, x ≠ ':' ∧ x ≠ '[') :
    splitHostPort (a ++ ':' :: b) false = (a, some b) := by
  induction a with
  | nil => simp [splitHostPort]
  | cons x xs ih =>
    have hx := ha x (by simp)
    simp only [List.cons_append, splitHostPort]
    rw [if_neg (by simp [hx.1]), if_neg (by simp [hx.2])]
    have hbr : (if x = ']' then false else false) = false := by split <;> rfl
    rw [hbr]
    simp only [List.append_eq] at ih ⊢
    rw [ih (fun y hy => ha y (by simp [hy]))]

theorem splitHostPort_nocolon {a : Str} (ha : ∀ x ∈ a, x ≠ ':' ∧ x ≠ '[') :
    splitHostPort a false = (a, none) := by
  induction a with
  | nil => rfl
  | cons x xs ih =>
    have hx := ha x (by simp)
    simp only [splitHostPort]
    rw [if_neg (by simp [hx.1]), if_neg (by simp [hx.2])]
    have hbr : (if x = ']' then false else false) = false := by split <;> rfl
    rw [hbr, ih (fun y hy => ha y (by simp [hy]))]

/-! ## Base64 correctness -/

theorem b64Chr_lt_aux : ∀ n, n < 64 →
    isB64Char (b64Chr n) ∧ b64Chr n ≠ '=' ∧ plainChar (b64Chr n) := by decide

theorem b64Val_b64Chr : ∀ n, n < 64 → b64Val (b64Chr n) = n := by decide

theorem isB64Char_facts {c : Char} (h : isB64Char c) :
    plainChar c ∧ ¬ isB64Space c ∧ c ≠ '#' ∧ c ≠ '@' ∧ c ≠ ':' ∧ c ≠ '?' ∧
      c ≠ '=' ∧ c ≠ '\\' ∧ c.toNat ≤ 255 := by
  simp only [isB64Char, charLe_iff, decide_eq_true_eq] at h
  simp at h
  have hn : (33 ≤ c.toNat ∧ c.toNat ≤ 126) ∧ c.toNat ≠ 35 ∧ c.toNat ≠ 64 ∧ c.toNat ≠ 58 ∧
      c.toNat ≠ 63 ∧ c.toNat ≠ 61 ∧ c.toNat ≠ 92 ∧ c.toNat ≤ 255 := by
    rcases h with ⟨h1, h2⟩ | ⟨h1, h2⟩ | ⟨h1, h2⟩ | rfl | rfl <;> first | (constructor <;> omega) | decide
  refine ⟨?_, ?_, ?_, ?_, ?_, ?_, ?_, ?_, hn.2.2.2.2.2.2.2⟩
  · simp only [plainChar, charLe_iff, decide_eq_true_eq]
    omega
  · simp only [isB64Space, decide_eq_true_eq]
    rintro (rfl | rfl | rfl | rfl | rfl) <;> simp_all
  · rintro rfl; simp at hn
  · rintro rfl; simp at hn
  · rintro rfl; simp at hn
  · rintro rfl; simp at hn
  · rintro rfl; simp at hn
  · rintro rfl; simp at hn

theorem dropWhile_head_not {p : Char → Bool} : ∀ {l x xs},
    List.dropWhile p l = x :: xs → p x = false := by
  intro l
  induction l with
  | nil => intro x xs h; simp [List.dropWhile] at h
  | cons y ys ih =>
    intro x xs h
    by_cases hy : p y
    · rw [List.dropWhile_cons_of_pos hy] at h; exact ih h
    · rw [List.dropWhile_cons_of_neg hy] at h
      cases h; simpa using hy

theorem mem_dropTrailing {c x : Char} {s : Str} (h : x ∈ JsStr.dropTrailing c s) : x ∈ s := by
  unfold JsStr.dropTrailing at h
  rw [List.mem_reverse] at h
  have := (@List.dropWhile_sublist _ s.reverse (fun y => y = c)).subset h
  simpa using this

theorem stripPad_dropTrailing (s : Str) :
    b64StripPad (JsStr.dropTrailing '=' s) = JsStr.dropTrailing '=' s := by
  unfold b64StripPad JsStr.dropTrailing
  rw [List.reverse_reverse]
  match h : List.dropWhile (fun y => y = '=') s.reverse with
  | [] => simp
  | x :: xs =>
    have hx : ¬ (x = '=') := by simpa using dropWhile_head_not h
    match xs with
    | [] => simp [hx]
    | y :: ys => simp [hx]

theorem dropTrailing_append {c : Char} {g E : Str} (hE : ∃ x ∈ E, x ≠ c) :
    JsStr.dropTrailing c (g ++ E) = g ++ JsStr.dropTrailing c E := by
  unfold JsStr.dropTrailing
  rw [List.reverse_append, List.dropWhile_append]
  have hne : (List.dropWhile (fun y => y = c) E.reverse).isEmpty = false := by
    rcases hE with ⟨x, hxE, hxc⟩
    rw [List.isEmpty_eq_false_iff_exists_mem]
    by_contra hcon
    push_neg at hcon
    have : List.dropWhile (fun y => y = c) E.reverse = [] := by
      rcases hdw : List.dropWhile (fun y => y = c) E.reverse with _ | ⟨z, zs⟩
      · rfl
      · exact absurd (hdw ▸ List.mem_cons_self z zs) (hcon z)
    rw [List.dropWhile_eq_nil_iff] at this
    exact hxc (by simpa using this x (by simpa using hxE))
  rw [hne]
  simp [List.reverse_append]

theorem dropTrailing_of_ne {c : Char} {s : Str} (h : ∀ x ∈ s, x ≠ c) :
    JsStr.dropTrailing c s = s := by
  unfold JsStr.dropTrailing
  rw [List.dropWhile_eq_self_iff.mpr, List.reverse_reverse]
  intro hx
  have hmem : (List.reverse s).get ⟨0, hx⟩ ∈ s := by
    rw [← List.mem_reverse]; exact List.get_mem _ _ _
  simpa using h _ hmem

theorem encodeBytes_chars : ∀ (bs : List Nat), (∀ b ∈ bs, b < 256) →
    ∀ x ∈ b64EncodeBytes bs, isB64Char x ∨ x = '='
  | [], _, x, hx => by simp [b64EncodeBytes] at hx
  | [a], h, x, hx => by
    have ha := h a (by simp)
    simp only [b64EncodeBytes, List.mem_cons, List.not_mem_nil, or_false] at hx
    rcases hx with rfl | rfl | rfl | rfl
    · exact Or.inl (b64Chr_lt_aux _ (by omega)).1
    · exact Or.inl (b64Chr_lt_aux _ (by omega)).1
    · exact Or.inr rfl
    · exact Or.inr rfl
  | [a, b], h, x, hx => by
    have ha := h a (by simp)
    have hb := h b (by simp)
    simp only [b64EncodeBytes, List.mem_cons, List.not_mem_nil, or_false] at hx
    rcases hx with rfl | rfl | rfl | rfl
    · exact Or.inl (b64Chr_lt_aux _ (by omega)).1
    · exact Or.inl (b64Chr_lt_aux _ (by omega)).1
    · exact Or.inl (b64Chr_lt_aux _ (by omega)).1
    · exact Or.inr rfl
  | a :: b :: c :: rest, h, x, hx => by
    have ha := h a (by simp)
    have hb := h b (by simp)
    have hc := h c (by simp)
    simp only [b64EncodeBytes, List.mem_cons] at hx
    rcases hx with rfl | rfl | rfl | rfl | hx
    · exact Or.inl (b64Chr_lt_aux _ (by omega)).1
    · exact Or.inl (b64Chr_lt_aux _ (by omega)).1
    · exact Or.inl (b64Chr_lt_aux _ (by omega)).1
    · exact Or.inl (b64Chr_lt_aux _ (by omega)).1
    · exact encodeBytes_chars rest (fun y hy => h y (by simp [hy])) x hx

theorem b64Chr_ne_eq {n : Nat} (h : n < 64) : b64Chr n ≠ '=' := (b64Chr_lt_aux n h).2.1

/-- Core round trip: decoding the padding-stripped encoding gives back the
bytes. -/
theorem b64_chunks_rt : ∀ (bs : List Nat), (∀ b ∈ bs, b < 256) →
    b64DecodeChunks (JsStr.dropTrailing '=' (b64EncodeBytes bs)) = bs
  | [], _ => by simp [b64EncodeBytes, JsStr.dropTrailing, b64DecodeChunks]
  | [a], h => by
    have ha := h a (by simp)
    have h1 : b64Chr (a / 4) ≠ '=' := b64Chr_ne_eq (by omega)
    have h2 : b64Chr (a % 4 * 16) ≠ '=' := b64Chr_ne_eq (by omega)
    have hdrop : JsStr.dropTrailing '=' (b64EncodeBytes [a])
        = [b64Chr (a / 4), b64Chr (a % 4 * 16)] := by
      simp [b64EncodeBytes, JsStr.dropTrailing, List.dropWhile, h1, h2]
    rw [hdrop]
    simp only [b64DecodeChunks, b64Val_b64Chr _ (by omega : a / 4 < 64),
      b64Val_b64Chr _ (by omega : a % 4 * 16 < 64)]
    congr 1
    omega
  | [a, b], h => by
    have ha := h a (by simp)
    have hb := h b (by simp)
    have h1 : b64Chr (a / 4) ≠ '=' := b64Chr_ne_eq (by omega)
    have h2 : b64Chr (a % 4 * 16 + b / 16) ≠ '=' := b64Chr_ne_eq (by omega)
    have h3 : b64Chr (b % 16 * 4) ≠ '=' := b64Chr_ne_eq (by omega)
    have hdrop : JsStr.dropTrailing '=' (b64EncodeBytes [a, b])
        = [b64Chr (a / 4), b64Chr (a % 4 * 16 + b / 16), b64Chr (b % 16 * 4)] := by
      simp [b64EncodeBytes, JsStr.dropTrailing, List.dropWhile, h1, h2, h3]
    rw [hdrop]
    simp only [b64DecodeChunks, b64Val_b64Chr _ (by omega : a / 4 < 64),
      b64Val_b64Chr _ (by omega : a % 4 * 16 + b / 16 < 64),
      b64Val_b64Chr _ (by omega : b % 16 * 4 < 64)]
    congr 1
    · omega
    · congr 1
      omega
  | a :: b :: c :: rest, h => by
    have ha := h a (by simp)
    have hb := h b (by simp)
    have hc := h c (by simp)
    have hrest : ∀ y ∈ rest, y < 256 := fun y hy => h y (by simp [hy])
    have henc : b64EncodeBytes (a :: b :: c :: rest)
        = b64Chr (a / 4) :: b64Chr (a % 4 * 16 + b / 16) :: b64Chr (b % 16 * 4 + c / 64) ::
            b64Chr (c % 64) :: b64EncodeBytes rest := rfl
    rw [henc]
    rcases rest with _ | ⟨d, rest'⟩
    · have h1 : b64Chr (a / 4) ≠ '=' := b64Chr_ne_eq (by omega)
      have h2 : b64Chr (a % 4 * 16 + b / 16) ≠ '=' := b64Chr_ne_eq (by omega)
      have h3 : b64Chr (b % 16 * 4 + c / 64) ≠ '=' := b64Chr_ne_eq (by omega)
      have h4 : b64Chr (c % 64) ≠ '=' := b64Chr_ne_eq (by omega)
      have hdrop : JsStr.dropTrailing '='
          [b64Chr (a / 4), b64Chr (a % 4 * 16 + b / 16), b64Chr (b % 16 * 4 + c / 64),
            b64Chr (c % 64)]
          = [b64Chr (a / 4), b64Chr (a % 4 * 16 + b / 16), b64Chr (b % 16 * 4 + c / 64),
              b64Chr (c % 64)] := by
        simp [b64EncodeBytes, JsStr.dropTrailing, List.dropWhile, h1, h2, h3, h4]
      simp only [b64EncodeBytes] at hdrop ⊢
      rw [hdrop]
      simp only [b64DecodeChunks, b64Val_b64Chr _ (by omega : a / 4 < 64),
        b64Val_b64Chr _ (by omega : a % 4 * 16 + b / 16 < 64),
        b64Val_b64Chr _ (by omega : b % 16 * 4 + c / 64 < 64),
        b64Val_b64Chr _ (by omega : c % 64 < 64)]
      congr 1
      · omega
      · congr 1
        · omega
        · congr 1
          omega
    · have hne : ∃ x ∈ b64EncodeBytes (d :: rest'), x ≠ '=' := by
        have hd := h d (by simp)
        refine ⟨b64Chr (d / 4), ?_, b64Chr_ne_eq (by omega)⟩
        rcases rest' with _ | ⟨e, rest''⟩
        · simp [b64EncodeBytes]
        · rcases rest'' with _ | ⟨f, _⟩ <;> simp [b64EncodeBytes]
      have hsplit : b64Chr (a / 4) :: b64Chr (a % 4 * 16 + b / 16) ::
            b64Chr (b % 16 * 4 + c / 64) :: b64Chr (c % 64) :: b64EncodeBytes (d :: rest')
          = [b64Chr (a / 4), b64Chr (a % 4 * 16 + b / 16), b64Chr (b % 16 * 4 + c / 64),
              b64Chr (c % 64)] ++ b64EncodeBytes (d :: rest') := rfl
      rw [hsplit, dropTrailing_append hne]
      simp only [List.cons_append, List.nil_append, b64DecodeChunks,
        b64Val_b64Chr _ (by omega : a / 4 < 64),
        b64Val_b64Chr _ (by omega : a % 4 * 16 + b / 16 < 64),
        b64Val_b64Chr _ (by omega : b % 16 * 4 + c / 64 < 64),
        b64Val_b64Chr _ (by omega : c % 64 < 64)]
      simp only [List.append_eq, List.nil_append]
      rw [b64_chunks_rt (d :: rest') (fun y hy => h y (by simp [hy]))]
      congr 1
      · omega
      · congr 1
        · omega
        · congr 1
          omega

theorem stripPad_eq_dropTrailing {s : Str} (h : JsStr.countTrailing '=' s ≤ 2) :
    b64StripPad s = JsStr.dropTrailing '=' s := by
  obtain ⟨tw, dw, hrev, hall, hhead, hlen⟩ :
      ∃ tw dw, s.reverse = tw ++ dw ∧ (∀ x ∈ tw, x = '=') ∧
        (∀ z zs, dw = z :: zs → z ≠ '=') ∧ tw.length ≤ 2 := by
    refine ⟨List.takeWhile (fun y => y = '=') s.reverse,
      List.dropWhile (fun y => y = '=') s.reverse,
      (List.takeWhile_append_dropWhile _ _).symm, ?_, ?_, ?_⟩
    · intro x hx; simpa using List.mem_takeWhile_imp hx
    · intro z zs hz; simpa using dropWhile_head_not hz
    · simpa [JsStr.countTrailing] using h
  have hs : s = dw.reverse ++ tw.reverse := by
    have := congrArg List.reverse hrev
    simpa using this
  have hdw_drop : List.dropWhile (fun y => y = '=') dw = dw := by
    rcases dw with _ | ⟨z, zs⟩
    · rfl
    · rw [List.dropWhile_cons_of_neg (by simpa using hhead z zs rfl)]
  have hdrop : JsStr.dropTrailing '=' s = dw.reverse := by
    unfold JsStr.dropTrailing
    rw [hrev, List.dropWhile_append]
    have htw_nil : List.dropWhile (fun y => y = '=') tw = [] := by
      rw [List.dropWhile_eq_nil_iff]
      intro x hx; simpa using hall x hx
    rw [htw_nil]
    simp [hdw_drop]
  rw [hdrop]
  unfold b64StripPad
  rw [hrev]
  rcases tw with _ | ⟨t1, tl⟩
  · rcases hw : dw with _ | ⟨z, zs⟩
    · subst hw; simpa using hs
    · have hz := hhead z zs hw
      subst hw
      simp only [List.nil_append]
      rcases zs with _ | ⟨z2, zs2⟩
      · simpa [hz] using hs
      · simpa [hz] using hs
  · have ht1 : t1 = '=' := hall t1 (by simp)
    rcases tl with _ | ⟨t2, tl2⟩
    · subst ht1
      rcases hw : dw with _ | ⟨z, zs⟩
      · subst hw; simp
      · have hz := hhead z zs hw
        subst hw
        simp [hz]
    · have ht2 : t2 = '=' := hall t2 (by simp)
      have htl2 : tl2 = [] := by
        rcases tl2 with _ | _
        · rfl
        · simp at hlen
      subst htl2 ht1 ht2
      simp

theorem countTrailing_append {c : Char} {g E : Str} (hE : ∃ x ∈ E, x ≠ c) :
    JsStr.countTrailing c (g ++ E) = JsStr.countTrailing c E := by
  unfold JsStr.countTrailing
  rw [List.reverse_append, List.takeWhile_append]
  have hcond : ¬ ((List.takeWhile (fun y => y = c) E.reverse).length = E.reverse.length) := by
    intro hlen
    have hself : List.takeWhile (fun y => y = c) E.reverse = E.reverse :=
      (List.takeWhile_sublist _).eq_of_length hlen
    rcases hE with ⟨x, hxE, hxc⟩
    have : x ∈ List.takeWhile (fun y => y = c) E.reverse := by
      rw [hself]; simpa using hxE
    exact hxc (by simpa using List.mem_takeWhile_imp this)
  rw [if_neg hcond]

theorem countTrailing_encode_le2 : ∀ (bs : List Nat), (∀ b ∈ bs, b < 256) →
    JsStr.countTrailing '=' (b64EncodeBytes bs) ≤ 2
  | [], _ => by simp [b64EncodeBytes, JsStr.countTrailing]
  | [a], h => by
    have ha := h a (by simp)
    have h1 : ¬ (b64Chr (a % 4 * 16) = '=') := b64Chr_ne_eq (by omega)
    simp [b64EncodeBytes, JsStr.countTrailing, List.takeWhile, h1]
  | [a, b], h => by
    have ha := h a (by simp)
    have hb := h b (by simp)
    have h1 : ¬ (b64Chr (b % 16 * 4) = '=') := b64Chr_ne_eq (by omega)
    simp [b64EncodeBytes, JsStr.countTrailing, List.takeWhile, h1]
  | a :: b :: c :: rest, h => by
    have hc := h c (by simp)
    have henc : b64EncodeBytes (a :: b :: c :: rest)
        = [b64Chr (a / 4), b64Chr (a % 4 * 16 + b / 16), b64Chr (b % 16 * 4 + c / 64),
            b64Chr (c % 64)] ++ b64EncodeBytes rest := rfl
    rw [henc]
    rcases rest with _ | ⟨d, rest'⟩
    · have h1 : ¬ (b64Chr (c % 64) = '=') := b64Chr_ne_eq (by omega)
      simp [b64EncodeBytes, JsStr.countTrailing, List.takeWhile, h1]
    · have hd := h d (by simp)
      have hne : ∃ x ∈ b64EncodeBytes (d :: rest'), x ≠ '=' := by
        refine ⟨b64Chr (d / 4), ?_, b64Chr_ne_eq (by omega)⟩
        rcases rest' with _ | ⟨e, rest''⟩
        · simp [b64EncodeBytes]
        · rcases rest'' with _ | ⟨f, _⟩ <;> simp [b64EncodeBytes]
      rw [countTrailing_append hne]
      exact countTrailing_encode_le2 (d :: rest') (fun y hy => h y (by simp [hy]))

theorem encode_len_mod4 : ∀ (bs : List Nat), (b64EncodeBytes bs).length % 4 = 0
  | [] => by simp [b64EncodeBytes]
  | [_] => by simp [b64EncodeBytes]
  | [_, _] => by simp [b64EncodeBytes]
  | a :: b :: c :: rest => by
    have ih := encode_len_mod4 rest
    simp only [b64EncodeBytes, List.length_cons]
    omega

theorem dropTrailing_length (c : Char) (s : Str) :
    (JsStr.dropTrailing c s).length = s.length - JsStr.countTrailing c s := by
  unfold JsStr.dropTrailing JsStr.countTrailing
  have := congrArg List.length (List.takeWhile_append_dropWhile (fun y => y = c) s.reverse)
  simp only [List.length_append, List.length_reverse] at this ⊢
  omega

theorem dropTrailing_split (c : Char) (s : Str) :
    s = JsStr.dropTrailing c s ++ (List.takeWhile (fun y => y = c) s.reverse).reverse := by
  conv_lhs => rw [← List.reverse_reverse s,
    ← List.takeWhile_append_dropWhile (fun y => y = c) s.reverse]
  rw [List.reverse_append]
  rfl

theorem stripB64Padding_eq_dropTrailing (s : Str) :
    stripB64Padding s = JsStr.dropTrailing '=' s := by
  unfold stripB64Padding
  by_cases h0 : JsStr.countTrailing '=' s = 0
  · rw [if_pos h0]
    have htw : List.takeWhile (fun y => y = '=') s.reverse = [] := by
      rw [← List.length_eq_zero]
      simpa [JsStr.countTrailing] using h0
    have := dropTrailing_split '=' s
    rw [htw] at this
    simpa using this
  · rw [if_neg h0]
    have hsplit := dropTrailing_split '=' s
    set t := JsStr.dropTrailing '=' s with ht
    set pad := (List.takeWhile (fun y => y = '=') s.reverse).reverse with hpad
    have hslen : s.length = t.length + pad.length := by rw [hsplit]; simp
    have hcount : JsStr.countTrailing '=' s = pad.length := by
      simp [JsStr.countTrailing, hpad]
    have harg : s.length - JsStr.countTrailing '=' s = t.length := by omega
    rw [harg, hsplit]
    exact List.take_left' rfl

theorem stripped_all_b64 : ∀ (bs : List Nat), (∀ b ∈ bs, b < 256) →
    ∀ x ∈ JsStr.dropTrailing '=' (b64EncodeBytes bs), isB64Char x
  | [], _, x, hx => by simp [b64EncodeBytes, JsStr.dropTrailing, List.dropWhile] at hx
  | [a], h, x, hx => by
    have ha := h a (by simp)
    have h1 : b64Chr (a / 4) ≠ '=' := b64Chr_ne_eq (by omega)
    have h2 : b64Chr (a % 4 * 16) ≠ '=' := b64Chr_ne_eq (by omega)
    have hdrop : JsStr.dropTrailing '=' (b64EncodeBytes [a])
        = [b64Chr (a / 4), b64Chr (a % 4 * 16)] := by
      simp [b64EncodeBytes, JsStr.dropTrailing, List.dropWhile, h1, h2]
    rw [hdrop] at hx
    simp only [List.mem_cons, List.not_mem_nil, or_false] at hx
    rcases hx with rfl | rfl
    · exact (b64Chr_lt_aux _ (by omega)).1
    · exact (b64Chr_lt_aux _ (by omega)).1
  | [a, b], h, x, hx => by
    have ha := h a (by simp)
    have hb := h b (by simp)
    have h1 : b64Chr (a / 4) ≠ '=' := b64Chr_ne_eq (by omega)
    have h2 : b64Chr (a % 4 * 16 + b / 16) ≠ '=' := b64Chr_ne_eq (by omega)
    have h3 : b64Chr (b % 16 * 4) ≠ '=' := b64Chr_ne_eq (by omega)
    have hdrop : JsStr.dropTrailing '=' (b64EncodeBytes [a, b])
        = [b64Chr (a / 4), b64Chr (a % 4 * 16 + b / 16), b64Chr (b % 16 * 4)] := by
      simp [b64EncodeBytes, JsStr.dropTrailing, List.dropWhile, h1, h2, h3]
    rw [hdrop] at hx
    simp only [List.mem_cons, List.not_mem_nil, or_false] at hx
    rcases hx with rfl | rfl | rfl
    · exact (b64Chr_lt_aux _ (by omega)).1
    · exact (b64Chr_lt_aux _ (by omega)).1
    · exact (b64Chr_lt_aux _ (by omega)).1
  | a :: b :: c :: rest, h, x, hx => by
    have ha := h a (by simp)
    have hb := h b (by simp)
    have hc := h c (by simp)
    have henc : b64EncodeBytes (a :: b :: c :: rest)
        = [b64Chr (a / 4), b64Chr (a % 4 * 16 + b / 16), b64Chr (b % 16 * 4 + c / 64),
            b64Chr (c % 64)] ++ b64EncodeBytes rest := rfl
    rcases rest with _ | ⟨d, rest'⟩
    · have hall : ∀ y ∈ b64EncodeBytes [a, b, c], y ≠ '=' := by
        intro y hy
        simp only [b64EncodeBytes, List.mem_cons, List.not_mem_nil, or_false] at hy
        rcases hy with rfl | rfl | rfl | rfl <;> exact b64Chr_ne_eq (by omega)
      rw [dropTrailing_of_ne hall] at hx
      simp only [b64EncodeBytes, List.mem_cons, List.not_mem_nil, or_false] at hx
      rcases hx with rfl | rfl | rfl | rfl <;> exact (b64Chr_lt_aux _ (by omega)).1
    · have hd := h d (by simp)
      have hne : ∃ y ∈ b64EncodeBytes (d :: rest'), y ≠ '=' := by
        refine ⟨b64Chr (d / 4), ?_, b64Chr_ne_eq (by omega)⟩
        rcases rest' with _ | ⟨e, rest''⟩
        · simp [b64EncodeBytes]
        · rcases rest'' with _ | ⟨f, _⟩ <;> simp [b64EncodeBytes]
      rw [henc, dropTrailing_append hne] at hx
      rcases List.mem_append.mp hx with hx | hx
      · simp only [List.mem_cons, List.not_mem_nil, or_false] at hx
        rcases hx with rfl | rfl | rfl | rfl <;> exact (b64Chr_lt_aux _ (by omega)).1
      · exact stripped_all_b64 (d :: rest') (fun y hy => h y (by simp [hy])) x hx

theorem encode_filter_noop {bs : List Nat} (h : ∀ b ∈ bs, b < 256) :
    (b64EncodeBytes bs).filter (fun c => ¬ isB64Space c) = b64EncodeBytes bs := by
  rw [List.filter_eq_self]
  intro x hx
  rcases encodeBytes_chars bs h x hx with hb | rfl
  · simpa using (isB64Char_facts hb).2.1
  · decide

theorem stripped_filter_noop {bs : List Nat} (h : ∀ b ∈ bs, b < 256) :
    (JsStr.dropTrailing '=' (b64EncodeBytes bs)).filter (fun c => ¬ isB64Space c)
      = JsStr.dropTrailing '=' (b64EncodeBytes bs) := by
  rw [List.filter_eq_self]
  intro x hx
  simpa using (isB64Char_facts (stripped_all_b64 bs h x hx)).2.1

theorem stripped_len_mod4 {bs : List Nat} (h : ∀ b ∈ bs, b < 256) :
    (JsStr.dropTrailing '=' (b64EncodeBytes bs)).length % 4 ≠ 1 := by
  have h4 := encode_len_mod4 bs
  have hc := countTrailing_encode_le2 bs h
  have hlen := dropTrailing_length '=' (b64EncodeBytes bs)
  have hcle : JsStr.countTrailing '=' (b64EncodeBytes bs) ≤ (b64EncodeBytes bs).length := by
    unfold JsStr.countTrailing
    have := (@List.takeWhile_sublist _ ((b64EncodeBytes bs).reverse)
      (fun y => y = '=')).length_le
    simpa using this
  omega

/-- `base64.decode (base64.encode s)` recovers `s` (for Latin-1 `s`,
with padding intact). -/
theorem b64Decode_encodeBytes {bs : List Nat} (h : ∀ b ∈ bs, b < 256) :
    b64Decode (b64EncodeBytes bs) = some (bs.map Char.ofNat) := by
  unfold b64Decode
  simp only [encode_filter_noop h, encode_len_mod4 bs, if_pos rfl,
    stripPad_eq_dropTrailing (countTrailing_encode_le2 bs h), if_true, eq_self_iff_true]
  rw [if_neg (stripped_len_mod4 h)]
  rw [if_pos (by
    rw [List.all_eq_true]
    intro x hx
    exact stripped_all_b64 bs h x hx)]
  rw [b64_chunks_rt bs h]

/-- Decoding the padding-stripped encoding also recovers `s`. -/
theorem b64Decode_stripped {bs : List Nat} (h : ∀ b ∈ bs, b < 256) :
    b64Decode (JsStr.dropTrailing '=' (b64EncodeBytes bs)) = some (bs.map Char.ofNat) := by
  unfold b64Decode
  simp only [stripped_filter_noop h]
  have hstrip : (if (JsStr.dropTrailing '=' (b64EncodeBytes bs)).length % 4 = 0
      then b64StripPad (JsStr.dropTrailing '=' (b64EncodeBytes bs))
      else JsStr.dropTrailing '=' (b64EncodeBytes bs))
      = JsStr.dropTrailing '=' (b64EncodeBytes bs) := by
    split
    · exact stripPad_dropTrailing _
    · rfl
  rw [hstrip, if_neg (stripped_len_mod4 h)]
  rw [if_pos (by
    rw [List.all_eq_true]
    intro x hx
    exact stripped_all_b64 bs h x hx)]
  rw [b64_chunks_rt bs h]

/-! ## Percent-encoding correctness -/

theorem hexVal_hexDigitUpper : ∀ b, b < 16 → hexVal (hexDigitUpper b) = some b := by decide

theorem utf8Bytes_bounds (c : Char) : ∀ b ∈ utf8Bytes c, b < 256 := by
  intro b hb
  have hv := char_toNat_lt c
  simp only [utf8Bytes] at hb
  split at hb
  · simp at hb; omega
  · split at hb
    · simp at hb; rcases hb with rfl | rfl <;> omega
    · split at hb
      · simp at hb; rcases hb with rfl | rfl | rfl <;> omega
      · simp at hb; rcases hb with rfl | rfl | rfl | rfl <;> omega

theorem pctTokens_pctByte {b : Nat} (hb : b < 256) (t : Str) :
    pctTokens (pctByte b ++ t) = (pctTokens t).map (fun l => Sum.inr b :: l) := by
  have h1 : b / 16 < 16 := by omega
  have h2 : b % 16 < 16 := by omega
  simp only [pctByte, List.cons_append, List.nil_append, pctTokens,
    hexVal_hexDigitUpper _ h1, hexVal_hexDigitUpper _ h2, Option.bind_eq_bind,
    Option.some_bind]
  have : b / 16 * 16 + b % 16 = b := by omega
  rw [this]
  simp only [List.append_eq, List.nil_append]
  cases pctTokens t <;> rfl

theorem pctTokens_lit {c : Char} (hc : c ≠ '%') (t : Str) :
    pctTokens (c :: t) = (pctTokens t).map (fun l => Sum.inl c :: l) := by
  rw [pctTokens.eq_def]
  split
  all_goals first
  | (next h => exact absurd (by injection h with h1 _; exact h1.symm) hc)
  | (next h =>
      injection h with h1 h2
      subst h1; subst h2
      cases pctTokens t <;> rfl)
  | (next h _ => exact absurd (by injection h with h1 _; exact h1.symm) hc)
  | simp_all

theorem utf8Reassemble_inl (c : Char) (rest : List (Sum Char Nat)) :
    utf8Reassemble (Sum.inl c :: rest) = (utf8Reassemble rest).map (fun r => c :: r) := rfl

theorem utf8Reassemble_ascii {b : Nat} (h : b < 0x80) (rest : List (Sum Char Nat)) :
    utf8Reassemble (Sum.inr b :: rest)
      = (utf8Reassemble rest).map (fun r => Char.ofNat b :: r) := by
  rcases rest with _ | ⟨c1 | b1, rest⟩
  · simp only [utf8Reassemble]; rw [if_pos h]
  · simp only [utf8Reassemble]; rw [if_pos h]
  · rcases rest with _ | ⟨c2 | b2, rest⟩
    · simp only [utf8Reassemble]; rw [if_pos h]
    · simp only [utf8Reassemble]; rw [if_pos h]
    · rcases rest with _ | ⟨c3 | b3, rest⟩
      · simp only [utf8Reassemble]; rw [if_pos h]
      · simp only [utf8Reassemble]; rw [if_pos h]
      · simp only [utf8Reassemble]; rw [if_pos h]

theorem utf8Reassemble_two {b b1 : Nat} (h1 : 0xC0 ≤ b) (h2 : b < 0xE0) (hc : isCont b1)
    (hv : 0x80 ≤ (b - 0xC0) * 64 + (b1 - 0x80)) (rest : List (Sum Char Nat)) :
    utf8Reassemble (Sum.inr b :: Sum.inr b1 :: rest)
      = (utf8Reassemble rest).map (fun r => Char.ofNat ((b - 0xC0) * 64 + (b1 - 0x80)) :: r) := by
  rcases rest with _ | ⟨c2 | b2, rest⟩
  · simp only [utf8Reassemble]
    rw [if_neg (by omega), if_neg (by omega), if_pos (by omega), if_pos ⟨hc, hv⟩]
  · simp only [utf8Reassemble]
    rw [if_neg (by omega), if_neg (by omega), if_pos (by omega), if_pos ⟨hc, hv⟩]
  · rcases rest with _ | ⟨c3 | b3, rest⟩
    · simp only [utf8Reassemble]
      rw [if_neg (by omega), if_neg (by omega), if_pos (by omega), if_pos ⟨hc, hv⟩]
    · simp only [utf8Reassemble]
      rw [if_neg (by omega), if_neg (by omega), if_pos (by omega), if_pos ⟨hc, hv⟩]
    · simp only [utf8Reassemble]
      rw [if_neg (by omega), if_neg (by omega), if_pos (by omega), if_pos ⟨hc, hv⟩]

theorem utf8Reassemble_three {b b1 b2 : Nat} (h1 : 0xE0 ≤ b) (h2 : b < 0xF0)
    (hc1 : isCont b1) (hc2 : isCont b2)
    (hlo : 0x800 ≤ ((b - 0xE0) * 64 + (b1 - 0x80)) * 64 + (b2 - 0x80))
    (hsur : ¬ (0xD800 ≤ ((b - 0xE0) * 64 + (b1 - 0x80)) * 64 + (b2 - 0x80) ∧
         ((b - 0xE0) * 64 + (b1 - 0x80)) * 64 + (b2 - 0x80) ≤ 0xDFFF))
    (rest : List (Sum Char Nat)) :
    utf8Reassemble (Sum.inr b :: Sum.inr b1 :: Sum.inr b2 :: rest)
      = (utf8Reassemble rest).map
          (fun r => Char.ofNat (((b - 0xE0) * 64 + (b1 - 0x80)) * 64 + (b2 - 0x80)) :: r) := by
  rcases rest with _ | ⟨c3 | b3, rest⟩
  · simp only [utf8Reassemble]
    rw [if_neg (by omega)]
    rw [if_neg (by omega)]
    rw [if_neg (by omega)]
    rw [if_pos (by omega), if_pos ⟨hc1, hc2, hlo, hsur⟩]
  · simp only [utf8Reassemble]
    rw [if_neg (by omega)]
    rw [if_neg (by omega)]
    rw [if_neg (by omega)]
    rw [if_pos (by omega), if_pos ⟨hc1, hc2, hlo, hsur⟩]
  · simp only [utf8Reassemble]
    rw [if_neg (by omega)]
    rw [if_neg (by omega)]
    rw [if_neg (by omega)]
    rw [if_pos (by omega), if_pos ⟨hc1, hc2, hlo, hsur⟩]

theorem utf8Reassemble_four {b b1 b2 b3 : Nat} (h1 : 0xF0 ≤ b) (h2 : b < 0xF5)
    (hc1 : isCont b1) (hc2 : isCont b2) (hc3 : isCont b3)
    (hlo : 0x10000 ≤ (((b - 0xF0) * 64 + (b1 - 0x80)) * 64 + (b2 - 0x80)) * 64 + (b3 - 0x80))
    (hhi : (((b - 0xF0) * 64 + (b1 - 0x80)) * 64 + (b2 - 0x80)) * 64 + (b3 - 0x80) ≤ 0x10FFFF)
    (rest : List (Sum Char Nat)) :
    utf8Reassemble (Sum.inr b :: Sum.inr b1 :: Sum.inr b2 :: Sum.inr b3 :: rest)
      = (utf8Reassemble rest).map (fun r =>
          Char.ofNat ((((b - 0xF0) * 64 + (b1 - 0x80)) * 64 + (b2 - 0x80)) * 64 + (b3 - 0x80))
            :: r) := by
  simp only [utf8Reassemble]
  rw [if_neg (by omega), if_neg (by omega), if_neg (by omega), if_neg (by omega),
    if_pos (by omega), if_pos ⟨hc1, hc2, hc3, hlo, hhi⟩]

theorem utf8Reassemble_char (c : Char) (T : List (Sum Char Nat)) :
    utf8Reassemble ((utf8Bytes c).map Sum.inr ++ T)
      = (utf8Reassemble T).map (fun r => c :: r) := by
  have hv := char_toNat_lt c
  have hval := c.valid
  have hofn : Char.ofNat c.toNat = c := Char.ofNat_toNat c
  simp only [utf8Bytes]
  split
  · next h1 =>
    simp only [List.map_cons, List.map_nil, List.cons_append, List.nil_append]
    rw [utf8Reassemble_ascii h1, hofn]
  · next h1 =>
    split
    · next h2 =>
      simp only [List.map_cons, List.map_nil, List.cons_append, List.nil_append]
      rw [utf8Reassemble_two (by omega) (by omega)
        (by simp only [isCont, decide_eq_true_eq]; constructor <;> omega) (by omega)]
      have hveq : (192 + c.toNat / 64 - 192) * 64 + (128 + c.toNat % 64 - 128) = c.toNat := by
        omega
      rw [hveq, hofn]
    · next h2 =>
      split
      · next h3 =>
        simp only [List.map_cons, List.map_nil, List.cons_append, List.nil_append]
        have hsur : ¬ (0xD800 ≤ c.toNat ∧ c.toNat ≤ 0xDFFF) := by
          simp only [Char.toNat] at *
          rcases hval with hs | ⟨hs1, hs2⟩ <;> simp <;> omega
        have hveq : ((224 + c.toNat / 4096 - 224) * 64 + (128 + c.toNat / 64 % 64 - 128)) * 64
            + (128 + c.toNat % 64 - 128) = c.toNat := by omega
        rw [utf8Reassemble_three (by omega) (by omega)
          (by simp only [isCont, decide_eq_true_eq]; constructor <;> omega)
          (by simp only [isCont, decide_eq_true_eq]; constructor <;> omega)
          (by rw [hveq]; omega) (by rw [hveq]; exact hsur)]
        rw [hveq, hofn]
      · next h3 =>
        simp only [List.map_cons, List.map_nil, List.cons_append, List.nil_append]
        have hveq : (((240 + c.toNat / 262144 - 240) * 64 + (128 + c.toNat / 4096 % 64 - 128))
            * 64 + (128 + c.toNat / 64 % 64 - 128)) * 64 + (128 + c.toNat % 64 - 128)
            = c.toNat := by omega
        rw [utf8Reassemble_four (by omega) (by omega)
          (by simp only [isCont, decide_eq_true_eq]; constructor <;> omega)
          (by simp only [isCont, decide_eq_true_eq]; constructor <;> omega)
          (by simp only [isCont, decide_eq_true_eq]; constructor <;> omega)
          (by rw [hveq]; omega) (by rw [hveq]; omega)]
        rw [hveq, hofn]

theorem uriUnreserved_ne_pct {c : Char} (h : uriUnreserved c) : c ≠ '%' := by
  rintro rfl; revert h; decide

theorem pctTokens_run : ∀ (bytes : List Nat), (∀ b ∈ bytes, b < 256) → ∀ t : Str,
    pctTokens (bytes.flatMap pctByte ++ t)
      = (pctTokens t).map (fun l => bytes.map Sum.inr ++ l)
  | [], _, t => by
    simp only [List.flatMap_nil, List.nil_append, List.map_nil]
    cases pctTokens t <;> rfl
  | b :: rest, h, t => by
    have hb := h b (by simp)
    rw [List.flatMap_cons, List.append_assoc, pctTokens_pctByte hb,
      pctTokens_run rest (fun y hy => h y (by simp [hy])) t]
    cases pctTokens t <;> rfl

theorem pctTokens_encode (s : Str) :
    pctTokens (encodeURIComponent s)
      = some (s.flatMap (fun c =>
          if uriUnreserved c then [Sum.inl c] else (utf8Bytes c).map Sum.inr)) := by
  induction s with
  | nil => rfl
  | cons c cs ih =>
    simp only [encodeURIComponent, List.flatMap_cons] at *
    by_cases hc : uriUnreserved c
    · rw [if_pos hc, if_pos hc, List.singleton_append,
        pctTokens_lit (uriUnreserved_ne_pct hc), ih]
      rfl
    · rw [if_neg hc, if_neg hc, pctTokens_run (utf8Bytes c) (utf8Bytes_bounds c), ih]
      rfl

theorem decodeURIComponent_encode (s : Str) :
    decodeURIComponent (encodeURIComponent s) = some s := by
  unfold decodeURIComponent
  rw [pctTokens_encode]
  simp only [Option.bind_eq_bind, Option.some_bind]
  induction s with
  | nil => rfl
  | cons c cs ih =>
    simp only [List.flatMap_cons]
    by_cases hc : uriUnreserved c
    · rw [if_pos hc, List.singleton_append, utf8Reassemble_inl, ih]
      rfl
    · rw [if_neg hc, utf8Reassemble_char, ih]
      rfl

theorem uriUnreserved_plain {c : Char} (h : uriUnreserved c) : plainChar c := by
  simp only [uriUnreserved, charLe_iff, decide_eq_true_eq] at h
  simp at h
  simp only [plainChar, decide_eq_true_eq]
  rcases h with ⟨h1, h2⟩ | ⟨h1, h2⟩ | ⟨h1, h2⟩ | rfl | rfl | rfl | rfl | rfl | rfl | rfl | rfl
      | rfl <;> first | (constructor <;> omega) | decide

theorem pctByte_plain {b : Nat} (hb : b < 256) : ∀ x ∈ pctByte b, plainChar x := by
  intro x hx
  have h1 : b / 16 < 16 := by omega
  have h2 : b % 16 < 16 := by omega
  simp only [pctByte, List.mem_cons, List.not_mem_nil, or_false] at hx
  have hall : ∀ d, d < 16 → plainChar (hexDigitUpper d) := by decide
  rcases hx with rfl | rfl | rfl
  · decide
  · exact hall _ h1
  · exact hall _ h2

theorem enc_plain (s : Str) : ∀ x ∈ encodeURIComponent s, plainChar x := by
  intro x hx
  simp only [encodeURIComponent, List.mem_flatMap] at hx
  obtain ⟨c, _, hxc⟩ := hx
  by_cases hc : uriUnreserved c
  · rw [if_pos hc] at hxc
    simp at hxc
    subst hxc
    exact uriUnreserved_plain hc
  · rw [if_neg hc] at hxc
    simp only [List.mem_flatMap] at hxc
    obtain ⟨b, hb, hxb⟩ := hxc
    exact pctByte_plain (utf8Bytes_bounds c b hb) x hxb

theorem pctEncodeWith_noop {set : Char → Bool} {s : Str} (h : ∀ x ∈ s, ¬ set x) :
    pctEncodeWith set s = s := by
  induction s with
  | nil => rfl
  | cons c cs ih =>
    simp only [pctEncodeWith, List.flatMap_cons] at *
    rw [if_neg (by simpa using h c (by simp))]
    simp only [List.singleton_append, List.cons.injEq]
    refine ⟨by trivial, ih (fun y hy => h y (by simp [hy]))⟩

theorem enc_ne_nil {s : Str} (h : s ≠ []) : encodeURIComponent s ≠ [] := by
  rcases s with _ | ⟨c, cs⟩
  · exact absurd rfl h
  · simp only [encodeURIComponent, List.flatMap_cons]
    intro hcon
    rcases List.append_eq_nil.mp hcon with ⟨h1, _⟩
    by_cases hc : uriUnreserved c
    · rw [if_pos hc] at h1; simp at h1
    · rw [if_neg hc] at h1
      have hv := char_toNat_lt c
      simp only [utf8Bytes] at h1
      split at h1
      · simp [pctByte] at h1
      · split at h1
        · simp [pctByte] at h1
        · split at h1
          · simp [pctByte] at h1
          · simp [pctByte] at h1

/-! ## URL parser lemmas -/

theorem urlPreprocess_plain {s : Str} (h : ∀ x ∈ s, plainChar x) : urlPreprocess s = s := by
  simp only [urlPreprocess]
  have hnum : ∀ x ∈ s, ¬ (x.toNat ≤ 0x20) := by
    intro x hx
    have := h x hx
    simp only [plainChar, decide_eq_true_eq] at this
    omega
  have h1 : s.dropWhile (fun c => c.toNat ≤ 0x20) = s := by
    rw [List.dropWhile_eq_self_iff]
    rcases s with _ | ⟨x, xs⟩
    · simp
    · intro _
      simpa using hnum x (by simp)
  rw [h1]
  have h2 : s.reverse.dropWhile (fun c => c.toNat ≤ 0x20) = s.reverse := by
    rw [List.dropWhile_eq_self_iff]
    rcases hrev : s.reverse with _ | ⟨x, xs⟩
    · simp
    · intro _
      have hx : x ∈ s := by
        rw [← List.mem_reverse, hrev]; simp
      simpa using hnum x hx
  rw [h2, List.reverse_reverse]
  rw [List.filter_eq_self]
  intro x hx
  have := h x hx
  simp only [plainChar, decide_eq_true_eq] at this
  have h9 : x ≠ '\t' := by intro he; subst he; revert this; decide
  have h10 : x ≠ '\n' := by intro he; subst he; revert this; decide
  have h13 : x ≠ '\r' := by intro he; subst he; revert this; decide
  simp [h9, h10, h13]

theorem urlParse_shape {auth after : Str}
    (hplain : ∀ x ∈ auth ++ after, plainChar x)
    (hne : auth ≠ [])
    (hterm : ∀ x ∈ auth, ¬ isAuthorityEnd x)
    (hafter : after = [] ∨ ∃ m b, after = m :: b ∧ isAuthorityEnd m) :
    urlParse (js "http://" ++ auth ++ after) = urlParseAuthority auth after := by
  unfold urlParse
  have hpre : urlPreprocess (js "http://" ++ auth ++ after) = js "http://" ++ auth ++ after := by
    apply urlPreprocess_plain
    intro x hx
    simp only [List.mem_append] at hx
    rcases hx with hx | hx
    · rcases hx with hx | hx
      · exact (by decide : ∀ y ∈ js "http://", plainChar y) x hx
      · exact hplain x (by simp [hx])
    · exact hplain x (by simp [hx])
  rw [hpre]
  have hprefix : (js "http://").isPrefixOf (js "http://" ++ auth ++ after) = true := by
    rw [List.isPrefixOf_iff_prefix, List.append_assoc]
    exact List.prefix_append _ _
  rw [if_pos hprefix]
  have hdrop7 : ((js "http://" ++ auth ++ after).drop 7) = auth ++ after := by
    rw [List.append_assoc]
    exact List.drop_left (js "http://") (auth ++ after)
  rw [hdrop7]
  have hslash : (auth ++ after).dropWhile (fun c => c = '/' ∨ c = '\\') = auth ++ after := by
    rw [List.dropWhile_eq_self_iff]
    rcases auth with _ | ⟨x, xs⟩
    · exact absurd rfl hne
    · intro _
      have := hterm x (by simp)
      simp only [isAuthorityEnd, decide_eq_true_eq] at this
      push_neg at this
      simpa using ⟨this.1, this.2.1⟩
  rw [hslash]
  rcases hafter with rfl | ⟨m, b, rfl, hm⟩
  · rw [List.append_nil]
    simp only [JsStr.splitFirstP_none hterm]
  · simp only [JsStr.splitFirstP_append hterm hm]

theorem toNat_ofNat_small {m : Nat} (h : m < 55296) : (Char.ofNat m).toNat = m := by
  have hv : Nat.isValidChar m := Or.inl h
  simp [Char.ofNat, Char.toNat, hv, Char.ofNatAux, UInt32.toNat, BitVec.toNat_ofNatLt]

theorem urlPortParse_inv {p : Option Str} {po : Option Nat} :
    urlPortParse p = some po →
    po = none ∨ ∃ n, po = some n ∧ n ≤ 65535 ∧ n ≠ 80 := by
  unfold urlPortParse
  split
  · intro h; exact Or.inl (by simpa using h.symm)
  · intro h; exact Or.inl (by simpa using h.symm)
  · intro h
    split at h
    · simp only [] at h
      split at h
      · simp at h
      · split at h
        · exact Or.inl (by simpa using h.symm)
        · next hlt hne80 =>
          refine Or.inr ⟨_, (by simpa using h.symm), by omega, hne80⟩
    · simp at h

theorem urlParseAuthority_port_inv {auth after : Str} {u : UrlRec}
    (h : urlParseAuthority auth after = some u) :
    u.port = none ∨ ∃ n, u.port = some n ∧ n ≤ 65535 ∧ n ≠ 80 := by
  unfold urlParseAuthority at h
  split at h
  next userinfo hostport _ =>
    split at h
    · simp at h
    · simp only [Option.bind_eq_bind] at h
      rcases hhost : parseHost (splitHostPort hostport false).1 with _ | host
      · rw [hhost] at h; simp at h
      · rw [hhost] at h
        simp only [Option.some_bind] at h
        rcases hport : urlPortParse (splitHostPort hostport false).2 with _ | port
        · rw [hport] at h; simp at h
        · rw [hport] at h
          simp only [Option.some_bind, Option.some.injEq] at h
          have := urlPortParse_inv hport
          rw [← h]
          simpa using this

theorem urlParse_port_inv {input : Str} {u : UrlRec} (h : urlParse input = some u) :
    u.port = none ∨ ∃ n, u.port = some n ∧ n ≤ 65535 ∧ n ≠ 80 := by
  simp only [urlParse] at h
  split at h
  · split at h
    · exact urlParseAuthority_port_inv h
    · exact urlParseAuthority_port_inv h
  · simp at h

/-! ## Decimal string lemmas and port characterization -/

theorem digitsAux10_digits : ∀ (fuel n : Nat),
    ∀ x ∈ digitsAux 10 (fun d => Char.ofNat ('0'.toNat + d)) fuel n, isDigitC x := by
  intro fuel
  induction fuel with
  | zero => intro n x hx; simp [digitsAux] at hx
  | succ fuel ih =>
    intro n x hx
    simp only [digitsAux] at hx
    split at hx
    · next hn =>
      simp only [List.mem_singleton] at hx
      subst hx
      simp only [isDigitC, charLe_iff, decide_eq_true_eq,
        show ('0').toNat = 48 from rfl, show ('9').toNat = 57 from rfl]
      rw [toNat_ofNat_small (by omega)]
      omega
    · next hn =>
      rcases List.mem_append.mp hx with hx | hx
      · exact ih (n / 10) x hx
      · simp only [List.mem_singleton] at hx
        subst hx
        simp only [isDigitC, charLe_iff, decide_eq_true_eq,
          show ('0').toNat = 48 from rfl, show ('9').toNat = 57 from rfl]
        rw [toNat_ofNat_small (by omega)]
        omega

theorem decStr_digits (n : Nat) : ∀ x ∈ decStr n, isDigitC x :=
  digitsAux10_digits (n + 1) n

theorem decStr_ne_nil (n : Nat) : decStr n ≠ [] := by
  unfold decStr digitsAux
  split
  · simp
  · intro hcon
    rcases List.append_eq_nil.mp hcon with ⟨_, h2⟩
    simp at h2

theorem decVal_append (l : Str) (d : Char) :
    decVal (l ++ [d]) = decVal l * 10 + (d.toNat - '0'.toNat) := by
  unfold decVal
  rw [List.foldl_append]
  rfl

theorem digitsAux10_val : ∀ (fuel n : Nat), n < 10 ^ fuel →
    decVal (digitsAux 10 (fun d => Char.ofNat ('0'.toNat + d)) fuel n) = n := by
  intro fuel
  induction fuel with
  | zero =>
    intro n hn
    simp only [digitsAux, decVal, List.foldl_nil]
    omega
  | succ fuel ih =>
    intro n hn
    simp only [digitsAux]
    split
    · next h10 =>
      simp only [decVal, List.foldl_cons, List.foldl_nil]
      rw [toNat_ofNat_small (by rw [show ('0').toNat = 48 from rfl]; omega)]
      omega
    · next h10 =>
      rw [decVal_append, ih (n / 10) (by
        have : 10 ^ (fuel + 1) = 10 ^ fuel * 10 := by ring
        omega)]
      rw [toNat_ofNat_small (by rw [show ('0').toNat = 48 from rfl]; omega)]
      omega

theorem decVal_decStr (n : Nat) : decVal (decStr n) = n := by
  apply digitsAux10_val
  calc n < 10 ^ n := Nat.lt_pow_self (by norm_num) n
    _ ≤ 10 ^ (n + 1) := Nat.pow_le_pow_right (by norm_num) (by omega)

theorem isDigitC_plain {c : Char} (h : isDigitC c) : plainChar c := by
  simp only [isDigitC, charLe_iff, decide_eq_true_eq] at h
  simp at h
  simp only [plainChar, decide_eq_true_eq]
  omega

theorem isDigitC_facts {c : Char} (h : isDigitC c) :
    ¬ isAuthorityEnd c ∧ c ≠ ':' ∧ c ≠ '@' ∧ c ≠ '[' ∧ c ≠ ']' ∧ c ≠ '#' ∧ c ≠ '%' := by
  simp only [isDigitC, charLe_iff, decide_eq_true_eq] at h
  simp at h
  refine ⟨?_, ?_, ?_, ?_, ?_, ?_, ?_⟩
  · simp only [isAuthorityEnd, decide_eq_true_eq]
    rintro (rfl | rfl | rfl | rfl) <;> simp_all
  all_goals (rintro rfl; simp_all)

/-- Any successful `Port` validation yields the empty payload or the
canonical decimal string of a port number other than the scheme default. -/
theorem portValidate_out {x p : Str} (h : portValidate x = .ok p) :
    p = [] ∨ ∃ n, n ≤ 65535 ∧ n ≠ 80 ∧ p = decStr n := by
  unfold portValidate at h
  split at h
  · simp at h
  · rcases hu : urlParse (js "http://0.0.0.0:" ++ x ++ js "/") with _ | u
    · rw [hu] at h; simp at h
    · rw [hu] at h
      simp only [Except.ok.injEq] at h
      subst h
      rcases urlParse_port_inv hu with hp | ⟨n, hp, hle, hne⟩
      · exact Or.inl (by simp [urlPort, hp])
      · exact Or.inr ⟨n, hle, hne, by simp [urlPort, hp]⟩

theorem urlParse_port_shape {n : Nat} (hle : n ≤ 65535) (hne : n ≠ 80) :
    urlParse (js "http://0.0.0.0:" ++ decStr n ++ js "/")
      = some ⟨[], js "0.0.0.0", some n, none, none⟩ := by
  have hdig := decStr_digits n
  have heq : js "http://0.0.0.0:" ++ decStr n ++ js "/"
      = js "http://" ++ (js "0.0.0.0:" ++ decStr n) ++ ['/'] := by
    simp [js]
  rw [heq, urlParse_shape]
  · unfold urlParseAuthority
    rw [JsStr.splitLast_none (by
      intro hmem
      rcases List.mem_append.mp hmem with hm | hm
      · revert hm; decide
      · exact absurd (hdig _ hm) (by decide))]
    simp only []
    rw [if_neg (by simp [js])]
    have hsplit : splitHostPort (js "0.0.0.0:" ++ decStr n) false
        = (js "0.0.0.0", some (decStr n)) := by
      have hjs : js "0.0.0.0:" ++ decStr n = js "0.0.0.0" ++ ':' :: decStr n := by simp [js]
      rw [hjs]
      exact splitHostPort_append (show ∀ x ∈ js "0.0.0.0", x ≠ ':' ∧ x ≠ '[' by decide)
    rw [hsplit]
    simp only []
    have hhost : parseHost (js "0.0.0.0") = some (js "0.0.0.0") := by decide
    rw [hhost]
    have hport : urlPortParse (some (decStr n)) = some (some n) := by
      rcases hd : decStr n with _ | ⟨c, cs⟩
      · exact absurd hd (decStr_ne_nil n)
      · have hred : urlPortParse (some (c :: cs))
            = if (c :: cs).all isDigitC then
                let m := decVal (c :: cs)
                if 65535 < m then none
                else if m = 80 then some none
                else some (some m)
              else none := rfl
        rw [hred, if_pos (by
          rw [List.all_eq_true]
          intro y hy
          exact hdig y (hd ▸ hy))]
        simp only []
        rw [show decVal (c :: cs) = n from hd ▸ decVal_decStr n]
        rw [if_neg (by omega), if_neg hne]
    rw [hport]
    rfl
  · intro y hy
    rcases List.mem_append.mp hy with hy | hy
    · rcases List.mem_append.mp hy with hy | hy
      · exact (by decide : ∀ z ∈ js "0.0.0.0:", plainChar z) y hy
      · exact isDigitC_plain (hdig y hy)
    · exact (by decide : ∀ z ∈ (['/'] : Str), plainChar z) y hy
  · simp [js]
  · intro y hy
    rcases List.mem_append.mp hy with hy | hy
    · exact (by decide : ∀ z ∈ js "0.0.0.0:", ¬ isAuthorityEnd z) y hy
    · exact (isDigitC_facts (hdig y hy)).1
  · exact Or.inr ⟨'/', [], rfl, by decide⟩

/-- Re-validating a canonical non-default port payload succeeds and
preserves it. -/
theorem portValidate_decStr {n : Nat} (hle : n ≤ 65535) (hne : n ≠ 80) :
    portValidate (decStr n) = .ok (decStr n) := by
  unfold portValidate
  rw [if_neg (by simpa using decStr_ne_nil n), urlParse_port_shape hle hne]
  simp [urlPort]

/-! ## ASCII round trips and character-class facts -/

theorem ofNat_toNat_small {c : Char} (h : c.toNat < 55296) : Char.ofNat c.toNat = c := by
  rw [charEq_iff, toNat_ofNat_small h]

theorem map_ofNat_toNat {s : Str} (h : ∀ x ∈ s, x.toNat < 256) :
    (s.map Char.toNat).map Char.ofNat = s := by
  induction s with
  | nil => rfl
  | cons c cs ih =>
    simp only [List.map_cons, List.cons.injEq]
    exact ⟨ofNat_toNat_small (by have := h c (by simp); omega),
      ih (fun x hx => h x (by simp [hx]))⟩

theorem b64Encode_eq {s : Str} (h : ∀ x ∈ s, x.toNat < 256) :
    b64Encode s = some (b64EncodeBytes (s.map Char.toNat)) := by
  unfold b64Encode
  rw [if_pos (by
    rw [List.all_eq_true]
    intro x hx
    have := h x hx
    simp only [decide_eq_true_eq]
    omega)]

theorem map_toNat_bounds {s : Str} (h : ∀ x ∈ s, x.toNat < 256) :
    ∀ b ∈ s.map Char.toNat, b < 256 := by
  intro b hb
  rcases List.mem_map.mp hb with ⟨x, hx, rfl⟩
  exact h x hx

theorem flatMap_id_of {f : Char → Str} : ∀ {l : Str}, (∀ x ∈ l, f x = [x]) → l.flatMap f = l := by
  intro l
  induction l with
  | nil => intro _; rfl
  | cons c cs ih =>
    intro h
    rw [List.flatMap_cons, h c (by simp), ih (fun x hx => h x (by simp [hx]))]
    rfl

theorem utf8Bytes_ascii {c : Char} (h : c.toNat < 0x80) : utf8Bytes c = [c.toNat] := by
  unfold utf8Bytes
  rw [if_pos h]

theorem utf8_ascii_rt : ∀ {s : Str}, (∀ x ∈ s, x.toNat < 0x80) →
    utf8DecodeLenient (utf8OfStr s) = s := by
  intro s
  induction s with
  | nil => intro _; rfl
  | cons c cs ih =>
    intro h
    have hc := h c (by simp)
    show utf8DecodeLenientAux none (utf8OfStr (c :: cs)) = c :: cs
    rw [show utf8OfStr (c :: cs) = utf8Bytes c ++ utf8OfStr cs from List.flatMap_cons .., 
      utf8Bytes_ascii hc]
    show utf8DecodeLenientAux none (c.toNat :: utf8OfStr cs) = c :: cs
    rw [show utf8DecodeLenientAux none (c.toNat :: utf8OfStr cs)
        = (utf8Step0 c.toNat).1 ++ utf8DecodeLenientAux (utf8Step0 c.toNat).2 (utf8OfStr cs)
      from rfl]
    rw [show utf8Step0 c.toNat = ([Char.ofNat c.toNat], none) from by
      unfold utf8Step0; rw [if_pos (by omega)]]
    rw [ofNat_toNat_small (by omega)]
    simpa using ih (fun x hx => h x (by simp [hx]))

theorem pctDecodeBytes_no25 : ∀ (bs : List Nat), (∀ b ∈ bs, b ≠ 0x25) →
    pctDecodeBytes bs = bs := by
  have H : ∀ (n : Nat) (bs : List Nat), bs.length ≤ n → (∀ b ∈ bs, b ≠ 0x25) →
      pctDecodeBytes bs = bs := by
    intro n
    induction n with
    | zero =>
      intro bs hlen h
      rcases bs with _ | ⟨b, rest⟩
      · rfl
      · simp at hlen
    | succ n ih =>
      intro bs hlen h
      rw [pctDecodeBytes.eq_def]
      split
      · rfl
      · next h1 h2 rest =>
        exact absurd rfl (h 0x25 (by simp))
      · next b rest hne =>
        rw [ih rest (by simp at hlen; omega) (fun x hx => h x (by simp [hx]))]
  exact fun bs => H bs.length bs le_rfl

theorem plainChar_toNat {c : Char} (h : plainChar c) : 0x21 ≤ c.toNat ∧ c.toNat ≤ 0x7E := by
  simpa [plainChar] using h

theorem formDecode_plain {s : Str} (h : ∀ x ∈ s, plainChar x ∧ x ≠ '+' ∧ x ≠ '%') :
    formDecode s = s := by
  unfold formDecode
  have hmap : s.map (fun c => if c = '+' then ' ' else c) = s := by
    have : ∀ c ∈ s, (fun c => if c = '+' then ' ' else c) c = id c := by
      intro c hc
      simp only [id]
      exact if_neg (h c hc).2.1
    rw [List.map_congr_left this, List.map_id]
  rw [hmap]
  have hascii : ∀ x ∈ s, x.toNat < 0x80 := by
    intro x hx
    have := plainChar_toNat (h x hx).1
    omega
  have hno25 : ∀ b ∈ utf8OfStr s, b ≠ 0x25 := by
    intro b hb
    rcases List.mem_flatMap.mp hb with ⟨x, hx, hbx⟩
    rw [utf8Bytes_ascii (hascii x hx)] at hbx
    simp only [List.mem_singleton] at hbx
    subst hbx
    intro hcon
    exact (h x hx).2.2 (by rw [charEq_iff, hcon]; rfl)
  rw [pctDecodeBytes_no25 _ hno25]
  exact utf8_ascii_rt hascii

theorem methods_chars : ∀ m ∈ METHODS, ∀ x ∈ m,
    plainChar x ∧ x ≠ ':' ∧ x ≠ '@' ∧ x ≠ '#' ∧ x ≠ '%' ∧ x ≠ '+' := by decide

theorem methodValidate_ok {m p : Str} (h : methodValidate m = .ok p) :
    p = m ∧ m ∈ METHODS := by
  unfold methodValidate at h
  split at h
  · exact ⟨by simpa using h.symm, by assumption⟩
  · exact absurd h (by simp)

/-! ## Encode-set facts for the alphabets in play -/

theorem isB64Char_toNat {c : Char} (h : isB64Char c) :
    (65 ≤ c.toNat ∧ c.toNat ≤ 90) ∨ (97 ≤ c.toNat ∧ c.toNat ≤ 122) ∨
    (48 ≤ c.toNat ∧ c.toNat ≤ 57) ∨ c.toNat = 43 ∨ c.toNat = 47 := by
  simp only [isB64Char, charLe_iff, decide_eq_true_eq] at h
  simp at h
  rcases h with ⟨h1, h2⟩ | ⟨h1, h2⟩ | ⟨h1, h2⟩ | rfl | rfl
  · exact Or.inl ⟨h1, h2⟩
  · exact Or.inr (Or.inl ⟨h1, h2⟩)
  · exact Or.inr (Or.inr (Or.inl ⟨h1, h2⟩))
  · exact Or.inr (Or.inr (Or.inr (Or.inl rfl)))
  · exact Or.inr (Or.inr (Or.inr (Or.inr rfl)))

theorem charEq_toNat {c d : Char} (h : c.toNat ≠ d.toNat) : c ≠ d := by
  intro he; exact h (by rw [he])

theorem isB64Char_userinfoSet {c : Char} (h : isB64Char c) (hs : c ≠ '/') :
    userinfoSet c = false := by
  have hn := isB64Char_toNat h
  have hsn : c.toNat ≠ 47 := by
    intro he; exact hs (by rw [charEq_iff, he]; rfl)
  simp only [userinfoSet, c0Set, charEq_iff, charLe_iff, decide_eq_true_eq,
    decide_eq_false_iff_not]
  simp only [show (' ').toNat = 32 from rfl, show ('"').toNat = 34 from rfl,
    show ('#').toNat = 35 from rfl, show ('<').toNat = 60 from rfl,
    show ('>').toNat = 62 from rfl, show ('?').toNat = 63 from rfl,
    show ('`').toNat = 96 from rfl, show ('\x7b').toNat = 123 from rfl,
    show ('\x7d').toNat = 125 from rfl, show ('/').toNat = 47 from rfl,
    show (':').toNat = 58 from rfl, show (';').toNat = 59 from rfl,
    show ('=').toNat = 61 from rfl, show ('@').toNat = 64 from rfl,
    show ('[').toNat = 91 from rfl, show ('\\').toNat = 92 from rfl,
    show (']').toNat = 93 from rfl, show ('^').toNat = 94 from rfl,
    show ('|').toNat = 124 from rfl]
  push_neg
  omega

theorem isB64Char_more_facts {c : Char} (h : isB64Char c) (hs : c ≠ '/') :
    ¬ isAuthorityEnd c ∧ c ≠ '[' ∧ c ≠ '%' ∧ c ≠ '&' ∧ c.toNat < 256 ∧ c.toNat < 0x80 := by
  have hn := isB64Char_toNat h
  have hsn : c.toNat ≠ 47 := by
    intro he; exact hs (by rw [charEq_iff, he]; rfl)
  refine ⟨?_, ?_, ?_, ?_, by omega, by omega⟩
  · simp only [isAuthorityEnd, decide_eq_true_eq]
    rintro (rfl | rfl | rfl | rfl) <;> first
      | exact hsn rfl
      | (revert hn; decide)
  · apply charEq_toNat
    rw [show ('[').toNat = 91 from rfl]
    omega
  · apply charEq_toNat
    rw [show ('%').toNat = 37 from rfl]
    omega
  · apply charEq_toNat
    rw [show ('&').toNat = 38 from rfl]
    omega

theorem eqChar_facts : ('=' : Char) ≠ '@' ∧ ('=' : Char) ≠ '#' ∧ ('=' : Char) ≠ ':' ∧
    ¬ isAuthorityEnd '=' ∧ userinfoSet '=' = true ∧ plainChar '=' ∧ ('=' : Char).toNat < 256 := by
  decide

theorem replacePct3D_cons_ne {c : Char} (hc : c ≠ '%') (t : Str) :
    JsStr.replacePct3D (c :: t) = c :: JsStr.replacePct3D t := by
  rw [JsStr.replacePct3D.eq_def]
  split
  · next heq =>
    injection heq with h1 _
    exact absurd h1 hc
  · next _ x rest hno hsc =>
    injection hsc with h1 h2
    subst h1
    rw [h2]
  · next heq => exact absurd heq (by simp)

/-- Percent-encoding a base-64 userinfo (without `/`) with the userinfo set
followed by the `%3D → =` replacement is the identity. -/
theorem replacePct3D_userinfo : ∀ (u : Str),
    (∀ x ∈ u, (isB64Char x ∧ x ≠ '/') ∨ x = '=') →
    JsStr.replacePct3D (pctEncodeWith userinfoSet u) = u := by
  intro u
  induction u with
  | nil => intro _; rfl
  | cons c cs ih =>
    intro h
    have hrec := ih (fun x hx => h x (by simp [hx]))
    show JsStr.replacePct3D
      ((if userinfoSet c then (utf8Bytes c).flatMap pctByte else [c])
        ++ pctEncodeWith userinfoSet cs) = c :: cs
    rcases h c (by simp) with ⟨hb, hs⟩ | rfl
    · rw [if_neg (by rw [isB64Char_userinfoSet hb hs]; simp)]
      have hcp : c ≠ '%' := (isB64Char_more_facts hb hs).2.2.1
      rw [List.cons_append, List.nil_append]
      rw [replacePct3D_cons_ne hcp, hrec]
    · rw [if_pos (by decide)]
      rw [show (utf8Bytes '=').flatMap pctByte = ['%', '3', 'D'] from by decide]
      show JsStr.replacePct3D ('%' :: '3' :: 'D' :: pctEncodeWith userinfoSet cs) = '=' :: cs
      rw [show ∀ t, JsStr.replacePct3D ('%' :: '3' :: 'D' :: t) = '=' :: JsStr.replacePct3D t
        from fun t => rfl]
      rw [hrec]

theorem uriUnreserved_toNat {c : Char} (h : uriUnreserved c) :
    (65 ≤ c.toNat ∧ c.toNat ≤ 90) ∨ (97 ≤ c.toNat ∧ c.toNat ≤ 122) ∨
    (48 ≤ c.toNat ∧ c.toNat ≤ 57) ∨ c.toNat = 45 ∨ c.toNat = 95 ∨ c.toNat = 46 ∨
    c.toNat = 33 ∨ c.toNat = 126 ∨ c.toNat = 42 ∨ c.toNat = 39 ∨ c.toNat = 40 ∨
    c.toNat = 41 := by
  simp only [uriUnreserved, charLe_iff, charEq_iff, decide_eq_true_eq] at h
  simp only [show ('A').toNat = 65 from rfl, show ('Z').toNat = 90 from rfl,
    show ('a').toNat = 97 from rfl, show ('z').toNat = 122 from rfl,
    show ('0').toNat = 48 from rfl, show ('9').toNat = 57 from rfl,
    show ('-').toNat = 45 from rfl, show ('_').toNat = 95 from rfl,
    show ('.').toNat = 46 from rfl, show ('!').toNat = 33 from rfl,
    show ('~').toNat = 126 from rfl, show ('*').toNat = 42 from rfl,
    show ('\'').toNat = 39 from rfl, show ('(').toNat = 40 from rfl,
    show (')').toNat = 41 from rfl] at h
  omega

theorem enc_mem {s : Str} : ∀ x ∈ encodeURIComponent s,
    uriUnreserved x ∨ x = '%' ∨ ∃ n, n < 16 ∧ x = hexDigitUpper n := by
  intro x hx
  rcases List.mem_flatMap.mp hx with ⟨c, _, hxc⟩
  by_cases hu : uriUnreserved c
  · rw [if_pos hu] at hxc
    simp only [List.mem_singleton] at hxc
    subst hxc
    exact Or.inl hu
  · rw [if_neg hu] at hxc
    rcases List.mem_flatMap.mp hxc with ⟨b, hb, hxb⟩
    have hb256 := utf8Bytes_bounds c b hb
    simp only [pctByte, List.mem_cons, List.not_mem_nil, or_false] at hxb
    rcases hxb with rfl | rfl | rfl
    · exact Or.inr (Or.inl rfl)
    · exact Or.inr (Or.inr ⟨b / 16, by omega, rfl⟩)
    · exact Or.inr (Or.inr ⟨b % 16, by omega, rfl⟩)

theorem enc_sets {s : Str} : ∀ x ∈ encodeURIComponent s,
    x ≠ '#' ∧ fragmentSet x = false := by
  intro x hx
  have hpl := plainChar_toNat (enc_plain s x hx)
  constructor
  · rcases enc_mem x hx with hu | rfl | ⟨n, hn, rfl⟩
    · apply charEq_toNat
      rw [show ('#').toNat = 35 from rfl]
      have := uriUnreserved_toNat hu
      omega
    · decide
    · have hne : ∀ k, k < 16 → hexDigitUpper k ≠ '#' := by decide
      exact hne n hn
  · simp only [fragmentSet, c0Set, decide_eq_false_iff_not]
    push_neg
    omega

theorem plain_c0Set {c : Char} (h : plainChar c) : c0Set c = false := by
  have := plainChar_toNat h
  simp only [c0Set, decide_eq_false_iff_not]
  push_neg
  omega

theorem querySet_of_plain {c : Char} (h : plainChar c)
    (h1 : c ≠ '"') (h2 : c ≠ '#') (h3 : c ≠ '<') (h4 : c ≠ '>') : querySet c = false := by
  have hn := plainChar_toNat h
  simp only [querySet, decide_eq_false_iff_not]
  push_neg
  refine ⟨by omega, by omega, h1, h2, h3, h4⟩

/-! ## Dispatcher-level fixpoint lemmas -/

theorem splitAll_no {c : Char} {s : Str} (h : c ∉ s) : JsStr.splitAll c s = [s] := by
  induction s with
  | nil => rfl
  | cons x xs ih =>
    have hx : x ≠ c := by
      intro he; exact h (by simp [he])
    show (let r := JsStr.splitAll c xs
      if x = c then [] :: r
      else match r with
        | [] => [[x]]
        | h :: t => (x :: h) :: t) = [x :: xs]
    rw [ih (fun hm => h (by simp [hm]))]
    simp [hx]

theorem urlPortParse_decStr {n : Nat} (hle : n ≤ 65535) (hne : n ≠ 80) :
    urlPortParse (some (decStr n)) = some (some n) := by
  have hdig := decStr_digits n
  rcases hd : decStr n with _ | ⟨c, cs⟩
  · exact absurd hd (decStr_ne_nil n)
  · have hred : urlPortParse (some (c :: cs))
        = if (c :: cs).all isDigitC then
            let m := decVal (c :: cs)
            if 65535 < m then none
            else if m = 80 then some none
            else some (some m)
          else none := rfl
    rw [hred, if_pos (by
      rw [List.all_eq_true]
      intro y hy
      exact hdig y (hd ▸ hy))]
    simp only []
    rw [show decVal (c :: cs) = n from hd ▸ decVal_decStr n]
    rw [if_neg (by omega), if_neg hne]

theorem portValidate_fix_out {p : Str} (h : portValidate p = .ok p) :
    ∃ n, n ≤ 65535 ∧ n ≠ 80 ∧ p = decStr n := by
  rcases portValidate_out h with rfl | ⟨n, hle, hne, rfl⟩
  · exact absurd h (by decide)
  · exact ⟨n, hle, hne, rfl⟩

theorem reConfig_fix {c : Config} (hh : hostValidate c.host = .ok c.host)
    (hp : portValidate c.port = .ok c.port) (hm : c.method ∈ METHODS) :
    reConfig c = .ok c := by
  unfold reConfig
  rw [hh]
  show (do
    let port ← portValidate c.port
    let method ← methodValidate c.method
    Except.ok ⟨c.host, port, method, c.password, c.tag⟩ : Except JsError Config) = .ok c
  rw [hp]
  show (do
    let method ← methodValidate c.method
    Except.ok ⟨c.host, c.port, method, c.password, c.tag⟩ : Except JsError Config) = .ok c
  rw [show methodValidate c.method = .ok c.method from by unfold methodValidate; rw [if_pos hm]]
  rfl

/-- One revalidation pass with an arbitrary (possibly normalizing) port
outcome: the port payload is replaced by whatever `Port` returns for it. -/
theorem reConfig_eq {c : Config} {p : Str} (hh : hostValidate c.host = .ok c.host)
    (hp : portValidate c.port = .ok p) (hm : c.method ∈ METHODS) :
    reConfig c = .ok ⟨c.host, p, c.method, c.password, c.tag⟩ := by
  unfold reConfig
  rw [hh]
  show (do
    let port ← portValidate c.port
    let method ← methodValidate c.method
    Except.ok ⟨c.host, port, method, c.password, c.tag⟩ : Except JsError Config)
    = .ok ⟨c.host, p, c.method, c.password, c.tag⟩
  rw [hp]
  show (do
    let method ← methodValidate c.method
    Except.ok ⟨c.host, p, method, c.password, c.tag⟩ : Except JsError Config)
    = .ok ⟨c.host, p, c.method, c.password, c.tag⟩
  rw [show methodValidate c.method = .ok c.method from by unfold methodValidate; rw [if_pos hm]]
  rfl

theorem construct3_fix {c : Config} (hh : hostValidate c.host = .ok c.host)
    (hp : portValidate c.port = .ok c.port) (hm : c.method ∈ METHODS) :
    construct3 c = .ok c := by
  unfold construct3
  rw [reConfig_fix hh hp hm]
  show (do reConfig (← reConfig c) : Except JsError Config) = .ok c
  rw [reConfig_fix hh hp hm]
  show reConfig c = .ok c
  rw [reConfig_fix hh hp hm]

/-- A successfully revalidated host payload, when free of userinfo, port
and authority-special characters, is a fixed point of the host parser. -/
theorem hostValidate_ok_parseHost {H : Str}
    (hchars : ∀ x ∈ H, plainChar x ∧ ¬ isAuthorityEnd x ∧ x ≠ '@' ∧ x ≠ ':' ∧ x ≠ '[')
    (h : hostValidate H = .ok H) : parseHost H = some H := by
  have hne : H ≠ [] := by
    rintro rfl
    exact absurd h (by decide)
  unfold hostValidate at h
  rw [show js "http://" ++ H ++ js "/" = js "http://" ++ H ++ ['/'] from rfl] at h
  rw [urlParse_shape (by
      intro x hx
      rcases List.mem_append.mp hx with hx | hx
      · exact (hchars x hx).1
      · simp only [List.mem_singleton] at hx
        subst hx
        decide)
    hne (fun x hx => (hchars x hx).2.1)
    (Or.inr ⟨'/', [], rfl, by decide⟩)] at h
  unfold urlParseAuthority at h
  rw [JsStr.splitLast_none (fun hm => (hchars _ hm).2.2.1 rfl)] at h
  simp only [] at h
  rw [if_neg (by simpa using hne)] at h
  rw [splitHostPort_nocolon (fun x hx => ⟨(hchars x hx).2.2.2.1, (hchars x hx).2.2.2.2⟩)] at h
  simp only [Option.bind_eq_bind] at h
  rcases hph : parseHost H with _ | hn
  · rw [hph] at h
    simp at h
  · rw [hph] at h
    simp only [Option.some_bind] at h
    rw [show urlPortParse none = some none from rfl] at h
    simp only [Option.some_bind, Option.some.injEq, Except.ok.injEq] at h
    exact congrArg some h

/-! ## The legacy codec, symbolically -/

theorem except_bind_ok {ε α β : Type} (a : α) (f : α → Except ε β) :
    (Except.ok (ε := ε) a >>= f) = f a := rfl

theorem except_bind_err {ε α β : Type} (e : ε) (f : α → Except ε β) :
    (Except.error (α := α) e >>= f) = Except.error e := rfl

theorem legacyFromConfig_eq {c : Config}
    (hm : c.method ∈ METHODS)
    (hh : hostValidate c.host = .ok c.host)
    (hp : portValidate c.port = .ok c.port)
    (hlat : ∀ x ∈ c.method ++ ':' :: c.password ++ '@' :: c.host ++ ':' :: c.port,
      x.toNat < 256) :
    legacyFromConfig c = .ok (c, JsStr.dropTrailing '='
      (b64EncodeBytes ((c.method ++ ':' :: c.password ++ '@' :: c.host ++ ':' :: c.port).map
        Char.toNat))) := by
  simp only [legacyFromConfig, construct3_fix hh hp hm, except_bind_ok,
    b64Encode_eq hlat, stripB64Padding_eq_dropTrailing]

theorem legacyStringify_eq {c : Config}
    (hm : c.method ∈ METHODS)
    (hh : hostValidate c.host = .ok c.host)
    (hp : portValidate c.port = .ok c.port)
    (hlat : ∀ x ∈ c.method ++ ':' :: c.password ++ '@' :: c.host ++ ':' :: c.port,
      x.toNat < 256) :
    legacyStringify c = .ok (js "ss://" ++ JsStr.dropTrailing '='
      (b64EncodeBytes ((c.method ++ ':' :: c.password ++ '@' :: c.host ++ ':' :: c.port).map
        Char.toNat)) ++ getHash c.tag) := by
  simp only [legacyStringify, legacyFromConfig_eq hm hh hp hlat, except_bind_ok]

theorem drop5_sses (t : Str) : (js "ss://" ++ t).drop 5 = t := List.drop_left' rfl

theorem validateProtocol_append (t : Str) : validateProtocol (js "ss://" ++ t) = .ok () := by
  unfold validateProtocol
  rw [if_pos (by rw [List.isPrefixOf_iff_prefix]; exact List.prefix_append _ _)]

theorem legacyParse_eq {c : Config}
    (hm : c.method ∈ METHODS)
    (hh : hostValidate c.host = .ok c.host)
    (hp : portValidate c.port = .ok c.port)
    (hhost : ∀ x ∈ c.host, plainChar x ∧ x ≠ ':')
    (hpw : ∀ x ∈ c.password, x.toNat < 256 ∧ x ≠ '@')
    (hlat : ∀ x ∈ c.method ++ ':' :: c.password ++ '@' :: c.host ++ ':' :: c.port,
      x.toNat < 256) :
    legacyParse (js "ss://" ++ JsStr.dropTrailing '='
      (b64EncodeBytes ((c.method ++ ':' :: c.password ++ '@' :: c.host ++ ':' :: c.port).map
        Char.toNat)) ++ getHash c.tag)
      = .ok ⟨c.host, c.port, c.method, c.password, c.tag, none⟩ := by
  have hmf := methods_chars c.method hm
  set payload := c.method ++ ':' :: c.password ++ '@' :: c.host ++ ':' :: c.port with hpay
  set D := JsStr.dropTrailing '=' (b64EncodeBytes (payload.map Char.toNat)) with hD
  have hbnd : ∀ b ∈ payload.map Char.toNat, b < 256 := map_toNat_bounds hlat
  have hDb64 : ∀ x ∈ D, isB64Char x := fun x hx => stripped_all_b64 _ hbnd x hx
  have hnohash : '#' ∉ js "ss://" ++ D := by
    intro hmem
    rcases List.mem_append.mp hmem with hmem | hmem
    · revert hmem; decide
    · exact (isB64Char_facts (hDb64 _ hmem)).2.2.1 rfl
  have hdecode : b64Decode D = some payload := by
    rw [hD, b64Decode_stripped hbnd, map_ofNat_toNat hlat]
  have hsplit1 : JsStr.splitFirst '@' payload
      = some (c.method ++ ':' :: c.password, c.host ++ ':' :: c.port) := by
    rw [show payload = (c.method ++ ':' :: c.password) ++ '@' :: (c.host ++ ':' :: c.port) from by
      simp [hpay]]
    apply JsStr.splitFirst_append
    intro hmem
    rcases List.mem_append.mp hmem with hmem | hmem
    · exact (hmf _ hmem).2.2.1 rfl
    · rcases List.mem_cons.mp hmem with heq | hmem
      · revert heq; decide
      · exact (hpw _ hmem).2 rfl
  have hsplit2 : JsStr.splitFirst ':' (c.method ++ ':' :: c.password)
      = some (c.method, c.password) := by
    rw [show c.method ++ ':' :: c.password = c.method ++ ':' :: c.password from rfl]
    apply JsStr.splitFirst_append
    intro hmem
    exact (hmf _ hmem).2.1 rfl
  have hsplit3 : JsStr.splitFirst ':' (c.host ++ ':' :: c.port)
      = some (c.host, c.port) := by
    apply JsStr.splitFirst_append
    intro hmem
    exact (hhost _ hmem).2 rfl
  have hmv : methodValidate c.method = .ok c.method := by
    unfold methodValidate; rw [if_pos hm]
  have hfrom : legacyFromConfig ⟨c.host, c.port, c.method, c.password, c.tag⟩
      = .ok (c, D) := legacyFromConfig_eq hm hh hp hlat
  by_cases htag : c.tag = []
  · have hhash : getHash c.tag = [] := by unfold getHash; rw [if_pos htag]
    rw [hhash, List.append_nil]
    have hceq : (⟨c.host, c.port, c.method, c.password, []⟩ : Config) = c := by
      rw [← htag]
    have hfrom0 : legacyFromConfig ⟨c.host, c.port, c.method, c.password, []⟩
        = .ok (c, D) := by
      rw [hceq]; exact hfrom
    have hsf : JsStr.splitFirst '#' (js "ss://" ++ D) = none :=
      JsStr.splitFirst_none hnohash
    simp only [legacyParse, validateProtocol_append, except_bind_ok, hsf, drop5_sses,
      hdecode, hsplit1, hsplit2, hsplit3, hmv, hh, hp, hfrom0,
      show decodeURIComponent [] = some [] from rfl]
    simp only [legacyURIOf, htag]
  · have hhash : getHash c.tag = '#' :: encodeURIComponent c.tag := by
      unfold getHash; rw [if_neg htag]
    rw [hhash]
    have hvp : validateProtocol (js "ss://" ++ D ++ '#' :: encodeURIComponent c.tag)
        = .ok () := by
      rw [List.append_assoc]
      exact validateProtocol_append _
    have hsf : JsStr.splitFirst '#' (js "ss://" ++ D ++ '#' :: encodeURIComponent c.tag)
        = some (js "ss://" ++ D, encodeURIComponent c.tag) :=
      JsStr.splitFirst_append hnohash
    simp only [legacyParse, hvp, except_bind_ok, hsf, drop5_sses,
      hdecode, hsplit1, hsplit2, hsplit3, hmv, hh, hp, hfrom,
      decodeURIComponent_encode c.tag]
    rfl

/-! ## The SIP002 codec, symbolically -/

theorem sip002FromConfig_eq {c : Config} (plugin : Option Str)
    (hm : c.method ∈ METHODS)
    (hh : hostValidate c.host = .ok c.host)
    (hp : portValidate c.port = .ok c.port)
    (hulat : ∀ x ∈ c.method ++ ':' :: c.password, x.toNat < 256) :
    sip002FromConfig c plugin = .ok (c,
      b64EncodeBytes ((c.method ++ ':' :: c.password).map Char.toNat),
      optionalField plugin) := by
  simp only [sip002FromConfig, construct3_fix hh hp hm, except_bind_ok, b64Encode_eq hulat]

theorem sip002Stringify_eq {c : Config} (plugin : Option Str)
    (hm : c.method ∈ METHODS)
    (hh : hostValidate c.host = .ok c.host)
    (hp : portValidate c.port = .ok c.port)
    (hulat : ∀ x ∈ c.method ++ ':' :: c.password, x.toNat < 256) :
    sip002Stringify c plugin = .ok (js "ss://"
      ++ b64EncodeBytes ((c.method ++ ':' :: c.password).map Char.toNat)
      ++ '@' :: c.host ++ ':' :: c.port
      ++ '/' :: (if optionalField plugin = [] then []
          else js "?plugin=" ++ optionalField plugin)
      ++ getHash c.tag) := by
  simp only [sip002Stringify, sip002FromConfig_eq plugin hm hh hp hulat, except_bind_ok]

theorem http_of_ss (t : Str) : js "http" ++ (js "ss://" ++ t).drop 2 = js "http://" ++ t := rfl

theorem formPairs_plugin {pl : Str}
    (hpl : ∀ x ∈ pl, plainChar x ∧ x ≠ '&' ∧ x ≠ '%' ∧ x ≠ '+') :
    formPairs (js "plugin=" ++ pl) = [(js "plugin", pl)] := by
  unfold formPairs
  have hamp : '&' ∉ js "plugin=" ++ pl := by
    intro hmem
    rcases List.mem_append.mp hmem with hmem | hmem
    · revert hmem; decide
    · exact (hpl _ hmem).2.1 rfl
  rw [splitAll_no hamp]
  have hsp : JsStr.splitFirst '=' (js "plugin=" ++ pl) = some (js "plugin", pl) := by
    rw [show js "plugin=" ++ pl = js "plugin" ++ '=' :: pl from rfl]
    exact JsStr.splitFirst_append (by decide)
  simp only [List.filterMap]
  rw [if_neg (by simp [js]), hsp]
  simp only []
  rw [show formDecode (js "plugin") = js "plugin" from by decide,
    formDecode_plain (fun x hx => ⟨(hpl x hx).1, (hpl x hx).2.2.2, (hpl x hx).2.2.1⟩)]

theorem searchParams_plugin {a b : Str} {p : Option Nat} {f : Option Str} {pl : Str}
    (hpl : ∀ x ∈ pl, plainChar x ∧ x ≠ '&' ∧ x ≠ '%' ∧ x ≠ '+') :
    searchParamsGet ⟨a, b, p, some (js "plugin=" ++ pl), f⟩ (js "plugin") = some pl := by
  unfold searchParamsGet
  simp only [Option.getD_some]
  rw [formPairs_plugin hpl]
  simp [List.find?]

theorem pctEncodeWith_noop' {set : Char → Bool} {s : Str} (h : ∀ x ∈ s, set x = false) :
    pctEncodeWith set s = s := by
  apply pctEncodeWith_noop
  intro x hx
  simp [h x hx]

theorem urlParseAuthority_sip002 {U H PT after : Str} {n : Nat} {qv fv : Option Str}
    (hHat : '@' ∉ H)
    (hHc : ∀ x ∈ H, x ≠ ':' ∧ x ≠ '[')
    (hPTd : ∀ x ∈ PT, isDigitC x)
    (hph : parseHost H = some H)
    (hpp : urlPortParse (some PT) = some (some n))
    (hqf : urlQueryFrag after = (qv, fv)) :
    urlParseAuthority (U ++ '@' :: H ++ ':' :: PT) after
      = some ⟨urlUsername (some U), H, some n, qv, fv⟩ := by
  unfold urlParseAuthority
  have hsplit : JsStr.splitLast '@' (U ++ '@' :: H ++ ':' :: PT)
      = some (U, H ++ ':' :: PT) := by
    rw [show U ++ '@' :: H ++ ':' :: PT = U ++ '@' :: (H ++ ':' :: PT) from by simp]
    apply JsStr.splitLast_append
    intro hmem
    rcases List.mem_append.mp hmem with hmem | hmem
    · exact hHat hmem
    · rcases List.mem_cons.mp hmem with heq | hmem
      · revert heq; decide
      · exact (isDigitC_facts (hPTd _ hmem)).2.2.1 rfl
  rw [hsplit]
  simp only []
  rw [if_neg (by simp)]
  rw [splitHostPort_append hHc]
  simp only [Option.bind_eq_bind]
  rw [hph]
  simp only [Option.some_bind]
  rw [hpp]
  simp only [Option.some_bind]
  rw [hqf]

theorem sip002Parse_eq {c : Config} (plugin : Option Str)
    (hm : c.method ∈ METHODS)
    (hh : hostValidate c.host = .ok c.host)
    (hp : portValidate c.port = .ok c.port)
    (hhost : ∀ x ∈ c.host, plainChar x ∧ ¬ isAuthorityEnd x ∧ x ≠ '@' ∧ x ≠ ':' ∧ x ≠ '[')
    (hpwlat : ∀ x ∈ c.password, x.toNat < 256)
    (hUslash : '/' ∉ b64EncodeBytes ((c.method ++ ':' :: c.password).map Char.toNat))
    (hpl : ∀ x ∈ optionalField plugin, plainChar x ∧ x ≠ '&' ∧ x ≠ '#' ∧ x ≠ '%' ∧
      x ≠ '+' ∧ x ≠ '"' ∧ x ≠ '<' ∧ x ≠ '>') :
    sip002Parse (js "ss://"
      ++ b64EncodeBytes ((c.method ++ ':' :: c.password).map Char.toNat)
      ++ '@' :: c.host ++ ':' :: c.port
      ++ '/' :: (if optionalField plugin = [] then []
          else js "?plugin=" ++ optionalField plugin)
      ++ getHash c.tag)
      = .ok ⟨c.host, c.port, c.method, c.password, c.tag, some (optionalField plugin)⟩ := by
  have hmf := methods_chars c.method hm
  have hulat : ∀ x ∈ c.method ++ ':' :: c.password, x.toNat < 256 := by
    intro x hx
    rcases List.mem_append.mp hx with hx | hx
    · have := plainChar_toNat (hmf x hx).1
      omega
    · rcases List.mem_cons.mp hx with rfl | hx
      · decide
      · exact hpwlat x hx
  obtain ⟨n, hn65, hn80, hPT⟩ := portValidate_fix_out hp
  have hUchars : ∀ x ∈ b64EncodeBytes ((c.method ++ ':' :: c.password).map Char.toNat),
      (isB64Char x ∧ x ≠ '/') ∨ x = '=' := by
    intro x hx
    rcases encodeBytes_chars _ (map_toNat_bounds hulat) x hx with hb | rfl
    · refine Or.inl ⟨hb, ?_⟩
      rintro rfl
      exact hUslash hx
    · exact Or.inr rfl
  generalize hU : b64EncodeBytes ((c.method ++ ':' :: c.password).map Char.toNat) = U at *
  have hUplain : ∀ x ∈ U, plainChar x := by
    intro x hx
    rcases hUchars x hx with ⟨hb, _⟩ | rfl
    · exact (isB64Char_facts hb).1
    · decide
  have hUterm : ∀ x ∈ U, ¬ isAuthorityEnd x := by
    intro x hx
    rcases hUchars x hx with ⟨hb, hs⟩ | rfl
    · exact (isB64Char_more_facts hb hs).1
    · decide
  have hUat : '@' ∉ U := by
    intro hmem
    rcases hUchars _ hmem with ⟨hb, _⟩ | he
    · exact (isB64Char_facts hb).2.2.2.1 rfl
    · exact absurd he (by decide)
  have hUcolon : ':' ∉ U := by
    intro hmem
    rcases hUchars _ hmem with ⟨hb, _⟩ | he
    · exact (isB64Char_facts hb).2.2.2.2.1 rfl
    · exact absurd he (by decide)
  have hptd : ∀ x ∈ c.port, isDigitC x := by
    rw [hPT]
    exact decStr_digits n
  have hmemauth : ∀ x ∈ (U ++ '@' :: c.host ++ ':' :: c.port : Str),
      x ∈ U ∨ x = '@' ∨ x ∈ c.host ∨ x = ':' ∨ x ∈ c.port := by
    intro x hx
    rcases List.mem_append.mp hx with hx | hx
    · rcases List.mem_append.mp hx with hx | hx
      · exact Or.inl hx
      · rcases List.mem_cons.mp hx with rfl | hx
        · exact Or.inr (Or.inl rfl)
        · exact Or.inr (Or.inr (Or.inl hx))
    · rcases List.mem_cons.mp hx with rfl | hx
      · exact Or.inr (Or.inr (Or.inr (Or.inl rfl)))
      · exact Or.inr (Or.inr (Or.inr (Or.inr hx)))
  have hauthplain : ∀ x ∈ (U ++ '@' :: c.host ++ ':' :: c.port : Str), plainChar x := by
    intro x hx
    rcases hmemauth x hx with hx | rfl | hx | rfl | hx
    · exact hUplain x hx
    · decide
    · exact (hhost x hx).1
    · decide
    · exact isDigitC_plain (hptd x hx)
  have hauthterm : ∀ x ∈ (U ++ '@' :: c.host ++ ':' :: c.port : Str), ¬ isAuthorityEnd x := by
    intro x hx
    rcases hmemauth x hx with hx | rfl | hx | rfl | hx
    · exact hUterm x hx
    · decide
    · exact (hhost x hx).2.1
    · decide
    · exact (isDigitC_facts (hptd x hx)).1
  have husr : urlUsername (some U) = pctEncodeWith userinfoSet U := by
    simp only [urlUsername]
    rw [flatMap_id_of (fun x hx => if_neg (fun he => by
      subst he
      rcases hUchars _ hx with ⟨hb, _⟩ | he2
      · exact (isB64Char_facts hb).2.2.2.1 rfl
      · exact absurd he2 (by decide)))]
    rw [JsStr.splitFirst_none hUcolon]
    rfl
  have husername : JsStr.replacePct3D (urlUsername (some U)) = U := by
    rw [husr]
    exact replacePct3D_userinfo U hUchars
  have hdecU : b64Decode U = some (c.method ++ ':' :: c.password) := by
    rw [← hU, b64Decode_encodeBytes (map_toNat_bounds hulat), map_ofNat_toNat hulat]
  have hsplitc : JsStr.splitFirst ':' (c.method ++ ':' :: c.password)
      = some (c.method, c.password) := by
    apply JsStr.splitFirst_append
    intro hmem
    exact (hmf _ hmem).2.1 rfl
  have hmv : methodValidate c.method = .ok c.method := by
    unfold methodValidate
    rw [if_pos hm]
  have hpv : portValidate (decStr n) = .ok c.port := by
    rw [hPT]
    exact portValidate_decStr hn65 hn80
  have hph : parseHost c.host = some c.host :=
    hostValidate_ok_parseHost hhost hh
  have hpp : urlPortParse (some c.port) = some (some n) := by
    rw [hPT]
    exact urlPortParse_decStr hn65 hn80
  have hauth := fun {after qv fv} (hqf : urlQueryFrag after = (qv, fv)) =>
    @urlParseAuthority_sip002 U c.host c.port after n qv fv
      (fun hmem => (hhost _ hmem).2.2.1 rfl)
      (fun x hx => ⟨(hhost x hx).2.2.2.1, (hhost x hx).2.2.2.2⟩)
      hptd hph hpp hqf
  by_cases hplq : optionalField plugin = []
  · rw [if_pos hplq]
    by_cases htag : c.tag = []
    · rw [show getHash c.tag = [] from by unfold getHash; rw [if_pos htag]]
      rw [show js "ss://" ++ U ++ '@' :: c.host ++ ':' :: c.port ++ '/' :: ([] : Str) ++ []
          = js "ss://" ++ ((U ++ '@' :: c.host ++ ':' :: c.port) ++ ['/']) from by simp]
      have hplainA : ∀ x ∈ (U ++ '@' :: c.host ++ ':' :: c.port) ++ (['/'] : Str),
          plainChar x := by
        intro x hx
        rcases List.mem_append.mp hx with hx | hx
        · exact hauthplain x hx
        · exact (by decide : ∀ y ∈ (['/'] : Str), plainChar y) x hx
      have hupA : urlParse (js "http://" ++ ((U ++ '@' :: c.host ++ ':' :: c.port) ++ ['/']))
          = some ⟨urlUsername (some U), c.host, some n, none, none⟩ := by
        rw [← List.append_assoc]
        rw [urlParse_shape hplainA (by simp) hauthterm (Or.inr ⟨'/', [], rfl, by decide⟩)]
        exact hauth (by decide)
      have hceqA : (⟨c.host, c.port, c.method, c.password, []⟩ : Config) = c := by
        rw [← htag]
      have hfcA : sip002FromConfig ⟨c.host, c.port, c.method, c.password, []⟩ none
          = .ok (c, U, optionalField plugin) := by
        rw [hceqA]
        have h0 := sip002FromConfig_eq none hm hh hp hulat
        rw [hU] at h0
        rw [h0, hplq]
        rfl
      simp only [sip002Parse, validateProtocol_append, except_bind_ok, http_of_ss, hupA, hh,
        show urlPort ⟨urlUsername (some U), c.host, some n, none, none⟩ = decStr n from rfl,
        hpv,
        show decodeURIComponent
          ((urlHash ⟨urlUsername (some U), c.host, some n, none, none⟩).drop 1)
          = some [] from rfl,
        husername, hdecU, hsplitc, hmv,
        show searchParamsGet ⟨urlUsername (some U), c.host, some n, none, none⟩
          (js "plugin") = none from rfl,
        hfcA]
    · rcases henc : encodeURIComponent c.tag with _ | ⟨e, es⟩
      · exact absurd henc (enc_ne_nil htag)
      · rw [show getHash c.tag = '#' :: encodeURIComponent c.tag from by
          unfold getHash; rw [if_neg htag]]
        rw [henc]
        rw [show js "ss://" ++ U ++ '@' :: c.host ++ ':' :: c.port ++ '/' :: ([] : Str)
              ++ '#' :: e :: es
            = js "ss://" ++ ((U ++ '@' :: c.host ++ ':' :: c.port) ++ ('/' :: '#' :: e :: es))
            from by simp]
        have hplainB : ∀ x ∈ (U ++ '@' :: c.host ++ ':' :: c.port)
            ++ ('/' :: '#' :: e :: es : Str), plainChar x := by
          intro x hx
          rcases List.mem_append.mp hx with hx | hx
          · exact hauthplain x hx
          · rcases List.mem_cons.mp hx with rfl | hx
            · decide
            · rcases List.mem_cons.mp hx with rfl | hx
              · decide
              · exact enc_plain c.tag x (henc ▸ hx)
        have hqfB : urlQueryFrag ('/' :: '#' :: e :: es) = (none, some (e :: es)) := by
          have h1 : JsStr.splitFirst '#' (['/'] ++ '#' :: e :: es) = some (['/'], e :: es) :=
            JsStr.splitFirst_append (by decide)
          have h2 : pctEncodeWith fragmentSet (e :: es) = e :: es := by
            apply pctEncodeWith_noop'
            intro x hx
            exact (enc_sets x (henc ▸ hx)).2
          simp only [urlQueryFrag,
            show ('/' :: '#' :: e :: es : Str) = ['/'] ++ '#' :: e :: es from rfl, h1,
            show JsStr.splitFirst '?' (['/'] : Str) = none from by decide, h2]
        have hupB : urlParse (js "http://" ++ ((U ++ '@' :: c.host ++ ':' :: c.port)
              ++ ('/' :: '#' :: e :: es)))
            = some ⟨urlUsername (some U), c.host, some n, none, some (e :: es)⟩ := by
          rw [← List.append_assoc]
          rw [urlParse_shape hplainB (by simp) hauthterm
            (Or.inr ⟨'/', '#' :: e :: es, rfl, by decide⟩)]
          exact hauth hqfB
        have htagB : decodeURIComponent
            ((urlHash ⟨urlUsername (some U), c.host, some n, none, some (e :: es)⟩).drop 1)
            = some c.tag := by
          show decodeURIComponent (e :: es) = some c.tag
          rw [← henc]
          exact decodeURIComponent_encode c.tag
        have hfcB : sip002FromConfig ⟨c.host, c.port, c.method, c.password, c.tag⟩ none
            = .ok (c, U, optionalField plugin) := by
          rw [show (⟨c.host, c.port, c.method, c.password, c.tag⟩ : Config) = c from rfl]
          have h0 := sip002FromConfig_eq none hm hh hp hulat
          rw [hU] at h0
          rw [h0, hplq]
          rfl
        simp only [sip002Parse, validateProtocol_append, except_bind_ok, http_of_ss, hupB, hh,
          show urlPort ⟨urlUsername (some U), c.host, some n, none, some (e :: es)⟩
            = decStr n from rfl,
          hpv, htagB, husername, hdecU, hsplitc, hmv,
          show searchParamsGet ⟨urlUsername (some U), c.host, some n, none, some (e :: es)⟩
            (js "plugin") = none from rfl,
          hfcB]
  · rw [if_neg hplq]
    have hsgq : searchParamsGet ⟨urlUsername (some U), c.host, some n,
        some (js "plugin=" ++ optionalField plugin), (none : Option Str)⟩ (js "plugin")
        = some (optionalField plugin) :=
      searchParams_plugin (fun x hx =>
        ⟨(hpl x hx).1, (hpl x hx).2.1, (hpl x hx).2.2.2.1, (hpl x hx).2.2.2.2.1⟩)
    have hsgq2 : ∀ (e : Char) (es : Str), searchParamsGet ⟨urlUsername (some U), c.host, some n,
        some (js "plugin=" ++ optionalField plugin), some (e :: es)⟩ (js "plugin")
        = some (optionalField plugin) := fun e es =>
      searchParams_plugin (fun x hx =>
        ⟨(hpl x hx).1, (hpl x hx).2.1, (hpl x hx).2.2.2.1, (hpl x hx).2.2.2.2.1⟩)
    have hifs : (if optionalField plugin = [] then (none : Option Str)
        else some (optionalField plugin)) = some (optionalField plugin) := if_neg hplq
    have hnohashQ : ∀ x ∈ ('/' :: '?' :: (js "plugin=" ++ optionalField plugin) : Str),
        x ≠ '#' := by
      intro x hx
      rcases List.mem_cons.mp hx with rfl | hx
      · decide
      · rcases List.mem_cons.mp hx with rfl | hx
        · decide
        · rcases List.mem_append.mp hx with hx | hx
          · exact (by decide : ∀ y ∈ js "plugin=", y ≠ '#') x hx
          · exact (hpl x hx).2.2.1
    have hqplain : ∀ x ∈ ('/' :: '?' :: (js "plugin=" ++ optionalField plugin) : Str),
        plainChar x := by
      intro x hx
      rcases List.mem_cons.mp hx with rfl | hx
      · decide
      · rcases List.mem_cons.mp hx with rfl | hx
        · decide
        · rcases List.mem_append.mp hx with hx | hx
          · exact (by decide : ∀ y ∈ js "plugin=", plainChar y) x hx
          · exact (hpl x hx).1
    have hqnoop : pctEncodeWith querySet (js "plugin=" ++ optionalField plugin)
        = js "plugin=" ++ optionalField plugin := by
      apply pctEncodeWith_noop'
      intro x hx
      rcases List.mem_append.mp hx with hx | hx
      · exact (by decide : ∀ y ∈ js "plugin=", querySet y = false) x hx
      · exact querySet_of_plain (hpl x hx).1 (hpl x hx).2.2.2.2.2.1 (hpl x hx).2.2.1
          (hpl x hx).2.2.2.2.2.2.1 (hpl x hx).2.2.2.2.2.2.2
    by_cases htag : c.tag = []
    · rw [show getHash c.tag = [] from by unfold getHash; rw [if_pos htag]]
      rw [show js "ss://" ++ U ++ '@' :: c.host ++ ':' :: c.port
            ++ '/' :: (js "?plugin=" ++ optionalField plugin) ++ []
          = js "ss://" ++ ((U ++ '@' :: c.host ++ ':' :: c.port)
            ++ ('/' :: '?' :: (js "plugin=" ++ optionalField plugin))) from by
            simp [show (js "?plugin=" : Str) = '?' :: js "plugin=" from rfl]]
      have hplainC : ∀ x ∈ (U ++ '@' :: c.host ++ ':' :: c.port)
          ++ ('/' :: '?' :: (js "plugin=" ++ optionalField plugin) : Str), plainChar x := by
        intro x hx
        rcases List.mem_append.mp hx with hx | hx
        · exact hauthplain x hx
        · exact hqplain x hx
      have hqfC : urlQueryFrag ('/' :: '?' :: (js "plugin=" ++ optionalField plugin))
          = (some (js "plugin=" ++ optionalField plugin), none) := by
        have h1 : JsStr.splitFirst '#'
            ('/' :: '?' :: (js "plugin=" ++ optionalField plugin)) = none :=
          JsStr.splitFirst_none (by
            intro hmem
            exact hnohashQ '#' hmem rfl)
        have h2 : JsStr.splitFirst '?'
            ('/' :: '?' :: (js "plugin=" ++ optionalField plugin))
            = some (['/'], js "plugin=" ++ optionalField plugin) := by
          rw [show ('/' :: '?' :: (js "plugin=" ++ optionalField plugin) : Str)
            = ['/'] ++ '?' :: (js "plugin=" ++ optionalField plugin) from rfl]
          exact JsStr.splitFirst_append (by decide)
        simp only [urlQueryFrag, h1, h2, hqnoop]
      have hupC : urlParse (js "http://" ++ ((U ++ '@' :: c.host ++ ':' :: c.port)
            ++ ('/' :: '?' :: (js "plugin=" ++ optionalField plugin))))
          = some ⟨urlUsername (some U), c.host, some n,
              some (js "plugin=" ++ optionalField plugin), none⟩ := by
        rw [← List.append_assoc]
        rw [urlParse_shape hplainC (by simp) hauthterm
          (Or.inr ⟨'/', '?' :: (js "plugin=" ++ optionalField plugin), rfl, by decide⟩)]
        exact hauth hqfC
      have hceqC : (⟨c.host, c.port, c.method, c.password, []⟩ : Config) = c := by
        rw [← htag]
      have hfcC : sip002FromConfig ⟨c.host, c.port, c.method, c.password, []⟩
          (some (optionalField plugin)) = .ok (c, U, optionalField plugin) := by
        rw [hceqC]
        have h0 := sip002FromConfig_eq (some (optionalField plugin)) hm hh hp hulat
        rw [hU] at h0
        rw [h0]
        rfl
      simp only [sip002Parse, validateProtocol_append, except_bind_ok, http_of_ss, hupC, hh,
        show urlPort ⟨urlUsername (some U), c.host, some n,
          some (js "plugin=" ++ optionalField plugin), none⟩ = decStr n from rfl,
        hpv,
        show decodeURIComponent ((urlHash ⟨urlUsername (some U), c.host, some n,
          some (js "plugin=" ++ optionalField plugin), none⟩).drop 1) = some [] from rfl,
        husername, hdecU, hsplitc, hmv, hsgq, hifs, hfcC]
    · rcases henc : encodeURIComponent c.tag with _ | ⟨e, es⟩
      · exact absurd henc (enc_ne_nil htag)
      · rw [show getHash c.tag = '#' :: encodeURIComponent c.tag from by
          unfold getHash; rw [if_neg htag]]
        rw [henc]
        rw [show js "ss://" ++ U ++ '@' :: c.host ++ ':' :: c.port
              ++ '/' :: (js "?plugin=" ++ optionalField plugin) ++ '#' :: e :: es
            = js "ss://" ++ ((U ++ '@' :: c.host ++ ':' :: c.port)
              ++ (('/' :: '?' :: (js "plugin=" ++ optionalField plugin)) ++ '#' :: e :: es))
            from by
            simp [show (js "?plugin=" : Str) = '?' :: js "plugin=" from rfl]]
        have hplainD : ∀ x ∈ (U ++ '@' :: c.host ++ ':' :: c.port)
            ++ (('/' :: '?' :: (js "plugin=" ++ optionalField plugin)) ++ '#' :: e :: es : Str),
            plainChar x := by
          intro x hx
          rcases List.mem_append.mp hx with hx | hx
          · exact hauthplain x hx
          · rcases List.mem_append.mp hx with hx | hx
            · exact hqplain x hx
            · rcases List.mem_cons.mp hx with rfl | hx
              · decide
              · exact enc_plain c.tag x (henc ▸ hx)
        have hqfD : urlQueryFrag (('/' :: '?' :: (js "plugin=" ++ optionalField plugin))
              ++ '#' :: e :: es)
            = (some (js "plugin=" ++ optionalField plugin), some (e :: es)) := by
          have h1 : JsStr.splitFirst '#'
              (('/' :: '?' :: (js "plugin=" ++ optionalField plugin)) ++ '#' :: e :: es)
              = some ('/' :: '?' :: (js "plugin=" ++ optionalField plugin), e :: es) :=
            JsStr.splitFirst_append (by
              intro hmem
              exact hnohashQ '#' hmem rfl)
          have h2 : JsStr.splitFirst '?'
              ('/' :: '?' :: (js "plugin=" ++ optionalField plugin))
              = some (['/'], js "plugin=" ++ optionalField plugin) := by
            rw [show ('/' :: '?' :: (js "plugin=" ++ optionalField plugin) : Str)
              = ['/'] ++ '?' :: (js "plugin=" ++ optionalField plugin) from rfl]
            exact JsStr.splitFirst_append (by decide)
          have h3 : pctEncodeWith fragmentSet (e :: es) = e :: es := by
            apply pctEncodeWith_noop'
            intro x hx
            exact (enc_sets x (henc ▸ hx)).2
          simp only [urlQueryFrag, h1, h2, h3, hqnoop]
        have hupD : urlParse (js "http://" ++ ((U ++ '@' :: c.host ++ ':' :: c.port)
              ++ (('/' :: '?' :: (js "plugin=" ++ optionalField plugin)) ++ '#' :: e :: es)))
            = some ⟨urlUsername (some U), c.host, some n,
                some (js "plugin=" ++ optionalField plugin), some (e :: es)⟩ := by
          rw [← List.append_assoc]
          rw [urlParse_shape hplainD (by simp) hauthterm
            (Or.inr ⟨'/', ('?' :: (js "plugin=" ++ optionalField plugin)) ++ '#' :: e :: es,
              rfl, by decide⟩)]
          exact hauth hqfD
        have htagD : decodeURIComponent
            ((urlHash ⟨urlUsername (some U), c.host, some n,
              some (js "plugin=" ++ optionalField plugin), some (e :: es)⟩).drop 1)
            = some c.tag := by
          show decodeURIComponent (e :: es) = some c.tag
          rw [← henc]
          exact decodeURIComponent_encode c.tag
        have hfcD : sip002FromConfig ⟨c.host, c.port, c.method, c.password, c.tag⟩
            (some (optionalField plugin)) = .ok (c, U, optionalField plugin) := by
          rw [show (⟨c.host, c.port, c.method, c.password, c.tag⟩ : Config) = c from rfl]
          have h0 := sip002FromConfig_eq (some (optionalField plugin)) hm hh hp hulat
          rw [hU] at h0
          rw [h0]
          rfl
        simp only [sip002Parse, validateProtocol_append, except_bind_ok, http_of_ss, hupD, hh,
          show urlPort ⟨urlUsername (some U), c.host, some n,
            some (js "plugin=" ++ optionalField plugin), some (e :: es)⟩ = decStr n from rfl,
          hpv, htagD, husername, hdecU, hsplitc, hmv, hsgq2 e es, hifs, hfcD]

/-! # Claim theorems -/

/-- C1 (amended): round trips hold for canonical configs away from the
delimiter pathologies.  For a `Config` whose payloads revalidate to
themselves, whose host is a plain hostname free of `@ : [` and authority
terminators, whose password is Latin-1 and `@`-free, whose base64 userinfo
contains no `/`, and whose plugin payload avoids the query delimiters,
`parse (stringify c)` reproduces every field payload for both codecs (and
the plugin payload for SIP002). -/
theorem claim_C1_roundtrip (c : Config) (plugin : Option Str)
    (hm : c.method ∈ METHODS)
    (hh : hostValidate c.host = .ok c.host)
    (hp : portValidate c.port = .ok c.port)
    (hhost : ∀ x ∈ c.host, plainChar x ∧ ¬ isAuthorityEnd x ∧ x ≠ '@' ∧ x ≠ ':' ∧ x ≠ '[')
    (hpw : ∀ x ∈ c.password, x.toNat < 256 ∧ x ≠ '@')
    (hUslash : '/' ∉ b64EncodeBytes ((c.method ++ ':' :: c.password).map Char.toNat))
    (hpl : ∀ x ∈ optionalField plugin, plainChar x ∧ x ≠ '&' ∧ x ≠ '#' ∧ x ≠ '%' ∧
      x ≠ '+' ∧ x ≠ '"' ∧ x ≠ '<' ∧ x ≠ '>') :
    (∀ s, legacyStringify c = .ok s →
      legacyParse s = .ok ⟨c.host, c.port, c.method, c.password, c.tag, none⟩) ∧
    (∀ s, sip002Stringify c plugin = .ok s →
      sip002Parse s = .ok ⟨c.host, c.port, c.method, c.password, c.tag,
        some (optionalField plugin)⟩) ∧
    (legacyStringify c).isOk = true ∧ (sip002Stringify c plugin).isOk = true := by
  have hmf := methods_chars c.method hm
  obtain ⟨n, hn65, hn80, hPT⟩ := portValidate_fix_out hp
  have hptd : ∀ x ∈ c.port, isDigitC x := by
    rw [hPT]
    exact decStr_digits n
  have hlat : ∀ x ∈ c.method ++ ':' :: c.password ++ '@' :: c.host ++ ':' :: c.port,
      x.toNat < 256 := by
    intro x hx
    rcases List.mem_append.mp hx with hx | hx
    · rcases List.mem_append.mp hx with hx | hx
      · rcases List.mem_append.mp hx with hx | hx
        · have := plainChar_toNat (hmf x hx).1
          omega
        · rcases List.mem_cons.mp hx with rfl | hx
          · decide
          · exact (hpw x hx).1
      · rcases List.mem_cons.mp hx with rfl | hx
        · decide
        · have := plainChar_toNat (hhost x hx).1
          omega
    · rcases List.mem_cons.mp hx with rfl | hx
      · decide
      · have := plainChar_toNat (isDigitC_plain (hptd x hx))
        omega
  have hulat : ∀ x ∈ c.method ++ ':' :: c.password, x.toNat < 256 := by
    intro x hx
    rcases List.mem_append.mp hx with hx | hx
    · have := plainChar_toNat (hmf x hx).1
      omega
    · rcases List.mem_cons.mp hx with rfl | hx
      · decide
      · exact (hpw x hx).1
  refine ⟨?_, ?_, ?_, ?_⟩
  · intro s hs
    rw [legacyStringify_eq hm hh hp hlat] at hs
    injection hs with hseq
    rw [← hseq]
    exact legacyParse_eq hm hh hp
      (fun x hx => ⟨(hhost x hx).1, (hhost x hx).2.2.2.1⟩) hpw hlat
  · intro s hs
    rw [sip002Stringify_eq plugin hm hh hp hulat] at hs
    injection hs with hseq
    rw [← hseq]
    exact sip002Parse_eq plugin hm hh hp hhost (fun x hx => (hpw x hx).1) hUslash hpl
  · rw [legacyStringify_eq hm hh hp hlat]
    rfl
  · rw [sip002Stringify_eq plugin hm hh hp hulat]
    rfl

/-- C1 witness: the round trips at the repository's own test vectors,
obtained from `claim_C1_roundtrip`. -/
theorem claim_C1_witness :
    legacyParse (js "ss://cmM0LW1kNTpwYXNzd2RAMTkyLjE2OC4xMDAuMTo4ODg4")
      = .ok ⟨js "192.168.100.1", js "8888", js "rc4-md5", js "passwd", [], none⟩ ∧
    sip002Parse (js "ss://cmM0LW1kNTpwYXNzd2Q=@192.168.100.1:8888/?plugin=obfs-local;obfs=http")
      = .ok ⟨js "192.168.100.1", js "8888", js "rc4-md5", js "passwd", [],
          some (js "obfs-local;obfs=http")⟩ := by
  have h := claim_C1_roundtrip ⟨js "192.168.100.1", js "8888", js "rc4-md5", js "passwd", []⟩
    (some (js "obfs-local;obfs=http")) (by decide) (by decide) (by decide) (by decide)
    (by decide) (by decide) (by decide)
  exact ⟨h.1 (js "ss://cmM0LW1kNTpwYXNzd2RAMTkyLjE2OC4xMDAuMTo4ODg4") (by decide),
    h.2.1 (js "ss://cmM0LW1kNTpwYXNzd2Q=@192.168.100.1:8888/?plugin=obfs-local;obfs=http")
      (by decide)⟩

/-- C1 counterexample: a password containing `@` breaks the legacy round
trip as the claim states it; parsing the serialized URI splits at the first
`@` of the decoded payload and returns password `a` instead of `a@b`. -/
theorem claim_C1_counterexample :
    legacyStringify ⟨js "example.com", js "8888", js "rc4-md5", js "a@b", []⟩
      = .ok (js "ss://cmM0LW1kNTphQGJAZXhhbXBsZS5jb206ODg4OA") ∧
    legacyParse (js "ss://cmM0LW1kNTphQGJAZXhhbXBsZS5jb206ODg4OA")
      = .ok ⟨js "example.com", js "8888", js "rc4-md5", js "a", [], none⟩ ∧
    (js "a" : Str) ≠ js "a@b" := by decide

/-- C2 (amended): the dispatcher attempts `LegacyBase64URI.parse` first and
`Sip002URI.parse` second, returning the first success: a legacy success is
returned unconditionally, and a SIP002 success is returned whenever the
legacy codec failed. -/
theorem claim_C2_dispatch (uri : Str) :
    (∀ r, legacyParse uri = .ok r → ssParse uri = .ok r) ∧
    (∀ e r, legacyParse uri = .error e → sip002Parse uri = .ok r → ssParse uri = .ok r) := by
  constructor
  · intro r h
    simp only [ssParse, h]
  · intro e r h1 h2
    simp only [ssParse, h1, h2]

/-- C2 witness: the dispatcher applied to a legacy vector and to a
SIP002-only vector, via `claim_C2_dispatch`. -/
theorem claim_C2_witness :
    ssParse (js "ss://YmYtY2ZiOnRlc3RAMTkyLjE2OC4xMDAuMTo4ODg4#Foo%20Bar")
      = .ok ⟨js "192.168.100.1", js "8888", js "bf-cfb", js "test", js "Foo Bar", none⟩ ∧
    ssParse (js "ss://cmM0LW1kNTpwYXNzd2Q=@192.168.100.1:8888/?plugin=obfs-local%3Bobfs%3Dhttp")
      = .ok ⟨js "192.168.100.1", js "8888", js "rc4-md5", js "passwd", [],
          some (js "obfs-local;obfs=http")⟩ := by
  constructor
  · exact (claim_C2_dispatch _).1 _ (by decide)
  · exact (claim_C2_dispatch _).2 b64DecodeErr _ (by decide) (by decide)

/-- C2 counterexample: the source dispatcher (legacy first) and the
claimed SIP002-first dispatcher disagree on an input both codecs reject,
because each wraps its own first-recorded error. -/
theorem claim_C2_counterexample :
    ssParse (js "ss://not-base64") ≠ specOrderParse (js "ss://not-base64") := by decide

/-- C3: the SIP002 serializer contradicts the claim (and the repository's
own test expectations): the claim's IPv6 literal scenario cannot even be
constructed (the unbracketed IPv6 host is rejected by `Host`), and a
plugin value is emitted verbatim in the query, not percent-encoded. -/
theorem claim_C3_serializer_bug :
    sip002Stringify ⟨js "2001:0:ce49:7601:e866:efff:62c3:fffe", js "8888",
        js "aes-128-gcm", js "test", js "Foo Bar"⟩ none
      = .error (invalidFieldErr (js "host") (js "2001:0:ce49:7601:e866:efff:62c3:fffe")) ∧
    sip002Stringify ⟨js "192.168.100.1", js "8888", js "rc4-md5", js "passwd", []⟩
        (some (js "obfs-local;obfs=http"))
      = .ok (js "ss://cmM0LW1kNTpwYXNzd2Q=@192.168.100.1:8888/?plugin=obfs-local;obfs=http") := by
  decide

/-- C4 (amended): `Config` construction validates host, port, method in
field order, aborts with the failing field's error, and defaults password
and tag; but a missing field reaches the validators as the string
`"undefined"`, so a missing host is accepted as hostname `undefined`
rather than failing. -/
theorem claim_C4_validation_order (r : RawConfig) :
    (∀ e, hostValidate (r.host.getD (js "undefined")) = .error e →
      makeConfig r = .error e) ∧
    (∀ h e, hostValidate (r.host.getD (js "undefined")) = .ok h →
      portValidate (r.port.getD (js "undefined")) = .error e →
      makeConfig r = .error e) ∧
    (∀ h p e, hostValidate (r.host.getD (js "undefined")) = .ok h →
      portValidate (r.port.getD (js "undefined")) = .ok p →
      methodValidate (r.method.getD (js "undefined")) = .error e →
      makeConfig r = .error e) ∧
    (∀ h p m, hostValidate (r.host.getD (js "undefined")) = .ok h →
      portValidate (r.port.getD (js "undefined")) = .ok p →
      methodValidate (r.method.getD (js "undefined")) = .ok m →
      makeConfig r = .ok ⟨h, p, m, optionalField r.password, optionalField r.tag⟩) := by
  have hu : urlParse (js "http://0.0.0.0:undefined/") = none := by decide
  have hpu : portValidate (js "undefined")
      = Except.error (invalidFieldErr (js "port") (js "undefined")) := by decide
  refine ⟨?_, ?_, ?_, ?_⟩
  · intro e he
    simp only [makeConfig, he, except_bind_err]
  · intro h e hhk hpe
    rcases hrp : r.port with _ | p
    · rw [hrp, Option.getD_none, hpu] at hpe
      injection hpe with heq
      simp only [makeConfig, hhk, except_bind_ok, hrp, hu, except_bind_err]
      rw [← heq]
    · rw [hrp, Option.getD_some] at hpe
      simp only [makeConfig, hhk, except_bind_ok, hrp, hpe, except_bind_err]
  · intro h p e hhk hpk hme
    rcases hrp : r.port with _ | p'
    · rw [hrp, Option.getD_none, hpu] at hpk
      exact Except.noConfusion hpk
    · rw [hrp, Option.getD_some] at hpk
      simp only [makeConfig, hhk, except_bind_ok, hrp, hpk, hme, except_bind_err]
  · intro h p m hhk hpk hmk
    rcases hrp : r.port with _ | p'
    · rw [hrp, Option.getD_none, hpu] at hpk
      exact Except.noConfusion hpk
    · rw [hrp, Option.getD_some] at hpk
      simp only [makeConfig, hhk, except_bind_ok, hrp, hpk, hmk]
      rfl

/-- C4 witness: a complete record constructs, and an invalid port aborts
with the port error, via `claim_C4_validation_order`. -/
theorem claim_C4_witness :
    makeConfig ⟨some (js "192.168.100.1"), some (js "8888"), some (js "aes-128-gcm"),
        some (js "test"), some (js "Foo Bar")⟩
      = .ok ⟨js "192.168.100.1", js "8888", js "aes-128-gcm", js "test", js "Foo Bar"⟩ ∧
    makeConfig ⟨some (js "192.168.100.1"), some (js "foo"), some (js "aes-128-gcm"),
        none, none⟩
      = .error (invalidFieldErr (js "port") (js "foo")) := by
  constructor
  · exact (claim_C4_validation_order _).2.2.2 _ _ _ (by decide) (by decide) (by decide)
  · exact (claim_C4_validation_order _).2.1 (js "192.168.100.1") _ (by decide) (by decide)

/-- C4 counterexample: with host missing and all other fields valid, the
claim demands failure with the host's `InvalidConfigField`; the code
instead accepts the coerced hostname `undefined`. -/
theorem claim_C4_counterexample :
    makeConfig ⟨none, some (js "8888"), some (js "aes-128-gcm"), some (js "test"), none⟩
      = .ok ⟨js "undefined", js "8888", js "aes-128-gcm", js "test", []⟩ := by decide

/-- C5: when both codecs fail, the dispatcher surfaces exactly the first
recorded (legacy) failure: re-thrown unchanged when it is an `InvalidURI`,
otherwise wrapped into an `InvalidURI` embedding the input and the first
failure's name and message; the second codec's error is discarded. -/
theorem claim_C5_error_surface (uri : Str) (e1 e2 : JsError)
    (h1 : legacyParse uri = .error e1) (h2 : sip002Parse uri = .error e2) :
    ssParse uri = .error (if e1.kind = .invalidURI then e1
      else ⟨.invalidURI, js "Invalid input: " ++ uri ++ js " - Original error: "
        ++ (if errName e1.kind = [] then js "(Unnamed Error)" else errName e1.kind)
        ++ ':' :: ' ' :: (if e1.message = [] then js "(no error message provided)"
            else e1.message)⟩) := by
  simp only [ssParse, h1, h2]
  rfl

/-- C5 witness: both codecs reject `not a URI` with the protocol error, an
`InvalidURI`, which the dispatcher re-throws unchanged, via
`claim_C5_error_surface`. -/
theorem claim_C5_witness :
    ssParse (js "not a URI")
      = .error ⟨.invalidURI, js "URI must start with \"ss://\": " ++ js "not a URI"⟩ := by
  rw [claim_C5_error_surface (js "not a URI")
    ⟨.invalidURI, js "URI must start with \"ss://\": " ++ js "not a URI"⟩
    ⟨.invalidURI, js "URI must start with \"ss://\": " ++ js "not a URI"⟩
    (by decide) (by decide)]
  decide

/-- C6: `Port` validation of the scheme default `80` (string or number)
succeeds with the empty payload instead of the decimal string `80` the
claim requires, because the URL parser nulls the default port; neighboring
behavior (leading-zero stripping, range rejection) matches the claim. -/
theorem claim_C6_port80_bug :
    portValidate (js "80") = .ok [] ∧
    portValidateNum 80 = .ok [] ∧
    portValidate (js "80") ≠ .ok (js "80") ∧
    portValidate (js "01234") = .ok (js "1234") ∧
    portValidate (js "65536") = .error (invalidFieldErr (js "port") (js "65536")) := by
  decide

/-- C7: `Host` accepts `-`, `-pwned`, `.` and `....` verbatim, though the
claim (and the repository's own test suite) requires them rejected; the
empty string and `;echo pwned` are rejected and punycode conversion works
as claimed. -/
theorem claim_C7_host_accepts_invalid :
    hostValidate (js "-") = .ok (js "-") ∧
    hostValidate (js "-pwned") = .ok (js "-pwned") ∧
    hostValidate (js ".") = .ok (js ".") ∧
    hostValidate (js "....") = .ok (js "....") ∧
    hostValidate [] = .error (invalidFieldErr (js "host") []) ∧
    hostValidate (js ";echo pwned") = .error (invalidFieldErr (js "host") (js ";echo pwned")) ∧
    hostValidate (js "mañana.com") = .ok (js "xn--maana-pta.com") := by decide

/-- C8 (amended): for every `Config` whose method is whitelisted, whose
host payload revalidates to itself and whose `method:password@host` part is
Latin-1, legacy serialization is decided by revalidating the port payload:
a nonempty revalidated port `p` yields exactly `ss://` + padding-stripped
base64 of `method:password@host:p` + optional `#` tag fragment; a port
payload that revalidates to `''` (what `Port` stores for input 80) makes
the constructor's revalidation pass throw `InvalidConfigField` for the
port; an invalid port payload propagates its own error. -/
theorem claim_C8_legacy_serialization (c : Config)
    (hm : c.method ∈ METHODS)
    (hh : hostValidate c.host = .ok c.host)
    (hlat : ∀ x ∈ c.method ++ ':' :: c.password ++ '@' :: c.host, x.toNat < 256) :
    (∀ e, portValidate c.port = .error e → legacyStringify c = .error e) ∧
    (portValidate c.port = .ok [] →
      legacyStringify c = .error (invalidFieldErr (js "port") [])) ∧
    (∀ p, portValidate c.port = .ok p → p ≠ [] →
      legacyStringify c = .ok (js "ss://" ++ JsStr.dropTrailing '='
        (b64EncodeBytes ((c.method ++ ':' :: c.password ++ '@' :: c.host ++ ':' :: p).map
          Char.toNat))
        ++ (if c.tag = [] then [] else '#' :: encodeURIComponent c.tag))) := by
  have hpnil : portValidate [] = Except.error (α := Str) (invalidFieldErr (js "port") []) := by
    decide
  refine ⟨?_, ?_, ?_⟩
  · intro e he
    have h1 : reConfig c = .error e := by
      unfold reConfig
      rw [hh]
      show (do
        let port ← portValidate c.port
        let method ← methodValidate c.method
        Except.ok ⟨c.host, port, method, c.password, c.tag⟩ : Except JsError Config)
        = .error e
      rw [he]
      rfl
    simp only [legacyStringify, legacyFromConfig, construct3, h1, except_bind_err]
  · intro hpe
    have h1 : reConfig c = .ok ⟨c.host, [], c.method, c.password, c.tag⟩ :=
      reConfig_eq hh hpe hm
    have h2 : reConfig ⟨c.host, [], c.method, c.password, c.tag⟩
        = .error (invalidFieldErr (js "port") []) := by
      simp only [reConfig, hh, except_bind_ok, hpnil, except_bind_err]
    simp only [legacyStringify, legacyFromConfig, construct3, h1, except_bind_ok, h2,
      except_bind_err]
  · intro p hpk hpne
    rcases portValidate_out hpk with rfl | ⟨n, hn65, hn80, rfl⟩
    · exact absurd rfl hpne
    · have h1 : reConfig c = .ok ⟨c.host, decStr n, c.method, c.password, c.tag⟩ :=
        reConfig_eq hh hpk hm
      have hfix : reConfig ⟨c.host, decStr n, c.method, c.password, c.tag⟩
          = .ok ⟨c.host, decStr n, c.method, c.password, c.tag⟩ :=
        reConfig_fix hh (portValidate_decStr hn65 hn80) hm
      have hplat : ∀ x ∈ c.method ++ ':' :: c.password ++ '@' :: c.host ++ ':' :: decStr n,
          x.toNat < 256 := by
        intro x hx
        rcases List.mem_append.mp hx with hx | hx
        · exact hlat x hx
        · rcases List.mem_cons.mp hx with rfl | hx
          · decide
          · have := plainChar_toNat (isDigitC_plain (decStr_digits n x hx))
            omega
      simp only [legacyStringify, legacyFromConfig, construct3, h1, except_bind_ok, hfix,
        b64Encode_eq hplat, stripB64Padding_eq_dropTrailing]
      rfl

/-- C8 witness: the claim's literal scenario, plus the port-80 payloads
(`'80'` revalidating to `''`, and `''` itself) on which serialization
throws the port error, all via `claim_C8_legacy_serialization`. -/
theorem claim_C8_witness :
    legacyStringify ⟨js "192.168.100.1", js "8888", js "bf-cfb", js "test", js "Foo Bar"⟩
      = .ok (js "ss://YmYtY2ZiOnRlc3RAMTkyLjE2OC4xMDAuMTo4ODg4#Foo%20Bar") ∧
    legacyStringify ⟨js "192.168.100.1", js "80", js "bf-cfb", js "test", []⟩
      = .error (invalidFieldErr (js "port") []) ∧
    legacyStringify ⟨js "192.168.100.1", [], js "bf-cfb", js "test", []⟩
      = .error (invalidFieldErr (js "port") []) := by
  refine ⟨?_, ?_, ?_⟩
  · rw [(claim_C8_legacy_serialization ⟨js "192.168.100.1", js "8888", js "bf-cfb",
      js "test", js "Foo Bar"⟩ (by decide) (by decide) (by decide)).2.2
      (js "8888") (by decide) (by decide)]
    decide
  · exact (claim_C8_legacy_serialization ⟨js "192.168.100.1", js "80", js "bf-cfb",
      js "test", []⟩ (by decide) (by decide) (by decide)).2.1 (by decide)
  · exact (claim_C8_legacy_serialization ⟨js "192.168.100.1", [], js "bf-cfb",
      js "test", []⟩ (by decide) (by decide) (by decide)).1
      (invalidFieldErr (js "port") []) (by decide)

/-- C8 counterexample: a valid `Config` whose password lies outside
Latin-1 makes legacy serialization throw the `base-64` encoder's range
error instead of producing a URI, refuting the claim as stated. -/
theorem claim_C8_counterexample :
    legacyStringify ⟨js "192.168.100.1", js "8888", js "bf-cfb", js "☃", []⟩
      = .error b64EncodeErr := by decide

/-- C9: validation is not idempotent: `Port` maps `80` to the empty
payload, which `Port` itself then rejects, while `Method` (and the other
field types) revalidate their payloads unchanged. -/
theorem claim_C9_idempotence_bug :
    portValidate (js "80") = .ok [] ∧
    portValidate [] = .error (invalidFieldErr (js "port") []) ∧
    methodValidate (js "rc4-md5") = .ok (js "rc4-md5") := by decide

/-- C10 (amended): copy construction re-runs each field's validation on the
stored payload; it preserves every nonempty `Port` payload and every
`Method` payload, and is the identity for `Password`, `Tag` and `Plugin`
(the `Port` instance with payload `''`, from input `80`, instead throws). -/
theorem claim_C10_copy :
    (∀ x p, portValidate x = Except.ok p → p ≠ [] → portCopy p = Except.ok p) ∧
    (∀ m p, methodValidate m = Except.ok p → methodCopy p = Except.ok p) ∧
    (∀ p, passwordCopy p = p ∧ tagCopy p = p ∧ pluginCopy p = p) := by
  refine ⟨?_, ?_, ?_⟩
  · intro x p h hne
    rcases portValidate_out h with rfl | ⟨n, h65, h80, rfl⟩
    · exact absurd rfl hne
    · exact portValidate_decStr h65 h80
  · intro m p h
    obtain ⟨heq, hmem⟩ := methodValidate_ok h
    subst heq
    exact h
  · intro p
    exact ⟨rfl, rfl, rfl⟩

/-- C10 witness: copy construction preserving concrete payloads, via
`claim_C10_copy`. -/
theorem claim_C10_witness :
    portCopy (js "8888") = Except.ok (js "8888") ∧
    methodCopy (js "rc4-md5") = Except.ok (js "rc4-md5") ∧
    passwordCopy (js "pw") = js "pw" := by
  have h := claim_C10_copy
  exact ⟨h.1 (js "8888") (js "8888") (by decide) (by decide),
    h.2.1 (js "rc4-md5") (js "rc4-md5") (by decide),
    (h.2.2 (js "pw")).1⟩

/-- C10 counterexample: the `Port` instance constructed from `80` has
payload `''`, and copy-constructing from it throws, refuting both the
"no re-validation" and the "identity on payloads" parts of the claim. -/
theorem claim_C10_counterexample :
    portValidate (js "80") = .ok [] ∧
    portCopy [] = .error (invalidFieldErr (js "port") []) := by decide
